import Mathlib

/-!
# Verification of the chord/melody extraction core

A shallow embedding, over exact rationals, of the signal-processing core of
the chord-melody-extractor repository: chroma extraction, key estimation,
chord template matching, onset/tempo/beat estimation, beat quantization,
YIN pitch tracking and note segmentation.  Floating point arithmetic in the
source is modelled by exact rational arithmetic; the square roots appearing
in correlation and cosine-similarity computations are kept symbolically in a
dedicated `Score` type (a value `num / sqrt den`) whose order is decided in
ℚ and proved equivalent to the real order.
-/

/-! ## JavaScript / Swift numeric primitives -/

/-- JavaScript `Math.round`: round half towards +∞, i.e. `⌊q + 1/2⌋`. -/
def jsRound (q : ℚ) : ℤ := ⌊q + 1/2⌋

/-- Truncation towards zero, the behaviour of `Int(_)` casts in Swift and of
the implicit truncation in the JavaScript `%` operator. -/
def jsTrunc (q : ℚ) : ℤ := if 0 ≤ q then ⌊q⌋ else ⌈q⌉

/-- JavaScript `%` on numbers (remainder with the sign of the dividend):
`a % b = a - b * trunc (a / b)`.  (For `b = 0` JavaScript yields `NaN`;
that case is never reached by the guarded call sites embedded here.) -/
def jsRem (a b : ℚ) : ℚ := a - b * jsTrunc (a / b)

/-- JavaScript `%` on integers (sign of the dividend), for a positive
modulus. -/
def jsRemInt (a : ℤ) (b : ℤ) : ℤ :=
  a - b * (if 0 ≤ a then a / b else -((-a) / b))

theorem jsTrunc_eq_floor {q : ℚ} (h : 0 ≤ q) : jsTrunc q = ⌊q⌋ := by
  simp [jsTrunc, h]

/-- For `0 ≤ a < b`, the JavaScript remainder is the identity. -/
theorem jsRem_eq_self {a b : ℚ} (h0 : 0 ≤ a) (hb : 0 < b) (hab : a < b) :
    jsRem a b = a := by
  have hdiv0 : 0 ≤ a / b := div_nonneg h0 hb.le
  have hdiv1 : a / b < 1 := (div_lt_one hb).mpr hab
  have : ⌊a / b⌋ = 0 := by
    apply Int.floor_eq_zero_iff.mpr
    constructor <;> simp_all
  simp [jsRem, jsTrunc_eq_floor hdiv0, this]

/-! ### Exact `⌊log₂⌋` on ℚ

`Math.log2` appears in the sources only inside `round(12*log2(f/440)+69)`
(web) and `Int(12*log2(f/440)+69)` (Swift).  Both are integer results and
are computed here exactly:
`round (12*log2 r + 69) = ⌊(⌊log2 (r^24)⌋ + 139) / 2⌋` and
`⌊12*log2 r + 69⌋ = ⌊log2 (r^12)⌋ + 69`,
so only `⌊log₂⌋` of a positive rational is needed.  It is implemented by
fuel-bounded binary search so that witnesses evaluate by kernel
reduction. -/

/-- `⌊log₂ n⌋` for `1 ≤ n`, with explicit fuel (`fuel ≥ n` suffices). -/
def natLog2Aux : ℕ → ℕ → ℕ
  | 0, _ => 0
  | fuel + 1, n => if n ≤ 1 then 0 else natLog2Aux fuel (n / 2) + 1

def natLog2 (n : ℕ) : ℕ := natLog2Aux n n

/-- `⌈log₂ n⌉` for `1 ≤ n`, with explicit fuel. -/
def natClog2Aux : ℕ → ℕ → ℕ
  | 0, _ => 0
  | fuel + 1, n => if n ≤ 1 then 0 else natClog2Aux fuel ((n + 1) / 2) + 1

def natClog2 (n : ℕ) : ℕ := natClog2Aux n n

theorem natLog2Aux_spec :
    ∀ fuel n, 1 ≤ n → n ≤ fuel →
      2 ^ natLog2Aux fuel n ≤ n ∧ n < 2 ^ (natLog2Aux fuel n + 1) := by
  intro fuel
  induction fuel with
  | zero => intro n h1 h2; omega
  | succ f ih =>
    intro n h1 h2
    by_cases hn : n ≤ 1
    · have : n = 1 := le_antisymm hn h1
      subst this
      simp [natLog2Aux]
    · have h2n : 2 ≤ n := by omega
      have hrec := ih (n / 2) (by omega) (by omega)
      have hstep : natLog2Aux (f + 1) n = natLog2Aux f (n / 2) + 1 := by
        simp [natLog2Aux, hn]
      rw [hstep]
      have hlo := hrec.1
      have hhi := hrec.2
      have hpow1 : 2 ^ (natLog2Aux f (n / 2) + 1) = 2 ^ natLog2Aux f (n / 2) * 2 :=
        pow_succ 2 _
      have hpow2 : 2 ^ (natLog2Aux f (n / 2) + 1 + 1) = 2 ^ (natLog2Aux f (n / 2) + 1) * 2 :=
        pow_succ 2 _
      omega

theorem natLog2_spec {n : ℕ} (h : 1 ≤ n) :
    2 ^ natLog2 n ≤ n ∧ n < 2 ^ (natLog2 n + 1) :=
  natLog2Aux_spec n n h le_rfl

theorem natClog2Aux_spec :
    ∀ fuel n, 2 ≤ n → n ≤ fuel →
      2 ^ (natClog2Aux fuel n - 1) < n ∧ n ≤ 2 ^ natClog2Aux fuel n ∧
        1 ≤ natClog2Aux fuel n := by
  intro fuel
  induction fuel with
  | zero => intro n h1 h2; omega
  | succ f ih =>
    intro n h1 h2
    have hn : ¬ n ≤ 1 := by omega
    have hstep : natClog2Aux (f + 1) n = natClog2Aux f ((n + 1) / 2) + 1 := by
      simp [natClog2Aux, hn]
    rw [hstep]
    by_cases hsmall : (n + 1) / 2 ≤ 1
    · -- (n+1)/2 ≤ 1 forces n = 2
      have hn2 : n = 2 := by omega
      subst hn2
      have h12 : (2 + 1) / 2 = 1 := by norm_num
      rw [h12]
      have h0 : natClog2Aux f 1 = 0 := by
        cases f <;> simp [natClog2Aux]
      rw [h0]
      norm_num
    · have hm2 : 2 ≤ (n + 1) / 2 := by omega
      have hmf : (n + 1) / 2 ≤ f := by omega
      obtain ⟨hlt, hle, hpos⟩ := ih ((n + 1) / 2) hm2 hmf
      have hc1 : natClog2Aux f ((n + 1) / 2) - 1 + 1 = natClog2Aux f ((n + 1) / 2) := by
        omega
      have hpow1 : 2 ^ natClog2Aux f ((n + 1) / 2) =
          2 ^ (natClog2Aux f ((n + 1) / 2) - 1) * 2 := by
        conv_lhs => rw [← hc1]
        rw [pow_succ]
      have hpow2 : 2 ^ (natClog2Aux f ((n + 1) / 2) + 1) =
          2 ^ natClog2Aux f ((n + 1) / 2) * 2 := pow_succ 2 _
      have hred : natClog2Aux f ((n + 1) / 2) + 1 - 1 = natClog2Aux f ((n + 1) / 2) :=
        Nat.succ_sub_one _
      refine ⟨?_, by omega, by omega⟩
      rw [hred]
      omega

theorem natClog2_spec {n : ℕ} (h : 2 ≤ n) :
    2 ^ (natClog2 n - 1) < n ∧ n ≤ 2 ^ natClog2 n ∧ 1 ≤ natClog2 n :=
  natClog2Aux_spec n n h le_rfl

/-- `⌊log₂ q⌋` for a positive rational `q` (junk value for `q ≤ 0`;
every call site guards `q > 0`). -/
def ratFloorLog2 (q : ℚ) : ℤ :=
  if 1 ≤ q then (natLog2 ⌊q⌋.toNat : ℤ) else -(natClog2 ⌈q⁻¹⌉.toNat : ℤ)

/-- Characterisation of `ratFloorLog2`: `2 ^ L ≤ q < 2 ^ (L + 1)`. -/
theorem ratFloorLog2_spec {q : ℚ} (hq : 0 < q) :
    (2 : ℚ) ^ ratFloorLog2 q ≤ q ∧ q < 2 ^ (ratFloorLog2 q + 1) := by
  by_cases h1 : 1 ≤ q
  · have hfl : (1 : ℤ) ≤ ⌊q⌋ := Int.le_floor.mpr (by exact_mod_cast h1)
    have htn : ((⌊q⌋.toNat : ℤ)) = ⌊q⌋ := Int.toNat_of_nonneg (by omega)
    have hnat : 1 ≤ ⌊q⌋.toNat := by omega
    obtain ⟨hlo, hhi⟩ := natLog2_spec hnat
    have hL : ratFloorLog2 q = (natLog2 ⌊q⌋.toNat : ℤ) := by simp [ratFloorLog2, h1]
    rw [hL]
    have hfloorle : ((⌊q⌋ : ℚ)) ≤ q := Int.floor_le q
    have hqlt : q < ((⌊q⌋ : ℚ)) + 1 := Int.lt_floor_add_one q
    have hcast : ((⌊q⌋.toNat : ℚ)) = ((⌊q⌋ : ℚ)) := by exact_mod_cast htn
    constructor
    · rw [zpow_natCast]
      have h2 : ((2 : ℚ)) ^ natLog2 ⌊q⌋.toNat ≤ ((⌊q⌋.toNat : ℚ)) := by
        exact_mod_cast hlo
      rw [hcast] at h2
      linarith
    · have hcastp : ((natLog2 ⌊q⌋.toNat : ℤ) + 1) = ((natLog2 ⌊q⌋.toNat + 1 : ℕ) : ℤ) := by
        push_cast
        ring
      rw [hcastp, zpow_natCast]
      have h3 : (⌊q⌋.toNat + 1 : ℕ) ≤ 2 ^ (natLog2 ⌊q⌋.toNat + 1) := hhi
      have h2 : ((⌊q⌋.toNat : ℚ)) + 1 ≤ (2 : ℚ) ^ (natLog2 ⌊q⌋.toNat + 1) := by
        exact_mod_cast h3
      rw [hcast] at h2
      linarith
  · -- 0 < q < 1
    have hqlt1 : q < 1 := lt_of_not_le h1
    have hq1 : 1 < q⁻¹ := by
      have h2 : q * q⁻¹ = 1 := mul_inv_cancel₀ hq.ne'
      nlinarith [inv_pos.mpr hq]
    have hce : 2 ≤ ⌈q⁻¹⌉ := by
      have h2 : (1 : ℚ) < ((⌈q⁻¹⌉ : ℚ)) := lt_of_lt_of_le hq1 (Int.le_ceil q⁻¹)
      have h3 : (1 : ℤ) < ⌈q⁻¹⌉ := by exact_mod_cast h2
      omega
    have htn : ((⌈q⁻¹⌉.toNat : ℤ)) = ⌈q⁻¹⌉ := Int.toNat_of_nonneg (by omega)
    have hnat : 2 ≤ ⌈q⁻¹⌉.toNat := by omega
    obtain ⟨hlt, hle, hpos⟩ := natClog2_spec hnat
    have hL : ratFloorLog2 q = -(natClog2 ⌈q⁻¹⌉.toNat : ℤ) := by simp [ratFloorLog2, h1]
    rw [hL]
    set c := natClog2 ⌈q⁻¹⌉.toNat with hc
    have hcastc : ((⌈q⁻¹⌉.toNat : ℚ)) = ((⌈q⁻¹⌉ : ℚ)) := by exact_mod_cast htn
    have hiub : q⁻¹ ≤ (2 : ℚ) ^ c := by
      have h2 : ((⌈q⁻¹⌉.toNat : ℚ)) ≤ ((2 ^ c : ℕ) : ℚ) := by exact_mod_cast hle
      rw [hcastc] at h2
      have h3 : q⁻¹ ≤ ((⌈q⁻¹⌉ : ℚ)) := Int.le_ceil _
      have h4 : ((2 ^ c : ℕ) : ℚ) = (2 : ℚ) ^ c := by push_cast; ring
      linarith [h4 ▸ h2]
    have hilb : (2 : ℚ) ^ (c - 1) < q⁻¹ := by
      have h2 : ((2 ^ (c - 1) + 1 : ℕ) : ℚ) ≤ ((⌈q⁻¹⌉.toNat : ℚ)) := by exact_mod_cast hlt
      rw [hcastc] at h2
      have h3 : ((⌈q⁻¹⌉ : ℚ)) - 1 < q⁻¹ := by
        have := Int.ceil_lt_add_one q⁻¹
        linarith
      have h4 : ((2 ^ (c - 1) + 1 : ℕ) : ℚ) = (2 : ℚ) ^ (c - 1) + 1 := by push_cast; ring
      linarith [h4 ▸ h2]
    have hpowpos : (0 : ℚ) < (2 : ℚ) ^ c := by positivity
    constructor
    · -- 2^(-c) ≤ q  from  q⁻¹ ≤ 2^c
      have h5 : (2 : ℚ) ^ (-(c : ℤ)) = ((2 : ℚ) ^ c)⁻¹ := by
        rw [zpow_neg, zpow_natCast]
      rw [h5]
      have h6 : q⁻¹ * q = 1 := inv_mul_cancel₀ hq.ne'
      have h7 : (1 : ℚ) ≤ (2 : ℚ) ^ c * q := by nlinarith
      rw [inv_le_iff_one_le_mul₀ hpowpos]
      linarith
    · -- q < 2^(1-c)  from  2^(c-1) < q⁻¹
      have hcc : (-(c : ℤ) + 1) = -(((c - 1 : ℕ) : ℤ)) := by omega
      rw [hcc, zpow_neg, zpow_natCast]
      have hR : (0 : ℚ) < (2 : ℚ) ^ (c - 1) := by positivity
      have h6 : q⁻¹ * q = 1 := inv_mul_cancel₀ hq.ne'
      have h8 : q < 1 / (2 : ℚ) ^ (c - 1) := (lt_div_iff₀ hR).mpr (by nlinarith)
      rw [one_div] at h8
      exact h8

/-- The exact value of `Math.round(12 * Math.log2 r + 69)` (web chroma
mapping, for `r = freq/440 > 0`). -/
def roundedMidi (r : ℚ) : ℤ := (ratFloorLog2 (r ^ 24) + 139).ediv 2

/-- The exact value of `Int(12 * log2 r + 69)` (Swift chroma mapping) for
`r > 80/440`, where the pitch value is positive so that Swift truncation
agrees with the floor. -/
def flooredPitch (r : ℚ) : ℤ := ratFloorLog2 (r ^ 12) + 69

/-! ## Exact square-root-valued scores

`correlate`/`correlation` (Pearson) and `cosineSimilarity` in the sources
return `num / sqrt den` for rationals `num`, `den` with `den > 0` (the
degenerate zero-variance case is mapped to `0 = 0 / sqrt 1` exactly as the
sources return `0`).  The comparisons performed on these values by the
argmax loops are decided exactly in ℚ and proved to agree with the real
order. -/

structure Score where
  num : ℚ
  den : ℚ
deriving DecidableEq, Repr

/-- The comparison `a < b` on values `a.num / √a.den`, `b.num / √b.den`,
decided by sign analysis and cross-multiplied squares. -/
def Score.ltb (a b : Score) : Bool :=
  if a.num < 0 ∧ 0 ≤ b.num then true
  else if 0 ≤ a.num ∧ 0 ≤ b.num then decide (a.num ^ 2 * b.den < b.num ^ 2 * a.den)
  else if a.num < 0 ∧ b.num < 0 then decide (b.num ^ 2 * a.den < a.num ^ 2 * b.den)
  else false

def Score.zero : Score := ⟨0, 1⟩

def Score.one : Score := ⟨1, 1⟩

/-- Multiplication by a rational factor (used for template weights, key
bonus and harmonic emphasis, which are all rational). -/
def Score.scale (q : ℚ) (s : Score) : Score := ⟨q * s.num, s.den⟩

/-- `Math.min(1, s)` as used on stored confidences. -/
def Score.min1 (s : Score) : Score := if Score.ltb Score.one s then Score.one else s

/-- `Math.max(0, s)` as used on the final key confidence. -/
def Score.max0 (s : Score) : Score := if Score.ltb s Score.zero then Score.zero else s

/-- The decidable order on `Score` agrees with the real order of the
denoted values `num / √den` (for positive `den`). -/
theorem Score.ltb_iff (a b : Score) (ha : 0 < a.den) (hb : 0 < b.den) :
    Score.ltb a b = true ↔
      (a.num : ℝ) / Real.sqrt (a.den : ℚ) < (b.num : ℝ) / Real.sqrt (b.den : ℚ) := by
  have hsa : (0 : ℝ) < Real.sqrt (a.den : ℚ) := Real.sqrt_pos.mpr (by exact_mod_cast ha)
  have hsb : (0 : ℝ) < Real.sqrt (b.den : ℚ) := Real.sqrt_pos.mpr (by exact_mod_cast hb)
  have hsa2 : Real.sqrt (a.den : ℚ) ^ 2 = (a.den : ℝ) :=
    Real.sq_sqrt (by exact_mod_cast ha.le)
  have hsb2 : Real.sqrt (b.den : ℚ) ^ 2 = (b.den : ℝ) :=
    Real.sq_sqrt (by exact_mod_cast hb.le)
  rw [div_lt_div_iff₀ hsa hsb]
  unfold Score.ltb
  by_cases h1 : a.num < 0 ∧ 0 ≤ b.num
  · rw [if_pos h1]
    have ha1 : (a.num : ℝ) < 0 := by exact_mod_cast h1.1
    have hb1 : (0 : ℝ) ≤ (b.num : ℝ) := by exact_mod_cast h1.2
    refine ⟨fun _ => ?_, fun _ => rfl⟩
    nlinarith
  · rw [if_neg h1]
    by_cases h2 : 0 ≤ a.num ∧ 0 ≤ b.num
    · rw [if_pos h2, decide_eq_true_eq]
      have ha1 : (0 : ℝ) ≤ (a.num : ℝ) := by exact_mod_cast h2.1
      have hb1 : (0 : ℝ) ≤ (b.num : ℝ) := by exact_mod_cast h2.2
      constructor
      · intro hlt
        have hlt2 : (a.num : ℝ) ^ 2 * (b.den : ℝ) < (b.num : ℝ) ^ 2 * (a.den : ℝ) := by
          exact_mod_cast hlt
        nlinarith [mul_nonneg ha1 hsb.le, mul_nonneg hb1 hsa.le]
      · intro hlt
        have hlt2 : (a.num : ℝ) ^ 2 * (b.den : ℝ) < (b.num : ℝ) ^ 2 * (a.den : ℝ) := by
          nlinarith [mul_nonneg ha1 hsb.le, mul_nonneg hb1 hsa.le]
        exact_mod_cast hlt2
    · rw [if_neg h2]
      by_cases h3 : a.num < 0 ∧ b.num < 0
      · rw [if_pos h3, decide_eq_true_eq]
        have ha1 : (a.num : ℝ) < 0 := by exact_mod_cast h3.1
        have hb1 : (b.num : ℝ) < 0 := by exact_mod_cast h3.2
        have hu : (a.num : ℝ) * Real.sqrt (b.den : ℚ) < 0 := mul_neg_of_neg_of_pos ha1 hsb
        have hv : (b.num : ℝ) * Real.sqrt (a.den : ℚ) < 0 := mul_neg_of_neg_of_pos hb1 hsa
        constructor
        · intro hlt
          have hlt2 : (b.num : ℝ) ^ 2 * (a.den : ℝ) < (a.num : ℝ) ^ 2 * (b.den : ℝ) := by
            exact_mod_cast hlt
          by_contra hcon
          push_neg at hcon
          nlinarith [hu, hv, hlt2, hsa2, hsb2]
        · intro hlt
          have hlt2 : (b.num : ℝ) ^ 2 * (a.den : ℝ) < (a.num : ℝ) ^ 2 * (b.den : ℝ) := by
            nlinarith [hu, hv, hsa2, hsb2]
          exact_mod_cast hlt2
      · rw [if_neg h3]
        have hcase : 0 ≤ a.num ∧ b.num < 0 := by
          rcases lt_or_le a.num 0 with h | h
          · rcases lt_or_le b.num 0 with h4 | h4
            · exact absurd ⟨h, h4⟩ h3
            · exact absurd ⟨h, h4⟩ h1
          · rcases lt_or_le b.num 0 with h4 | h4
            · exact ⟨h, h4⟩
            · exact absurd ⟨h, h4⟩ h2
        have ha1 : (0 : ℝ) ≤ (a.num : ℝ) := by exact_mod_cast hcase.1
        have hb1 : (b.num : ℝ) < 0 := by exact_mod_cast hcase.2
        constructor
        · intro hfalse
          exact absurd hfalse (by simp)
        · intro hlt
          have hu : (0 : ℝ) ≤ (a.num : ℝ) * Real.sqrt (b.den : ℚ) := mul_nonneg ha1 hsb.le
          have hv : (b.num : ℝ) * Real.sqrt (a.den : ℚ) < 0 := mul_neg_of_neg_of_pos hb1 hsa
          linarith

theorem Score.ltb_irrefl (a : Score) (ha : 0 < a.den) : Score.ltb a a = false := by
  by_contra h
  have h2 : Score.ltb a a = true := by
    cases hba : Score.ltb a a
    · exact absurd hba h
    · rfl
  rw [Score.ltb_iff a a ha ha] at h2
  exact lt_irrefl _ h2

theorem Score.ltb_trans {a b c : Score} (ha : 0 < a.den) (hb : 0 < b.den) (hc : 0 < c.den)
    (h1 : Score.ltb a b = true) (h2 : Score.ltb b c = true) : Score.ltb a c = true := by
  rw [Score.ltb_iff a b ha hb] at h1
  rw [Score.ltb_iff b c hb hc] at h2
  rw [Score.ltb_iff a c ha hc]
  linarith

theorem Score.ltb_neg_trans {a b c : Score} (ha : 0 < a.den) (hb : 0 < b.den) (hc : 0 < c.den)
    (h1 : Score.ltb a b = false) (h2 : Score.ltb b c = false) : Score.ltb a c = false := by
  cases hac : Score.ltb a c
  · rfl
  · exfalso
    rw [Score.ltb_iff a c ha hc] at hac
    have h1r : ¬ ((a.num : ℝ) / Real.sqrt (a.den : ℚ) < (b.num : ℝ) / Real.sqrt (b.den : ℚ)) := by
      rw [← Score.ltb_iff a b ha hb]
      simp [h1]
    have h2r : ¬ ((b.num : ℝ) / Real.sqrt (b.den : ℚ) < (c.num : ℝ) / Real.sqrt (c.den : ℚ)) := by
      rw [← Score.ltb_iff b c hb hc]
      simp [h2]
    push_neg at h1r h2r
    linarith

/-! ## The shared argmax loop

Every detector in the sources selects a winner with the same loop shape:
a running best that is replaced exactly when the new candidate compares
strictly greater.  `selectBest` models that loop (the `none` start models
the `-Infinity` / sentinel initial best, which the first candidate always
beats), and is proved to return the first maximum of the candidate list. -/

def selectGo {α : Type} (b : α × Score) : List (α × Score) → α × Score
  | [] => b
  | x :: xs => selectGo (if Score.ltb b.2 x.2 then x else b) xs

def selectBest {α : Type} (l : List (α × Score)) : Option (α × Score) :=
  l.foldl
    (fun acc c =>
      match acc with
      | none => some c
      | some b => if Score.ltb b.2 c.2 then some c else some b)
    none

/-- A candidate beating every element of `l` (weakly), i.e. a maximum. -/
def isMaxOf {α : Type} (l : List (α × Score)) (c : α × Score) : Bool :=
  l.all fun d => ! Score.ltb c.2 d.2

theorem find?_congr {α : Type} {p q : α → Bool} :
    ∀ l : List α, (∀ x ∈ l, p x = q x) → l.find? p = l.find? q := by
  intro l
  induction l with
  | nil => intro _; rfl
  | cons x xs ih =>
    intro h
    have hx : p x = q x := h x (List.mem_cons_self x xs)
    by_cases hp : p x = true
    · rw [List.find?_cons_of_pos _ hp, List.find?_cons_of_pos _ (hx ▸ hp)]
    · have hp2 : p x = false := by
        cases hpx : p x
        · rfl
        · exact absurd hpx hp
      rw [List.find?_cons_of_neg _ (by simp [hp2]), List.find?_cons_of_neg _ (by simp [hx ▸ hp2])]
      exact ih fun y hy => h y (List.mem_cons_of_mem x hy)

theorem isMaxOf_eq_true {α : Type} {l : List (α × Score)} {c : α × Score} :
    isMaxOf l c = true ↔ ∀ d ∈ l, Score.ltb c.2 d.2 = false := by
  rw [isMaxOf, List.all_eq_true]
  constructor
  · intro h d hd
    have h2 := h d hd
    cases hl : Score.ltb c.2 d.2
    · rfl
    · rw [hl] at h2
      exact absurd h2 (by simp)
  · intro h d hd
    rw [h d hd]
    rfl

theorem selectGo_eq_findFirstMax {α : Type} :
    ∀ (l : List (α × Score)) (b : α × Score),
      (∀ c ∈ b :: l, 0 < c.2.den) →
      some (selectGo b l) = (b :: l).find? (isMaxOf (b :: l)) := by
  intro l
  induction l with
  | nil =>
    intro b hden
    have hb := hden b (List.mem_cons_self b [])
    have hmax : isMaxOf [b] b = true := by
      rw [isMaxOf_eq_true]
      intro d hd
      rw [List.mem_singleton] at hd
      rw [hd]
      exact Score.ltb_irrefl b.2 hb
    rw [List.find?_cons_of_pos _ hmax]
    rfl
  | cons x xs ih =>
    intro b hden
    have hdb : 0 < b.2.den := hden b (by simp)
    have hdx : 0 < x.2.den := hden x (by simp)
    by_cases hbx : Score.ltb b.2 x.2 = true
    · -- b is beaten by x: the running best moves to x; b cannot be a maximum
      have hstep : selectGo b (x :: xs) = selectGo x xs := by
        simp [selectGo, hbx]
      have hdenx : ∀ c ∈ x :: xs, 0 < c.2.den := fun c hc =>
        hden c (List.mem_cons_of_mem b hc)
      have hbfail : isMaxOf (b :: x :: xs) b = false := by
        cases hall : isMaxOf (b :: x :: xs) b
        · rfl
        · exfalso
          have h2 := (isMaxOf_eq_true.mp hall) x (by simp)
          rw [hbx] at h2
          exact Bool.noConfusion h2
      have hagree : ∀ c ∈ x :: xs, isMaxOf (x :: xs) c = isMaxOf (b :: x :: xs) c := by
        intro c hc
        have hdc : 0 < c.2.den := hdenx c hc
        cases hsub : isMaxOf (x :: xs) c
        · cases hwhole : isMaxOf (b :: x :: xs) c
          · rfl
          · exfalso
            have hsub2 : isMaxOf (x :: xs) c = true := by
              rw [isMaxOf_eq_true]
              intro d hd
              exact (isMaxOf_eq_true.mp hwhole) d (List.mem_cons_of_mem b hd)
            rw [hsub] at hsub2
            exact Bool.noConfusion hsub2
        · have hsub2 := isMaxOf_eq_true.mp hsub
          have hcx : Score.ltb c.2 x.2 = false := hsub2 x (by simp)
          have hcb : Score.ltb c.2 b.2 = false := by
            cases hc2 : Score.ltb c.2 b.2
            · rfl
            · exfalso
              have htr := Score.ltb_trans hdc hdb hdx hc2 hbx
              rw [htr] at hcx
              exact Bool.noConfusion hcx
          have hwhole : isMaxOf (b :: x :: xs) c = true := by
            rw [isMaxOf_eq_true]
            intro d hd
            rcases List.mem_cons.mp hd with rfl | hd2
            · exact hcb
            · exact hsub2 d hd2
          rw [hwhole]
      calc some (selectGo b (x :: xs))
          = some (selectGo x xs) := by rw [hstep]
        _ = (x :: xs).find? (isMaxOf (x :: xs)) := ih x hdenx
        _ = (x :: xs).find? (isMaxOf (b :: x :: xs)) := find?_congr (x :: xs) hagree
        _ = (b :: x :: xs).find? (isMaxOf (b :: x :: xs)) :=
            (List.find?_cons_of_neg _ (by simp [hbfail])).symm
    · -- x does not beat b: the running best stays b and x can never be the first maximum
      have hbxf : Score.ltb b.2 x.2 = false := by
        cases h : Score.ltb b.2 x.2
        · rfl
        · exact absurd h hbx
      have hstep : selectGo b (x :: xs) = selectGo b xs := by
        simp [selectGo, hbxf]
      have hdensub : ∀ c ∈ b :: xs, 0 < c.2.den := by
        intro c hc
        rcases List.mem_cons.mp hc with rfl | h
        · exact hdb
        · exact hden c (List.mem_cons_of_mem b (List.mem_cons_of_mem x h))
      have hagree : ∀ c ∈ b :: xs, isMaxOf (b :: xs) c = isMaxOf (b :: x :: xs) c := by
        intro c hc
        have hdc : 0 < c.2.den := hdensub c hc
        cases hsub : isMaxOf (b :: xs) c
        · cases hwhole : isMaxOf (b :: x :: xs) c
          · rfl
          · exfalso
            have hsub2 : isMaxOf (b :: xs) c = true := by
              rw [isMaxOf_eq_true]
              intro d hd
              rcases List.mem_cons.mp hd with rfl | hd2
              · exact (isMaxOf_eq_true.mp hwhole) d (by simp)
              · exact (isMaxOf_eq_true.mp hwhole) d
                  (List.mem_cons_of_mem b (List.mem_cons_of_mem x hd2))
            rw [hsub] at hsub2
            exact Bool.noConfusion hsub2
        · have hsub2 := isMaxOf_eq_true.mp hsub
          have hcb : Score.ltb c.2 b.2 = false := hsub2 b (by simp)
          have hcx : Score.ltb c.2 x.2 = false :=
            Score.ltb_neg_trans hdc hdb hdx hcb hbxf
          have hwhole : isMaxOf (b :: x :: xs) c = true := by
            rw [isMaxOf_eq_true]
            intro d hd
            rcases List.mem_cons.mp hd with rfl | hd2
            · exact hcb
            · rcases List.mem_cons.mp hd2 with rfl | hd3
              · exact hcx
              · exact hsub2 d (List.mem_cons_of_mem b hd3)
          rw [hwhole]
      have hstart : some (selectGo b (x :: xs)) = (b :: xs).find? (isMaxOf (b :: xs)) := by
        rw [hstep]
        exact ih b hdensub
      by_cases hpb : isMaxOf (b :: xs) b = true
      · have hpbw : isMaxOf (b :: x :: xs) b = true := by
          rw [← hagree b (by simp)]
          exact hpb
        rw [hstart, List.find?_cons_of_pos _ hpb, List.find?_cons_of_pos _ hpbw]
      · have hpb2 : isMaxOf (b :: xs) b = false := by
          cases h : isMaxOf (b :: xs) b
          · rfl
          · exact absurd h hpb
        have hpbw : isMaxOf (b :: x :: xs) b = false := by
          rw [← hagree b (by simp)]
          exact hpb2
        have hmxf : isMaxOf (b :: x :: xs) x = false := by
          cases hmx : isMaxOf (b :: x :: xs) x
          · rfl
          · exfalso
            have hmx2 := isMaxOf_eq_true.mp hmx
            have hbmax : isMaxOf (b :: x :: xs) b = true := by
              rw [isMaxOf_eq_true]
              intro d hd
              have hdd : 0 < d.2.den := hden d hd
              have hxd : Score.ltb x.2 d.2 = false := hmx2 d hd
              exact Score.ltb_neg_trans hdb hdx hdd hbxf hxd
            rw [hbmax] at hpbw
            exact Bool.noConfusion hpbw
        have hagreexs : ∀ c ∈ xs, isMaxOf (b :: xs) c = isMaxOf (b :: x :: xs) c :=
          fun c hc => hagree c (List.mem_cons_of_mem b hc)
        rw [hstart, List.find?_cons_of_neg _ (by simp [hpb2]),
          List.find?_cons_of_neg _ (by simp [hpbw]),
          List.find?_cons_of_neg _ (by simp [hmxf])]
        exact find?_congr xs hagreexs

theorem selectBest_cons {α : Type} (c : α × Score) (l : List (α × Score)) :
    selectBest (c :: l) = some (selectGo c l) := by
  suffices h : ∀ (l : List (α × Score)) (b : α × Score),
      List.foldl
        (fun acc d =>
          match acc with
          | none => some d
          | some b => if Score.ltb b.2 d.2 then some d else some b)
        (some b) l = some (selectGo b l) by
    simp [selectBest, List.foldl_cons, h]
  intro l
  induction l with
  | nil => intro b; simp [selectGo]
  | cons x xs ih =>
    intro b
    by_cases h : Score.ltb b.2 x.2 = true
    · simp [List.foldl_cons, h, selectGo, ih]
    · have h2 : Score.ltb b.2 x.2 = false := by
        cases hb : Score.ltb b.2 x.2
        · rfl
        · exact absurd hb h
      simp [List.foldl_cons, h2, selectGo, ih]

/-- The argmax loop returns the first maximum of the candidate list. -/
theorem selectBest_eq_findFirstMax {α : Type} (l : List (α × Score)) (hne : l ≠ [])
    (hden : ∀ c ∈ l, 0 < c.2.den) :
    selectBest l = l.find? (isMaxOf l) := by
  cases l with
  | nil => exact absurd rfl hne
  | cons c cs =>
    rw [selectBest_cons]
    exact selectGo_eq_findFirstMax cs c hden

/-! ## List-as-array helpers

The sources use fixed-length `number[]` arrays with index reads and writes;
these are modelled by `List ℚ` with `List.getD`/`List.set`, with the small
read/write/sum lemmas proved here. -/

theorem getD_set_self : ∀ (l : List ℚ) (n : ℕ), n < l.length →
    ∀ v, (l.set n v).getD n 0 = v := by
  intro l
  induction l with
  | nil => intro n hn; simp at hn
  | cons x xs ih =>
    intro n hn v
    cases n with
    | zero => simp [List.set]
    | succ m =>
      simp only [List.set, List.getD, List.get?_cons_succ]
      have := ih m (by simpa using hn) v
      simpa [List.getD] using this

theorem getD_set_ne : ∀ (l : List ℚ) (n m : ℕ), n ≠ m →
    ∀ v, (l.set n v).getD m 0 = l.getD m 0 := by
  intro l
  induction l with
  | nil => intro n m _ v; simp [List.set]
  | cons x xs ih =>
    intro n m hnm v
    cases n with
    | zero =>
      cases m with
      | zero => exact absurd rfl hnm
      | succ k => simp [List.set, List.getD]
    | succ j =>
      cases m with
      | zero => simp [List.set, List.getD]
      | succ k =>
        simp only [List.set, List.getD, List.get?_cons_succ]
        have := ih j k (by omega) v
        simpa [List.getD] using this

theorem sum_set (l : List ℚ) (n : ℕ) (hn : n < l.length) (v : ℚ) :
    (l.set n v).sum = l.sum - l.getD n 0 + v := by
  induction l generalizing n with
  | nil => simp at hn
  | cons x xs ih =>
    cases n with
    | zero => simp [List.set, List.getD]; ring
    | succ m =>
      simp only [List.set, List.sum_cons]
      rw [ih m (by simpa using hn)]
      simp [List.getD]
      ring

theorem sum_eq_zero_of_nonneg : ∀ l : List ℚ, (∀ x ∈ l, 0 ≤ x) → l.sum = 0 →
    ∀ x ∈ l, x = 0 := by
  intro l
  induction l with
  | nil => intro _ _ x hx; simp at hx
  | cons y ys ih =>
    intro hnn hsum x hx
    have hy : 0 ≤ y := hnn y (by simp)
    have hys : 0 ≤ ys.sum := List.sum_nonneg fun z hz => hnn z (by simp [hz])
    rw [List.sum_cons] at hsum
    have hy0 : y = 0 := by linarith
    have hsum0 : ys.sum = 0 := by linarith
    rcases List.mem_cons.mp hx with rfl | hx2
    · exact hy0
    · exact ih (fun z hz => hnn z (by simp [hz])) hsum0 x hx2

theorem sum_pos_of_mem_pos (l : List ℚ) (hnn : ∀ x ∈ l, 0 ≤ x) (x : ℚ)
    (hx : x ∈ l) (hxpos : 0 < x) : 0 < l.sum := by
  induction l with
  | nil => simp at hx
  | cons y ys ih =>
    rw [List.sum_cons]
    have hys : 0 ≤ ys.sum := List.sum_nonneg fun z hz => hnn z (by simp [hz])
    rcases List.mem_cons.mp hx with rfl | hx2
    · linarith
    · have := ih (fun z hz => hnn z (by simp [hz])) hx2
      have hy : 0 ≤ y := hnn y (by simp)
      linarith

/-! ## Chroma accumulation (shared loop shape)

Both chroma extractors iterate over the spectrum bins in order; each bin is
either skipped (out of the musical range or out-of-bounds pitch class) or
its magnitude is added at one pitch-class index.  `accumBins f` is that
loop, with `f` the per-implementation bin-to-pitch-class map. -/

def accumBins (f : ℕ → Option ℕ) : List (ℕ × ℚ) → List ℚ → List ℚ
  | [], ch => ch
  | p :: ps, ch =>
      accumBins f ps
        (match f p.1 with
        | none => ch
        | some pc => ch.set pc (ch.getD pc 0 + p.2))

theorem accumBins_length (f : ℕ → Option ℕ) :
    ∀ (ps : List (ℕ × ℚ)) (ch : List ℚ), (accumBins f ps ch).length = ch.length := by
  intro ps
  induction ps with
  | nil => intro ch; rfl
  | cons p ps ih =>
    intro ch
    simp only [accumBins]
    cases hf : f p.1
    · exact ih ch
    · rw [ih]
      simp

theorem accumBins_getD (f : ℕ → Option ℕ)
    (hb : ∀ b pc, f b = some pc → pc < 12) :
    ∀ (ps : List (ℕ × ℚ)) (ch : List ℚ), ch.length = 12 → ∀ j, j < 12 →
      (accumBins f ps ch).getD j 0 =
        ch.getD j 0 + ((ps.filter fun p => f p.1 == some j).map Prod.snd).sum := by
  intro ps
  induction ps with
  | nil => intro ch hch j hj; simp [accumBins]
  | cons p ps ih =>
    intro ch hch j hj
    simp only [accumBins]
    cases hf : f p.1 with
    | none =>
      have hne : (f p.1 == some j) = false := by
        rw [hf]
        rfl
      rw [ih ch hch j hj]
      simp [List.filter_cons, hne]
    | some pc =>
      have hpc : pc < 12 := hb p.1 pc hf
      have hlen : (ch.set pc (ch.getD pc 0 + p.2)).length = 12 := by
        simp [hch]
      rw [ih _ hlen j hj]
      by_cases hj2 : pc = j
      · subst hj2
        have heq : (f p.1 == some pc) = true := by
          rw [hf]
          exact beq_self_eq_true _
        rw [getD_set_self ch pc (by omega) _]
        simp [List.filter_cons, heq]
        ring
      · have hne : (f p.1 == some j) = false := by
          rw [hf]
          simp
          omega
        rw [getD_set_ne ch pc j hj2 _]
        simp [List.filter_cons, hne]

theorem accumBins_sum (f : ℕ → Option ℕ)
    (hb : ∀ b pc, f b = some pc → pc < 12) :
    ∀ (ps : List (ℕ × ℚ)) (ch : List ℚ), ch.length = 12 →
      (accumBins f ps ch).sum =
        ch.sum + ((ps.filter fun p => (f p.1).isSome).map Prod.snd).sum := by
  intro ps
  induction ps with
  | nil => intro ch hch; simp [accumBins]
  | cons p ps ih =>
    intro ps2 hch
    simp only [accumBins]
    cases hf : f p.1 with
    | none =>
      rw [ih ps2 hch]
      simp [List.filter_cons, hf]
    | some pc =>
      have hpc : pc < 12 := hb p.1 pc hf
      have hlen : (ps2.set pc (ps2.getD pc 0 + p.2)).length = 12 := by simp [hch]
      rw [ih _ hlen]
      rw [sum_set ps2 pc (by omega) _]
      simp [List.filter_cons, hf]
      ring

theorem jsRemInt_bounds {a b : ℤ} (h0 : 0 ≤ a) (hb : 0 < b) :
    0 ≤ jsRemInt a b ∧ jsRemInt a b < b := by
  have heq : jsRemInt a b = a % b := by
    rw [jsRemInt, if_pos h0, Int.emod_def]
  rw [heq]
  exact ⟨Int.emod_nonneg a (by omega), Int.emod_lt_of_pos a hb⟩

theorem zpow_lt_zpow_int {m n : ℤ} (h : (2 : ℚ) ^ m < 2 ^ n) : m < n := by
  by_contra hc
  push_neg at hc
  have := zpow_le_zpow_right₀ (by norm_num : (1 : ℚ) ≤ 2) hc
  linarith

/-- Any frequency ratio at least `2/11` (i.e. any frequency ≥ 80 Hz against
the 440 Hz reference) yields a non-negative rounded MIDI number. -/
theorem roundedMidi_nonneg {r : ℚ} (hr : 2 / 11 ≤ r) : 0 ≤ roundedMidi r := by
  have hrpos : 0 < r := lt_of_lt_of_le (by norm_num) hr
  have hqpos : 0 < r ^ 24 := pow_pos hrpos 24
  obtain ⟨_, hhi⟩ := ratFloorLog2_spec hqpos
  have hlow : (2 : ℚ) ^ (-96 : ℤ) ≤ r ^ 24 := by
    have h16 : (2 : ℚ) ^ (-4 : ℤ) ≤ 2 / 11 := by norm_num
    have hstep : (2 : ℚ) ^ (-4 : ℤ) ≤ r := le_trans h16 hr
    have hp : ((2 : ℚ) ^ (-4 : ℤ)) ^ (24 : ℕ) ≤ r ^ 24 :=
      pow_le_pow_left₀ (by positivity) hstep 24
    calc (2 : ℚ) ^ (-96 : ℤ) = ((2 : ℚ) ^ (-4 : ℤ)) ^ (24 : ℕ) := by
          rw [← zpow_natCast ((2 : ℚ) ^ (-4 : ℤ)) 24, ← zpow_mul]
          norm_num
      _ ≤ r ^ 24 := hp
  have hcmp : (2 : ℚ) ^ (-96 : ℤ) < 2 ^ (ratFloorLog2 (r ^ 24) + 1) :=
    lt_of_le_of_lt hlow hhi
  have hL : (-96 : ℤ) < ratFloorLog2 (r ^ 24) + 1 := zpow_lt_zpow_int hcmp
  rw [roundedMidi]
  have : (0 : ℤ) ≤ ratFloorLog2 (r ^ 24) + 139 := by omega
  have h2 : (0 : ℤ) = (0 : ℤ).ediv 2 := rfl
  rw [h2]
  exact Int.ediv_le_ediv (by norm_num) (by omega)

/-- Any frequency ratio above `2/11` yields a positive floored pitch. -/
theorem flooredPitch_nonneg {r : ℚ} (hr : 2 / 11 ≤ r) : 0 ≤ flooredPitch r := by
  have hrpos : 0 < r := lt_of_lt_of_le (by norm_num) hr
  have hqpos : 0 < r ^ 12 := pow_pos hrpos 12
  obtain ⟨_, hhi⟩ := ratFloorLog2_spec hqpos
  have hlow : (2 : ℚ) ^ (-48 : ℤ) ≤ r ^ 12 := by
    have h16 : (2 : ℚ) ^ (-4 : ℤ) ≤ 2 / 11 := by norm_num
    have hstep : (2 : ℚ) ^ (-4 : ℤ) ≤ r := le_trans h16 hr
    have hp : ((2 : ℚ) ^ (-4 : ℤ)) ^ (12 : ℕ) ≤ r ^ 12 :=
      pow_le_pow_left₀ (by positivity) hstep 12
    calc (2 : ℚ) ^ (-48 : ℤ) = ((2 : ℚ) ^ (-4 : ℤ)) ^ (12 : ℕ) := by
          rw [← zpow_natCast ((2 : ℚ) ^ (-4 : ℤ)) 12, ← zpow_mul]
          norm_num
      _ ≤ r ^ 12 := hp
  have hcmp : (2 : ℚ) ^ (-48 : ℤ) < 2 ^ (ratFloorLog2 (r ^ 12) + 1) :=
    lt_of_le_of_lt hlow hhi
  have hL : (-48 : ℤ) < ratFloorLog2 (r ^ 12) + 1 := zpow_lt_zpow_int hcmp
  rw [flooredPitch]
  omega

/-! ## `frequencyToChroma` — src/lib/utils/pitch.ts (web implementation)

```ts
export function frequencyToChroma(frequencies: number[], sampleRate: number): number[] {
  const chroma = new Array(12).fill(0);
  const nyquist = sampleRate / 2;
  for (let bin = 0; bin < frequencies.length; bin++) {
    const freq = (bin * nyquist) / frequencies.length;
    if (freq < 80 || freq > 2000) continue; // Focus on musical range
    const midi = 12 * Math.log2(freq / 440) + 69;
    const pitchClass = Math.round(midi) % 12;
    if (pitchClass >= 0 && pitchClass < 12) {
      chroma[pitchClass] += frequencies[bin];
    }
  }
  const sum = chroma.reduce((a, b) => a + b, 0);
  return sum > 0 ? chroma.map(val => val / sum) : chroma;
}
```
-/

/-- Center frequency of a spectral bin in the web implementation. -/
def tsBinFreq (len : ℕ) (sampleRate : ℚ) (bin : ℕ) : ℚ :=
  (bin * (sampleRate / 2)) / len

/-- The loop body of `frequencyToChroma` for one bin: `none` when the bin is
skipped, otherwise the target pitch-class index. -/
def tsBinPC (len : ℕ) (sampleRate : ℚ) (bin : ℕ) : Option ℕ :=
  let freq := tsBinFreq len sampleRate bin
  if freq < 80 ∨ freq > 2000 then none
  else
    let pitchClass := jsRemInt (roundedMidi (freq / 440)) 12
    if 0 ≤ pitchClass ∧ pitchClass < 12 then some pitchClass.toNat else none

def frequencyToChromaAccum (frequencies : List ℚ) (sampleRate : ℚ) : List ℚ :=
  accumBins (tsBinPC frequencies.length sampleRate) frequencies.enum
    (List.replicate 12 0)

def frequencyToChroma (frequencies : List ℚ) (sampleRate : ℚ) : List ℚ :=
  let chroma := frequencyToChromaAccum frequencies sampleRate
  let s := chroma.sum
  if s > 0 then chroma.map fun v => v / s else chroma

/-! ## `spectrumToChroma` — FeatureExtractor.swift (mobile implementation)

```swift
private func spectrumToChroma(_ spectrum: [Float]) -> [Float] {
    var chroma = Array(repeating: Float(0), count: chromaBins)
    for (bin, magnitude) in spectrum.enumerated() {
        let frequency = Double(bin) * sampleRate / Double(frameSize)
        if frequency > 80 && frequency < 8000 { // Focus on musical range
            let pitch = 12.0 * log2(frequency / 440.0) + 69.0 // MIDI note number
            let chromaBin = Int(pitch) % 12
            if chromaBin >= 0 && chromaBin < chromaBins {
                chroma[chromaBin] += magnitude
            }
        }
    }
    let sum = chroma.reduce(0, +)
    if sum > 0 { for i in 0..<chromaBins { chroma[i] /= sum } }
    return chroma
}
```
with `sampleRate = 44100`, `frameSize = 4096`, `chromaBins = 12`.  In the
guarded range the pitch value is positive, so the Swift truncating cast
`Int(pitch)` equals the floor computed by `flooredPitch`, and the Swift `%`
(sign of the dividend) is `jsRemInt`. -/

def swiftBinFreq (bin : ℕ) : ℚ := bin * 44100 / 4096

def swiftBinPC (bin : ℕ) : Option ℕ :=
  let frequency := swiftBinFreq bin
  if frequency > 80 ∧ frequency < 8000 then
    let chromaBin := jsRemInt (flooredPitch (frequency / 440)) 12
    if 0 ≤ chromaBin ∧ chromaBin < 12 then some chromaBin.toNat else none
  else none

def spectrumToChromaAccum (spectrum : List ℚ) : List ℚ :=
  accumBins swiftBinPC spectrum.enum (List.replicate 12 0)

def spectrumToChroma (spectrum : List ℚ) : List ℚ :=
  let chroma := spectrumToChromaAccum spectrum
  let s := chroma.sum
  if s > 0 then chroma.map fun v => v / s else chroma

theorem tsBinPC_lt_12 (len : ℕ) (sr : ℚ) (b pc : ℕ) (h : tsBinPC len sr b = some pc) :
    pc < 12 := by
  rw [tsBinPC] at h
  by_cases h1 : tsBinFreq len sr b < 80 ∨ tsBinFreq len sr b > 2000
  · simp [h1] at h
  · simp only [h1, if_false] at h
    by_cases h2 : 0 ≤ jsRemInt (roundedMidi (tsBinFreq len sr b / 440)) 12 ∧
        jsRemInt (roundedMidi (tsBinFreq len sr b / 440)) 12 < 12
    · rw [if_pos h2] at h
      have := h2.2
      have := h2.1
      cases h
      omega
    · rw [if_neg h2] at h
      cases h

theorem swiftBinPC_lt_12 (b pc : ℕ) (h : swiftBinPC b = some pc) : pc < 12 := by
  rw [swiftBinPC] at h
  by_cases h1 : swiftBinFreq b > 80 ∧ swiftBinFreq b < 8000
  · simp only [h1, if_true] at h
    by_cases h2 : 0 ≤ jsRemInt (flooredPitch (swiftBinFreq b / 440)) 12 ∧
        jsRemInt (flooredPitch (swiftBinFreq b / 440)) 12 < 12
    · rw [if_pos h2] at h
      cases h
      omega
    · rw [if_neg h2] at h
      cases h
  · simp [h1] at h

/-- An in-range bin of the web extractor is never skipped: it contributes
to exactly one pitch class. -/
theorem tsBinPC_isSome_of_inRange (len : ℕ) (sr : ℚ) (b : ℕ)
    (h80 : 80 ≤ tsBinFreq len sr b) (h2000 : tsBinFreq len sr b ≤ 2000) :
    tsBinPC len sr b = some (jsRemInt (roundedMidi (tsBinFreq len sr b / 440)) 12).toNat := by
  have hr : 2 / 11 ≤ tsBinFreq len sr b / 440 := by
    rw [div_le_div_iff₀ (by norm_num) (by norm_num)]
    linarith
  have hmidi : 0 ≤ roundedMidi (tsBinFreq len sr b / 440) := roundedMidi_nonneg hr
  obtain ⟨hm0, hm12⟩ := jsRemInt_bounds hmidi (by norm_num : (0 : ℤ) < 12)
  rw [tsBinPC]
  have h1 : ¬ (tsBinFreq len sr b < 80 ∨ tsBinFreq len sr b > 2000) := by
    push_neg
    exact ⟨by linarith, by linarith⟩
  rw [if_neg h1, if_pos ⟨hm0, hm12⟩]

/-- An in-range bin of the Swift extractor is never skipped. -/
theorem swiftBinPC_isSome_of_inRange (b : ℕ)
    (h80 : 80 < swiftBinFreq b) (h8000 : swiftBinFreq b < 8000) :
    swiftBinPC b = some (jsRemInt (flooredPitch (swiftBinFreq b / 440)) 12).toNat := by
  have hr : 2 / 11 ≤ swiftBinFreq b / 440 := by
    rw [div_le_div_iff₀ (by norm_num) (by norm_num)]
    linarith
  have hpitch : 0 ≤ flooredPitch (swiftBinFreq b / 440) := flooredPitch_nonneg hr
  obtain ⟨hm0, hm12⟩ := jsRemInt_bounds hpitch (by norm_num : (0 : ℤ) < 12)
  rw [swiftBinPC]
  rw [if_pos ⟨h80, h8000⟩, if_pos ⟨hm0, hm12⟩]

/-! ## Pearson correlation — metronome.ts `correlate` / KeyDetector.swift `correlation`

Both return `numerator / sqrt(denomA * denomB)` with a zero-variance guard
(the web version tests `denomA * denomB === 0`, the Swift version tests
`sqrt(denomX * denomY) > 0`, which is the same test).  The value is kept as
a `Score`. -/

def correlate (a b : List ℚ) : Score :=
  let meanA := a.sum / (a.length : ℚ)
  let meanB := b.sum / (b.length : ℚ)
  let numerator := ((a.zip b).map fun p => (p.1 - meanA) * (p.2 - meanB)).sum
  let denomA := (a.map fun x => (x - meanA) * (x - meanA)).sum
  let denomB := (b.map fun x => (x - meanB) * (x - meanB)).sum
  if denomA * denomB = 0 then Score.zero else ⟨numerator, denomA * denomB⟩

def correlation (x y : List ℚ) : Score :=
  if x.length ≠ y.length then Score.zero
  else
    let meanX := x.sum / (x.length : ℚ)
    let meanY := y.sum / (y.length : ℚ)
    let numerator := ((x.zip y).map fun p => (p.1 - meanX) * (p.2 - meanY)).sum
    let denomX := (x.map fun v => (v - meanX) * (v - meanX)).sum
    let denomY := (y.map fun v => (v - meanY) * (v - meanY)).sum
    if 0 < denomX * denomY then ⟨numerator, denomX * denomY⟩ else Score.zero

theorem sum_sq_nonneg (l : List ℚ) (m : ℚ) :
    0 ≤ (l.map fun x => (x - m) * (x - m)).sum := by
  apply List.sum_nonneg
  intro x hx
  rw [List.mem_map] at hx
  obtain ⟨y, _, rfl⟩ := hx
  exact mul_self_nonneg _

theorem correlate_den_pos (a b : List ℚ) : 0 < (correlate a b).den := by
  rw [correlate]
  split
  · norm_num [Score.zero]
  · next h =>
      have h1 := sum_sq_nonneg a (a.sum / (a.length : ℚ))
      have h2 := sum_sq_nonneg b (b.sum / (b.length : ℚ))
      have h3 := mul_nonneg h1 h2
      rcases lt_or_eq_of_le h3 with h4 | h4
      · exact h4
      · exact absurd h4.symm h

theorem correlation_den_pos (x y : List ℚ) : 0 < (correlation x y).den := by
  rw [correlation]
  split
  · norm_num [Score.zero]
  · dsimp only
    split
    · next h => exact h
    · norm_num [Score.zero]

/-! ## metronome.ts key detection (web) -/

def PITCH_CLASSES : List String :=
  ["C", "C#", "D", "D#", "E", "F"] ++ ["F#", "G", "G#", "A", "A#", "B"]

def majorProfile : List ℚ :=
  [6.35, 2.23, 3.48, 2.33, 4.38, 4.09, 2.52, 5.19, 2.39, 3.66, 2.29, 2.88]

def minorProfile : List ℚ :=
  [6.33, 2.68, 3.52, 5.38, 2.60, 3.53, 2.54, 4.75, 3.98, 2.69, 3.34, 3.17]

/-- `rotateArray(arr, n) = [...arr.slice(r), ...arr.slice(0, r)]` with
`r = ((n % len) + len) % len`; at the call sites `n` is a root in `[0,12)`,
so the double modulus is the plain `n % len`. -/
def rotateArray (arr : List ℚ) (n : ℕ) : List ℚ :=
  let len := arr.length
  let rotation := (n % len + len) % len
  arr.drop rotation ++ arr.take rotation

/-- `chromaToKey` (metronome.ts): interleaved scan over the 12 roots, major
then minor at each root, running best initialised to confidence `-1`,
returning `Math.max(0, best)` as confidence. -/
def chromaToKey (chroma : List ℚ) : String × Score :=
  let final := (List.range 12).foldl
    (fun best root =>
      let majorCorr := correlate chroma (rotateArray majorProfile root)
      let best1 :=
        if Score.ltb best.2 majorCorr then (PITCH_CLASSES.getD root "", majorCorr) else best
      let minorCorr := correlate chroma (rotateArray minorProfile root)
      if Score.ltb best1.2 minorCorr then (PITCH_CLASSES.getD root "" ++ "m", minorCorr)
      else best1)
    ("", (⟨-1, 1⟩ : Score))
  (final.1, Score.max0 final.2)

/-! ## KeyDetector.swift (mobile) -/

structure Key where
  tonic : String
  mode : String
deriving DecidableEq, Repr

def majorKeyNames : List String :=
  ["C", "Db", "D", "Eb", "E", "F", "F#", "G", "Ab", "A", "Bb", "B"]

def minorKeyNames : List String :=
  ["C", "C#", "D", "D#", "E", "F"] ++ ["F#", "G", "G#", "A", "Bb", "B"]

/-- `computeKeyScore`: rotate the profile so that `transposed[i] =
profile[(i - tonic + 12) % 12]` (the call sites have `tonic < 12`, so the
ℕ-subtraction `i + 12 - tonic` matches the Swift `Int` arithmetic), then
correlate. -/
def computeKeyScore (chroma profile : List ℚ) (tonic : ℕ) : Score :=
  let transposedProfile := (List.range 12).map fun i => profile.getD ((i + 12 - tonic) % 12) 0
  correlation chroma transposedProfile

/-- The 24 key candidates in the order enumerated by
`KeyDetector.findBestKey`: all 12 major keys by ascending tonic, then all
12 minor keys by ascending tonic. -/
def keyCandidates (chroma : List ℚ) : List (Key × Score) :=
  ((List.range 12).map fun tonic =>
    (⟨majorKeyNames.getD tonic "", "major"⟩, computeKeyScore chroma majorProfile tonic)) ++
  ((List.range 12).map fun tonic =>
    (⟨minorKeyNames.getD tonic "", "minor"⟩, computeKeyScore chroma minorProfile tonic))

/-- `KeyDetector.findBestKey`: the two sequential argmax loops (majors then
minors, strict `>` against a best initialised to `-infinity`) are exactly
`selectBest` over `keyCandidates`. -/
def findBestKey (chroma : List ℚ) : Key × Score :=
  if chroma.length ≠ 12 then (⟨"C", "major"⟩, Score.zero)
  else
    match selectBest (keyCandidates chroma) with
    | some best => best
    | none => (⟨"C", "major"⟩, Score.zero)

def normalizeChroma (chroma : List ℚ) : List ℚ :=
  let s := chroma.sum
  if s > 0 then chroma.map fun v => v / s else chroma

/-- `KeyDetector.averageChroma` (Swift): accumulator sized from the first
frame, entrywise sum, divide by the frame count, then normalize.  (Entries
beyond the accumulator length are dropped; in the Swift source such frames
would trap, but every caller passes 12-bin frames.) -/
def averageChroma (chromaFrames : List (List ℚ)) : List ℚ :=
  match chromaFrames with
  | [] => List.replicate 12 0
  | firstFrame :: _ =>
    let base := List.replicate firstFrame.length (0 : ℚ)
    let acc := chromaFrames.foldl
      (fun avg frame =>
        frame.enum.foldl (fun avg p => avg.set p.1 (avg.getD p.1 0 + p.2)) avg)
      base
    normalizeChroma (acc.map fun v => v / (chromaFrames.length : ℚ))

/-- `KeyDetector.detectKey(from chromaFrames:)`: empty input returns the
C-major default, otherwise the best key for the averaged chroma. -/
def detectKey (chromaFrames : List (List ℚ)) : Key :=
  match chromaFrames with
  | [] => ⟨"C", "major"⟩
  | _ :: _ => (findBestKey (averageChroma chromaFrames)).1

/-! ## keyDetect.ts `KeyDetector` (web, rolling history) -/

structure KeyEstimate where
  key : String
  confidence : Score
  mode : String
deriving Repr

/-- `computeAverageChroma`: exponential recency weighting `0.9^(len-1-i)`
summed entrywise over the rolling history, then sum-normalised. -/
def computeAverageChroma (chromaHistory : List (List ℚ)) : List ℚ :=
  if chromaHistory.length = 0 then List.replicate 12 0
  else
    let n := chromaHistory.length
    let avg := chromaHistory.enum.foldl
      (fun avg p =>
        let weight := (9 / 10 : ℚ) ^ (n - 1 - p.1)
        (List.range 12).foldl
          (fun avg i => avg.set i (avg.getD i 0 + p.2.getD i 0 * weight)) avg)
      (List.replicate 12 0)
    let s := avg.sum
    if s > 0 then avg.map fun v => v / s else avg

/-- `KeyDetector.getCurrentKey` (keyDetect.ts): empty history returns the
`{key: C, confidence: 0, mode: major}` default. -/
def getCurrentKey (chromaHistory : List (List ℚ)) : KeyEstimate :=
  if chromaHistory.length = 0 then ⟨"C", Score.zero, "major"⟩
  else
    let keyResult := chromaToKey (computeAverageChroma chromaHistory)
    let isMinor := keyResult.1.endsWith "m"
    let keyName := if isMinor then keyResult.1.dropRight 1 else keyResult.1
    ⟨keyName, keyResult.2, if isMinor then "minor" else "major"⟩

/-! ## math.ts `cosineSimilarity`

Returns `dot / (sqrt(normA) * sqrt(normB))`, i.e. `dot / sqrt(normA*normB)`,
with zero guards, as a `Score`. -/

def cosineSimilarity (a b : List ℚ) : Score :=
  if a.length ≠ b.length then Score.zero
  else
    let dotProduct := ((a.zip b).map fun p => p.1 * p.2).sum
    let normA := (a.map fun x => x * x).sum
    let normB := (b.map fun x => x * x).sum
    if normA = 0 ∨ normB = 0 then Score.zero
    else ⟨dotProduct, normA * normB⟩

theorem sum_mul_self_nonneg (l : List ℚ) : 0 ≤ (l.map fun x => x * x).sum := by
  apply List.sum_nonneg
  intro x hx
  rw [List.mem_map] at hx
  obtain ⟨y, _, rfl⟩ := hx
  exact mul_self_nonneg _

theorem cosineSimilarity_den_pos (a b : List ℚ) : 0 < (cosineSimilarity a b).den := by
  rw [cosineSimilarity]
  split
  · norm_num [Score.zero]
  · dsimp only
    split
    · norm_num [Score.zero]
    · next h =>
        push_neg at h
        have h1 := sum_mul_self_nonneg a
        have h2 := sum_mul_self_nonneg b
        have h3 : 0 < (a.map fun x => x * x).sum := lt_of_le_of_ne h1 (Ne.symm h.1)
        have h4 : 0 < (b.map fun x => x * x).sum := lt_of_le_of_ne h2 (Ne.symm h.2)
        exact mul_pos h3 h4

/-! ## vocab.ts — chord definitions and vocabulary levels -/

structure ChordDefinition where
  name : String
  intervals : List ℕ
  quality : String
  level : String
deriving DecidableEq, Repr

def CHORD_DEFINITIONS : List ChordDefinition := [
  ⟨"C", [0, 4, 7], "major", "basic"⟩, ⟨"C#", [1, 5, 8], "major", "basic"⟩,
  ⟨"D", [2, 6, 9], "major", "basic"⟩, ⟨"D#", [3, 7, 10], "major", "basic"⟩,
  ⟨"E", [4, 8, 11], "major", "basic"⟩, ⟨"F", [5, 9, 0], "major", "basic"⟩,
  ⟨"F#", [6, 10, 1], "major", "basic"⟩, ⟨"G", [7, 11, 2], "major", "basic"⟩,
  ⟨"G#", [8, 0, 3], "major", "basic"⟩, ⟨"A", [9, 1, 4], "major", "basic"⟩,
  ⟨"A#", [10, 2, 5], "major", "basic"⟩, ⟨"B", [11, 3, 6], "major", "basic"⟩,
  ⟨"Cm", [0, 3, 7], "minor", "basic"⟩, ⟨"C#m", [1, 4, 8], "minor", "basic"⟩,
  ⟨"Dm", [2, 5, 9], "minor", "basic"⟩, ⟨"D#m", [3, 6, 10], "minor", "basic"⟩,
  ⟨"Em", [4, 7, 11], "minor", "basic"⟩, ⟨"Fm", [5, 8, 0], "minor", "basic"⟩,
  ⟨"F#m", [6, 9, 1], "minor", "basic"⟩, ⟨"Gm", [7, 10, 2], "minor", "basic"⟩,
  ⟨"G#m", [8, 11, 3], "minor", "basic"⟩, ⟨"Am", [9, 0, 4], "minor", "basic"⟩,
  ⟨"A#m", [10, 1, 5], "minor", "basic"⟩, ⟨"Bm", [11, 2, 6], "minor", "basic"⟩,
  ⟨"C7", [0, 4, 7, 10], "dominant", "extended"⟩, ⟨"C#7", [1, 5, 8, 11], "dominant", "extended"⟩,
  ⟨"D7", [2, 6, 9, 0], "dominant", "extended"⟩, ⟨"D#7", [3, 7, 10, 1], "dominant", "extended"⟩,
  ⟨"E7", [4, 8, 11, 2], "dominant", "extended"⟩, ⟨"F7", [5, 9, 0, 3], "dominant", "extended"⟩,
  ⟨"F#7", [6, 10, 1, 4], "dominant", "extended"⟩, ⟨"G7", [7, 11, 2, 5], "dominant", "extended"⟩,
  ⟨"G#7", [8, 0, 3, 6], "dominant", "extended"⟩, ⟨"A7", [9, 1, 4, 7], "dominant", "extended"⟩,
  ⟨"A#7", [10, 2, 5, 8], "dominant", "extended"⟩, ⟨"B7", [11, 3, 6, 9], "dominant", "extended"⟩,
  ⟨"Cmaj7", [0, 4, 7, 11], "major", "extended"⟩, ⟨"C#maj7", [1, 5, 8, 0], "major", "extended"⟩,
  ⟨"Dmaj7", [2, 6, 9, 1], "major", "extended"⟩, ⟨"D#maj7", [3, 7, 10, 2], "major", "extended"⟩,
  ⟨"Emaj7", [4, 8, 11, 3], "major", "extended"⟩, ⟨"Fmaj7", [5, 9, 0, 4], "major", "extended"⟩,
  ⟨"F#maj7", [6, 10, 1, 5], "major", "extended"⟩, ⟨"Gmaj7", [7, 11, 2, 6], "major", "extended"⟩,
  ⟨"G#maj7", [8, 0, 3, 7], "major", "extended"⟩, ⟨"Amaj7", [9, 1, 4, 8], "major", "extended"⟩,
  ⟨"A#maj7", [10, 2, 5, 9], "major", "extended"⟩, ⟨"Bmaj7", [11, 3, 6, 10], "major", "extended"⟩,
  ⟨"Cm7", [0, 3, 7, 10], "minor", "extended"⟩, ⟨"C#m7", [1, 4, 8, 11], "minor", "extended"⟩,
  ⟨"Dm7", [2, 5, 9, 0], "minor", "extended"⟩, ⟨"D#m7", [3, 6, 10, 1], "minor", "extended"⟩,
  ⟨"Em7", [4, 7, 11, 2], "minor", "extended"⟩, ⟨"Fm7", [5, 8, 0, 3], "minor", "extended"⟩,
  ⟨"F#m7", [6, 9, 1, 4], "minor", "extended"⟩, ⟨"Gm7", [7, 10, 2, 5], "minor", "extended"⟩,
  ⟨"G#m7", [8, 11, 3, 6], "minor", "extended"⟩, ⟨"Am7", [9, 0, 4, 7], "minor", "extended"⟩,
  ⟨"A#m7", [10, 1, 5, 8], "minor", "extended"⟩, ⟨"Bm7", [11, 2, 6, 9], "minor", "extended"⟩,
  ⟨"Csus2", [0, 2, 7], "suspended", "rich"⟩, ⟨"Csus4", [0, 5, 7], "suspended", "rich"⟩,
  ⟨"Cdim", [0, 3, 6], "diminished", "rich"⟩, ⟨"Caug", [0, 4, 8], "augmented", "rich"⟩,
  ⟨"Cadd9", [0, 2, 4, 7], "major", "rich"⟩]

inductive VocabularyLevel
  | basic
  | extended
  | rich
deriving DecidableEq, Repr

def getChordsByLevel (level : VocabularyLevel) : List ChordDefinition :=
  match level with
  | .basic => CHORD_DEFINITIONS.filter fun chord => chord.level == "basic"
  | .extended =>
      CHORD_DEFINITIONS.filter fun chord => chord.level == "basic" || chord.level == "extended"
  | .rich => CHORD_DEFINITIONS

/-! ## part_009 chord matcher -/

structure ChordTemplate where
  name : String
  template : List ℚ
  quality : String
deriving DecidableEq, Repr

structure ChordMatch where
  name : String
  confidence : Score
  template : List ℚ
deriving DecidableEq, Repr

/-- `intervalsToChromaTemplate`: positional weights 1.0 / 0.8 / 0.7 / 0.5
written (not added) at `interval % 12`. -/
def intervalsToChromaTemplate (intervals : List ℕ) : List ℚ :=
  intervals.enum.foldl
    (fun template p =>
      let weight : ℚ :=
        if p.1 = 0 then 1 else if p.1 = 1 then 8/10 else if p.1 = 2 then 7/10 else 1/2
      template.set (p.2 % 12) weight)
    (List.replicate 12 0)

def generateChordTemplates (level : VocabularyLevel) : List ChordTemplate :=
  (getChordsByLevel level).map fun chord =>
    ⟨chord.name, intervalsToChromaTemplate chord.intervals, chord.quality⟩

def noteNames : List String :=
  ["C", "C#", "D", "D#", "E", "F"] ++ ["F#", "G", "G#", "A", "A#", "B"]

/-- JavaScript `Array.prototype.indexOf`: index or `-1`. -/
def jsIndexOf (l : List String) (s : String) : ℤ :=
  match l.findIdx? (fun x => x == s) with
  | some i => i
  | none => -1

/-- `calculateKeyPriorBonus`; `chordName.replace(/[^A-G#b]/g, "")` keeps
exactly the characters in `A`–`G`, `#`, `b`, and `key.endsWith("m")` is the
suffix test on the key's character sequence. -/
def calculateKeyPriorBonus (chordName key : String) : ℚ :=
  let isMinorKey := "m".toList.isSuffixOf key.toList
  let keyRoot := if isMinorKey then key.dropRight 1 else key
  let chordRoot := String.mk (chordName.toList.filter fun c =>
    decide (('A' ≤ c ∧ c ≤ 'G') ∨ c = '#' ∨ c = 'b'))
  if chordRoot = keyRoot then 12/10
  else
    let keyIndex := jsIndexOf noteNames keyRoot
    let chordIndex := jsIndexOf noteNames chordRoot
    if 0 ≤ keyIndex ∧ 0 ≤ chordIndex then
      let interval := jsRemInt (chordIndex - keyIndex + 12) 12
      if isMinorKey then
        if interval = 0 ∨ interval = 3 ∨ interval = 5 ∨ interval = 7 ∨ interval = 10
        then 11/10 else 1
      else
        if interval = 0 ∨ interval = 2 ∨ interval = 4 ∨ interval = 5 ∨ interval = 7 ∨
            interval = 9 ∨ interval = 11
        then 11/10 else 1
    else 1

/-- `calculateHarmonicEmphasis` (the template argument is unused by the
source body). -/
def calculateHarmonicEmphasis (chroma template : List ℚ) : ℚ :=
  let chromaSum := chroma.sum
  let emphasis : ℚ := 1
  let emphasis :=
    if ((3/10 : ℚ) : WithBot ℚ) < chroma.maximum ∧ chromaSum > 1/2
    then emphasis * (11/10) else emphasis
  let nonZeroCount := (chroma.filter fun v => decide ((1/10 : ℚ) < v)).length
  let emphasis :=
    if nonZeroCount < 2 ∨ nonZeroCount > 8 then emphasis * (9/10) else emphasis
  emphasis

/-- The final score a template receives inside `matchChordToChroma`:
cosine similarity, optionally scaled by the key-prior bonus (only when a
key prior is supplied and the raw similarity exceeds 0.3), then scaled by
the harmonic emphasis. -/
def templateScore (chroma : List ℚ) (keyPrior : Option String) (t : ChordTemplate) : Score :=
  let similarity := cosineSimilarity chroma t.template
  let similarity :=
    if keyPrior.isSome ∧ Score.ltb ⟨3/10, 1⟩ similarity = true then
      Score.scale (calculateKeyPriorBonus t.name (keyPrior.getD "")) similarity
    else similarity
  Score.scale (calculateHarmonicEmphasis chroma t.template) similarity

/-- `matchChordToChroma`: running best over all templates, starting from
the `N/C` sentinel with confidence 0; a template replaces the best exactly
when its score strictly exceeds the stored (clamped) best confidence, and
is stored with confidence `min(1, score)`. -/
def matchChordToChroma (chroma : List ℚ) (level : VocabularyLevel)
    (keyPrior : Option String) : ChordMatch :=
  let templates := generateChordTemplates level
  templates.foldl
    (fun bestMatch t =>
      let similarity := templateScore chroma keyPrior t
      if Score.ltb bestMatch.confidence similarity then
        ⟨t.name, Score.min1 similarity, t.template⟩
      else bestMatch)
    ⟨"N/C", Score.zero, List.replicate 12 0⟩

/-! ## part_009 `ChordViterbiDecoder`

The decoder's path scores are sums of logarithms compared only with `>`;
since `exp` is strictly monotone, the scores are modelled multiplicatively
in ℚ (initial `log(1/numStates)` ↦ factor `1/numStates`, emission
`log(c + 0.01)` ↦ factor `c + 0.01`, transition `log(p)` ↦ factor `p`, all
positive at every reachable call).  The decoded label sequence is
unchanged by this order-preserving reparametrisation.  The observation is
the `(name, confidence)` part of a `ChordMatch`; the `template` field is
not read by `decode`. -/

structure Observation where
  name : String
  confidence : ℚ
deriving DecidableEq, Repr

/-- JavaScript `s.charAt(0)`: one-character string, empty for empty `s`. -/
def charAt0 (s : String) : String :=
  match s.toList with
  | [] => ""
  | c :: _ => String.mk [c]

def getSemitoneDistance (fromRoot toRoot : String) : ℤ :=
  let fromIndex := jsIndexOf noteNames fromRoot
  let toIndex := jsIndexOf noteNames toRoot
  if fromIndex = -1 ∨ toIndex = -1 then 6
  else min (toIndex - fromIndex).natAbs (12 - (toIndex - fromIndex).natAbs)

def getTransitionBonus (f t : String) : ℚ :=
  if f = t then 1
  else
    let semitones := getSemitoneDistance (charAt0 f) (charAt0 t)
    if semitones = 7 ∨ semitones = 5 then 2
    else if semitones = 2 ∨ semitones = 4 then 3/2
    else 1

/-- `buildTransitionMatrix`: base 0.1 with 0.7 on the diagonal, scaled by
the music-theoretic bonus, then row-normalised. -/
def buildTransitionMatrix (chordNames : List String) : List (List ℚ) :=
  let n := chordNames.length
  (List.range n).map fun i =>
    let row := (List.range n).map fun j =>
      (if i = j then (7/10 : ℚ) else 1/10) *
        getTransitionBonus (chordNames.getD i "") (chordNames.getD j "")
    let rowSum := row.sum
    row.map fun v => v / rowSum

def emissionProb (obs : Observation) (chordName : String) : ℚ :=
  if obs.name = chordName then obs.confidence + 1/100 else 1/100

/-- The argmax loop over state indices shared by the Viterbi recursion and
the final backtrack start: a running max initialised to `-Infinity`
(modelled by `none`, which the first candidate always replaces), strict
`>` updates, first index winning ties. -/
def pickMax (f : ℕ → ℚ) (l : List ℕ) : Option (ℚ × ℕ) :=
  l.foldl
    (fun acc s =>
      match acc with
      | none => some (f s, s)
      | some (mp, ms) => if f s > mp then some (f s, s) else some (mp, ms))
    none

/-- Any result of `pickMax` indexes into the scanned list. -/
theorem pickMax_snd_mem (f : ℕ → ℚ) (l : List ℕ) (p : ℚ × ℕ)
    (h : pickMax f l = some p) : p.2 ∈ l := by
  rw [pickMax] at h
  suffices hgen : ∀ (l2 : List ℕ) (acc : Option (ℚ × ℕ)),
      (∀ q : ℚ × ℕ, acc = some q → q.2 ∈ l) →
      (∀ x ∈ l2, x ∈ l) →
      List.foldl
        (fun acc s =>
          match acc with
          | none => some (f s, s)
          | some (mp, ms) => if f s > mp then some (f s, s) else some (mp, ms))
        acc l2 = some p → p.2 ∈ l by
    exact hgen l none (by intro q hq; cases hq) (fun x hx => hx) h
  intro l2
  induction l2 with
  | nil =>
    intro acc hacc _ hfold
    simp only [List.foldl_nil] at hfold
    exact hacc p hfold
  | cons x xs ih =>
    intro acc hacc hsub hfold
    simp only [List.foldl_cons] at hfold
    apply ih _ ?_ (fun y hy => hsub y (List.mem_cons_of_mem x hy)) hfold
    intro q hq
    cases acc with
    | none =>
      simp only at hq
      cases hq
      exact hsub x (by simp)
    | some r =>
      simp only at hq
      by_cases hc : f x > r.1
      · rw [if_pos hc] at hq
        cases hq
        exact hsub x (by simp)
      · rw [if_neg hc] at hq
        cases hq
        exact hacc r rfl

/-- On a non-empty index list `pickMax` returns a value. -/
theorem pickMax_isSome (f : ℕ → ℚ) (l : List ℕ) (hne : l ≠ []) :
    ∃ p : ℚ × ℕ, pickMax f l = some p := by
  rw [pickMax]
  suffices hgen : ∀ (l2 : List ℕ) (q : ℚ × ℕ),
      ∃ p : ℚ × ℕ, List.foldl
        (fun acc s =>
          match acc with
          | none => some (f s, s)
          | some (mp, ms) => if f s > mp then some (f s, s) else some (mp, ms))
        (some q) l2 = some p by
    cases l with
    | nil => exact absurd rfl hne
    | cons x xs =>
      simp only [List.foldl_cons]
      exact hgen xs (f x, x)
  intro l2
  induction l2 with
  | nil => intro q; exact ⟨q, rfl⟩
  | cons x xs ih =>
    intro q
    simp only [List.foldl_cons]
    by_cases hc : f x > q.1
    · simpa [hc] using ih (f x, x)
    · simpa [hc] using ih q

/-- One recursion step of the Viterbi loop: for every state the best
predecessor via `pickMax`, scaled by the emission factor. -/
def viterbiStep (trans : List (List ℚ)) (numStates : ℕ) (chordNames : List String)
    (prevRow : List ℚ) (obs : Observation) : List ℚ × List ℕ :=
  let results := (List.range numStates).map fun s =>
    match pickMax (fun prevS => prevRow.getD prevS 0 * (trans.getD prevS []).getD s 0)
        (List.range numStates) with
    | none => ((0 : ℚ), (0 : ℕ))
    | some (mp, ms) => (mp * emissionProb obs (chordNames.getD s ""), ms)
  (results.map Prod.fst, results.map Prod.snd)

/-- Final argmax over the last Viterbi row (`lastState = 0` if there are no
states, matching the untouched JavaScript initialiser). -/
def lastStateOf (numStates : ℕ) (finalRow : List ℚ) : ℕ :=
  match pickMax (fun s => finalRow.getD s 0) (List.range numStates) with
  | none => 0
  | some (_, s) => s

/-- `ChordViterbiDecoder.decode` for a decoder constructed over
`chordNames`. -/
def decode (chordNames : List String) (observations : List Observation) : List String :=
  match observations with
  | [] => []
  | [obs] => [obs.name]
  | obs0 :: rest =>
    let numStates := chordNames.length
    let trans := buildTransitionMatrix chordNames
    let row0 := (List.range numStates).map fun s =>
      (1 / (numStates : ℚ)) * emissionProb obs0 (chordNames.getD s "")
    let stepped := rest.foldl
      (fun (acc : List ℚ × List (List ℕ)) obs =>
        let next := viterbiStep trans numStates chordNames acc.1 obs
        (next.1, acc.2 ++ [next.2]))
      (row0, [])
    let lastState := lastStateOf numStates stepped.1
    let back := stepped.2.reverse.foldl
      (fun (acc : ℕ × List ℕ) pathRow =>
        let s := pathRow.getD acc.1 0
        (s, s :: acc.2))
      (lastState, [])
    (back.2 ++ [lastState]).map fun s => chordNames.getD s ""

/-! ## tempoDetect.ts `TempoDetector` -/

structure OnsetEvent where
  t : ℚ
  energy : ℚ
deriving DecidableEq, Repr

structure TempoState where
  onsetEvents : List OnsetEvent
  lastEnergy : ℚ
deriving DecidableEq, Repr

def initialTempoState : TempoState := ⟨[], 0⟩

/-- `computeSpectralEnergy` returns `sqrt((Σ s²)/n)`; its square is exposed
here.  Since the energy is non-negative, the square determines it, and
every comparison the detector performs on energies is equivalent to the
corresponding comparison of squares. -/
def computeSpectralEnergySq (audioData : List ℚ) : ℚ :=
  (audioData.map fun s => s * s).sum / (audioData.length : ℚ)

/-- `addAudioFrame`, parametrised directly by the frame energy (the value
`computeSpectralEnergy` hands to the onset test; any non-negative rational
energy is realised e.g. by a constant frame).  An onset is recorded exactly
when the energy jumps by more than the 12% relative threshold and exceeds
the `1e-4` noise floor; the rolling store keeps at most 200 events. -/
def addAudioFrame (st : TempoState) (energy : ℚ) (timestamp : ℚ) : TempoState :=
  let events :=
    if energy > st.lastEnergy * (1 + 12/100) ∧ energy > 1/10000 then
      let pushed := st.onsetEvents ++ [⟨timestamp, energy⟩]
      if pushed.length > 200 then pushed.drop 1 else pushed
    else st.onsetEvents
  ⟨events, energy⟩

structure BPMGroup where
  bpms : List ℚ
  avgBpm : ℚ
  count : ℕ
deriving DecidableEq, Repr

/-- Find the first group within the ±4 BPM tolerance and update it
(`none` if no group matches). -/
def insertBPM (bpm : ℚ) : List BPMGroup → Option (List BPMGroup)
  | [] => none
  | g :: gs =>
    if |bpm - g.avgBpm| ≤ 4 then
      let bpms := g.bpms ++ [bpm]
      some (⟨bpms, bpms.sum / (bpms.length : ℚ), bpms.length⟩ :: gs)
    else (insertBPM bpm gs).map (g :: ·)

def groupSimilarBPMs (bpms : List ℚ) : List BPMGroup :=
  bpms.foldl
    (fun groups bpm =>
      match insertBPM bpm groups with
      | some gs => gs
      | none => groups ++ [⟨[bpm], bpm, 1⟩])
    []

/-- `groups.reduce((a, b) => (a.count > b.count ? a : b))`; JavaScript
`reduce` without seed uses the first element (and throws on an empty
array, which the caller's guard rules out — the junk default models the
unreachable case). -/
def reduceMaxCount : List BPMGroup → BPMGroup
  | [] => ⟨[], 120, 0⟩
  | g :: gs => gs.foldl (fun a b => if a.count > b.count then a else b) g

structure TimeSignature where
  numerator : ℚ
  denominator : ℚ
deriving DecidableEq, Repr

structure BeatInfo where
  bpm : ℚ
  confidence : ℚ
  downbeatOffset : ℚ
  timeSignature : TimeSignature
deriving DecidableEq, Repr

/-- The BPM candidates: inter-onset intervals mapped to `60/interval` and
filtered to `[50, 200]`. -/
def bpmCandidatesOf (st : TempoState) : List ℚ :=
  let intervals := (st.onsetEvents.zip st.onsetEvents.tail).map fun p => p.2.t - p.1.t
  (intervals.map fun iv => 60 / iv).filter fun b => decide (50 ≤ b ∧ b ≤ 200)

/-- The 32-bin phase histogram of onset energy.  The source writes
`bins[Math.floor(phase*32) % 32] += energy`; the write only lands on an
array index when the result is in `[0, 32)` — a negative index writes a
non-index property that the following scan never reads, which the guard
models. -/
def binsOf (st : TempoState) (beatSec : ℚ) : List ℚ :=
  st.onsetEvents.foldl
    (fun (bins : List ℚ) ev =>
      let phase := jsRem ev.t beatSec / beatSec
      let idx := jsRemInt ⌊phase * 32⌋ 32
      if 0 ≤ idx ∧ idx < 32 then bins.set idx.toNat (bins.getD idx.toNat 0 + ev.energy)
      else bins)
    (List.replicate 32 0)

/-- The peak-bin scan (`maxIdx`); the source starts the loop at 1, and
including `i = 0` is a no-op since `bins[0] > bins[0]` is false. -/
def maxIdxOf (bins : List ℚ) : ℕ :=
  (List.range 32).foldl
    (fun maxIdx i => if bins.getD i 0 > bins.getD maxIdx 0 then i else maxIdx) 0

/-- The `{3,4,6}` time-signature scan. -/
def bestSigOf (st : TempoState) (beatSec downbeatOffset : ℚ) : ℚ :=
  let totalEnergy0 := (st.onsetEvents.map fun e => e.energy).sum
  let totalEnergy := if totalEnergy0 = 0 then 1/1000000000 else totalEnergy0
  let sigFold := ([3, 4, 6] : List ℚ).foldl
    (fun acc numer =>
      let score := ((st.onsetEvents.map fun ev =>
        let rel := (ev.t - downbeatOffset) / beatSec
        let pos := jsRem (jsRem rel numer + numer) numer
        let weight := max 0 (1 - min |pos| |pos - numer| / (numer / 2))
        ev.energy * weight).sum) / totalEnergy
      match acc with
      | none => some (score, numer)
      | some (bs, sig) => if score > bs then some (score, numer) else some (bs, sig))
    none
  match sigFold with
  | none => (4 : ℚ)
  | some (_, sig) => sig

/-- `TempoDetector.getBeatInfo`. -/
def getBeatInfo (st : TempoState) : BeatInfo :=
  if st.onsetEvents.length < 4 then ⟨120, 0, 0, ⟨4, 4⟩⟩
  else
    let bpmCandidates := bpmCandidatesOf st
    if bpmCandidates.length = 0 then ⟨120, 0, 0, ⟨4, 4⟩⟩
    else
      let best := reduceMaxCount (groupSimilarBPMs bpmCandidates)
      let bpm : ℚ := (jsRound best.avgBpm : ℚ)
      let confidence := min 1 ((best.count : ℚ) / (bpmCandidates.length : ℚ) * (3/2))
      let beatSec := 60 / max 1 bpm
      let maxIdx := maxIdxOf (binsOf st beatSec)
      let downbeatOffset := ((maxIdx : ℚ) + 1/2) / 32 * beatSec
      ⟨bpm, confidence, jsRem downbeatOffset beatSec,
        ⟨bestSigOf st beatSec downbeatOffset, 4⟩⟩

/-! ## FeatureExtractor.swift `filterOnsets` -/

def filterOnsets (onsets : List ℚ) (minInterval : ℚ) : List ℚ :=
  match onsets with
  | [] => []
  | o :: rest =>
    rest.foldl
      (fun filtered onset =>
        if onset - filtered.getLastD 0 ≥ minInterval then filtered ++ [onset] else filtered)
      [o]

/-! ## part_013 `quantizeSegmentsToBeats`

The input span fields are named `start`/`end` in the source; `end` is a
reserved word here, so the fields are `startTime`/`endTime`. -/

structure SegmentIn where
  startTime : ℚ
  endTime : ℚ
  label : String
  confidence : ℚ
deriving DecidableEq, Repr

structure Block where
  label : String
  startSec : ℚ
  endSec : ℚ
  startBeat : ℚ
  endBeat : ℚ
  barIndex : ℤ
  confidence : ℚ
deriving DecidableEq, Repr

/-- `beatSec = 60 / Math.max(1, info.bpm) * (4 / info.timeSignature.denominator)`. -/
def beatSecOf (info : BeatInfo) : ℚ :=
  60 / max 1 info.bpm * (4 / info.timeSignature.denominator)

/-- The quantisation step: bar = one bar, half = half beat, beat = one beat. -/
def stepOf (info : BeatInfo) (mode : String) : ℚ :=
  if mode = "bar" then info.timeSignature.numerator
  else if mode = "half" then 1/2
  else 1

def quantizeSegmentsToBeats (segments : List SegmentIn) (info : BeatInfo)
    (mode : String) : List Block :=
  let beatSec := beatSecOf info
  let step : ℚ := stepOf info mode
  let toBeat := fun t => ((jsRound (t / beatSec / step) : ℚ)) * step
  let blocks := segments.map fun s =>
    let startBeat := max 0 (toBeat s.startTime)
    let endBeat := max (startBeat + step) (toBeat s.endTime)
    let barIndex := ⌊startBeat / info.timeSignature.numerator⌋
    (⟨s.label, startBeat * beatSec, endBeat * beatSec, startBeat, endBeat, barIndex,
      s.confidence⟩ : Block)
  blocks.foldl
    (fun merged b =>
      match merged.getLast? with
      | some last =>
        if last.label = b.label ∧ |last.endSec - b.startSec| < 1/1000 then
          merged.dropLast ++
            [{ last with
                endSec := max last.endSec b.endSec,
                endBeat := max last.endBeat b.endBeat,
                confidence := max last.confidence b.confidence }]
        else merged ++ [b]
      | none => merged ++ [b])
    []

/-! ## MelodyExtractor.swift — YIN pitch tracking and note refinement -/

structure F0Point where
  time : ℚ
  frequency : ℚ
  confidence : ℚ
  voiced : Bool
deriving DecidableEq, Repr

structure MelodyNote where
  startTime : ℚ
  endTime : ℚ
  midi : ℤ
  confidence : ℚ
  velocity : ℤ
deriving DecidableEq, Repr

/-- Swift truncating integer division (rounds towards zero), for a
positive divisor. -/
def intTdiv (a b : ℤ) : ℤ := if 0 ≤ a then a / b else -((-a) / b)

/-- `computeAutocorrelation`: the YIN difference function over half the
2048-sample frame. -/
def computeAutocorrelation (frame : List ℚ) : List ℚ :=
  (List.range 1024).map fun tau =>
    ((List.range 1024).map fun j =>
      let diff := frame.getD j 0 - frame.getD (j + tau) 0
      diff * diff).sum

/-- `computeCumulativeMeanNormalizedDifference` with `cmnd[0] = 1`. -/
def computeCMND (auto : List ℚ) : List ℚ :=
  (List.range auto.length).map fun tau =>
    if tau = 0 then 1
    else
      let s := ((List.range tau).map fun k => auto.getD (k + 1) 0).sum
      let mean := s / (tau : ℚ)
      if mean > 0 then auto.getD tau 0 / mean else 1

/-- The forward local-minimum search after the threshold crossing: at most
9 further lags (`searchTau < bound`), stopping at the first
non-improvement. -/
def yinLocalMin (cmnd : List ℚ) (bound : ℕ) :
    ℕ → ℕ → ℚ → ℕ → ℕ
  | 0, minTau, _, _ => minTau
  | fuel + 1, minTau, minValue, searchTau =>
    if searchTau < bound then
      if cmnd.getD searchTau 0 < minValue then
        yinLocalMin cmnd bound fuel searchTau (cmnd.getD searchTau 0) (searchTau + 1)
      else minTau
    else minTau

/-- `findAbsoluteThreshold`: first lag in `[22, min(551, count))` whose
CMND drops below 0.15 (`22 = Int(44100/2000)`, `551 = Int(44100/80)`),
refined by the forward local-minimum search. -/
def findAbsoluteThreshold (cmnd : List ℚ) : Option ℕ :=
  match (List.range (min 551 cmnd.length)).find? (fun tau =>
      decide (22 ≤ tau ∧ cmnd.getD tau 0 < 3/20)) with
  | none => none
  | some tau => some (yinLocalMin cmnd (min (tau + 10) cmnd.length) 9 tau (cmnd.getD tau 0)
      (tau + 1))

def parabolicInterpolation (cmnd : List ℚ) (tau : ℕ) : ℚ × ℚ :=
  if ¬ (0 < tau ∧ tau + 1 < cmnd.length) then ((tau : ℚ), 1 - cmnd.getD tau 0)
  else
    let y1 := cmnd.getD (tau - 1) 0
    let y2 := cmnd.getD tau 0
    let y3 := cmnd.getD (tau + 1) 0
    let a := (y1 - 2 * y2 + y3) / 2
    let b := (y3 - y1) / 2
    let interpolatedTau :=
      if |a| > 1/10000000000 then (tau : ℚ) + -b / (2 * a) else (tau : ℚ)
    (interpolatedTau, 1 - y2)

def yinPitchDetection (frame : List ℚ) : ℚ × ℚ :=
  if frame.length ≠ 2048 then (0, 0)
  else
    let cmnd := computeCMND (computeAutocorrelation frame)
    match findAbsoluteThreshold cmnd with
    | none => (0, 0)
    | some tau =>
      let p := parabolicInterpolation cmnd tau
      (44100 / p.1, p.2)

/-- `MelodyExtractor.extractF0Track`.  The Swift source computes
`hopCount = (audioData.count - frameSize) / hopSize + 1` with truncating
`Int` division and then iterates `for hop in 0..<hopCount`; for
`audioData.count ≤ 1024` the bound is negative and forming the range
`0..<hopCount` traps at runtime ("Range requires lowerBound <=
upperBound").  The trap is modelled as `none`. -/
def extractF0Track (audioData : List ℚ) : Option (List F0Point) :=
  let hopCount := intTdiv ((audioData.length : ℤ) - 2048) 512 + 1
  if hopCount < 0 then none
  else
    some ((List.range hopCount.toNat).foldl
      (fun track hop =>
        let startIndex := hop * 512
        let endIndex := min (startIndex + 2048) audioData.length
        if endIndex - startIndex = 2048 then
          let frame := (audioData.drop startIndex).take (endIndex - startIndex)
          let timeSeconds := ((hop * 512 : ℕ) : ℚ) / 44100
          let r := yinPitchDetection frame
          track ++ [⟨timeSeconds, r.1, r.2,
            decide (r.2 > 3/10 ∧ r.1 > 80 ∧ r.1 < 2000)⟩]
        else track)
      [])

/-- `MelodyExtractor.mergeCloseNotes`: adjacent same-pitch notes are merged
exactly when the gap `next.start - current.end` is (strictly) below 50 ms;
the merged note keeps the first start and the second end and takes the
maximum confidence and velocity. -/
def mergeCloseNotes (notes : List MelodyNote) : List MelodyNote :=
  match notes with
  | [] => []
  | [n] => [n]
  | first :: rest =>
    let folded := rest.foldl
      (fun (acc : MelodyNote × List MelodyNote) next =>
        let current := acc.1
        if current.midi = next.midi ∧ next.startTime - current.endTime < 5/100 then
          (⟨current.startTime, next.endTime, current.midi,
            max current.confidence next.confidence,
            max current.velocity next.velocity⟩, acc.2)
        else (next, acc.2 ++ [current]))
      (first, [])
    folded.2 ++ [folded.1]

/-! ## Generic membership helper -/

theorem getD_mem {α : Type} : ∀ (l : List α) (i : ℕ), i < l.length → ∀ d : α,
    l.getD i d ∈ l := by
  intro l
  induction l with
  | nil => intro i hi; simp at hi
  | cons x xs ih =>
    intro i hi d
    cases i with
    | zero => simp [List.getD]
    | succ j =>
      simp only [List.getD, List.get?_cons_succ]
      have := ih j (by simpa using hi) d
      right
      simpa [List.getD] using this

/-! ## Claim theorems -/

/-- C9: the note segmenter merges two adjacent notes exactly when they have
the same MIDI pitch and the gap `next.start - current.end` is strictly
below 50 ms; the merged note runs from the first note's start to the
second note's end (confidence and velocity are the maxima).  A 20 ms gap
merges, a 100 ms gap does not (see the instances in the development). -/
theorem mergeCloseNotes_pair_spec (a b : MelodyNote) :
    mergeCloseNotes [a, b] =
      if a.midi = b.midi ∧ b.startTime - a.endTime < 5/100 then
        [⟨a.startTime, b.endTime, a.midi, max a.confidence b.confidence,
          max a.velocity b.velocity⟩]
      else [a, b] := by
  by_cases h : a.midi = b.midi ∧ b.startTime - a.endTime < 5/100
  · rw [if_pos h]
    simp [mergeCloseNotes, h]
  · rw [if_neg h]
    simp only [mergeCloseNotes, List.foldl_cons, List.foldl_nil]
    rw [if_neg h]
    simp

/-- C7: on empty input the key estimators return their `{C, major,
confidence 0}` defaults as documented, but the melody extractor does not
return an empty list: the Swift source computes
`hopCount = (0 - 2048)/512 + 1 = -3` and forming the range `0..<(-3)`
traps at runtime (modelled by `none`), so "never raises" fails for
`MelodyExtractor.extractF0Track`. -/
theorem empty_input_behaviour :
    extractF0Track [] = none ∧
    getCurrentKey [] = ⟨"C", Score.zero, "major"⟩ ∧
    detectKey [] = ⟨"C", "major"⟩ := by
  refine ⟨?_, ?_, rfl⟩
  · rw [extractF0Track]
    norm_num [intTdiv]
  · rw [getCurrentKey]
    norm_num

/-- C10 counterexample: a single-observation sequence bypasses the Viterbi
machinery entirely and is echoed back verbatim, so the output label `"X"`
is not drawn from the decoder's chord-name list `["C"]`. -/
theorem decode_singleton_escapes_vocabulary :
    decode ["C"] [⟨"X", 1⟩] = ["X"] ∧ "X" ∉ ["C"] :=
  ⟨rfl, by decide⟩

theorem viterbiStep_snd_lt (trans : List (List ℚ)) (ns : ℕ) (names : List String)
    (prevRow : List ℚ) (obs : Observation) (hns : 1 ≤ ns) :
    ∀ s ∈ (viterbiStep trans ns names prevRow obs).2, s < ns := by
  intro s hs
  rw [viterbiStep] at hs
  simp only [List.map_map, List.mem_map] at hs
  obtain ⟨j, hj, heq⟩ := hs
  rw [List.mem_range] at hj
  cases hpick : pickMax (fun prevS => prevRow.getD prevS 0 * (trans.getD prevS []).getD j 0)
      (List.range ns) with
  | none =>
    simp only [Function.comp, hpick] at heq
    rw [← heq]
    omega
  | some p =>
    simp only [Function.comp, hpick] at heq
    have := pickMax_snd_mem _ _ _ hpick
    rw [List.mem_range] at this
    obtain ⟨mp, ms⟩ := p
    simp only at heq
    rw [← heq]
    exact this

theorem viterbiStep_fst_length (trans : List (List ℚ)) (ns : ℕ) (names : List String)
    (prevRow : List ℚ) (obs : Observation) :
    (viterbiStep trans ns names prevRow obs).1.length = ns := by
  rw [viterbiStep]
  simp

theorem lastStateOf_lt (ns : ℕ) (row : List ℚ) (hns : 1 ≤ ns) :
    lastStateOf ns row < ns := by
  rw [lastStateOf]
  cases hpick : pickMax (fun s => row.getD s 0) (List.range ns) with
  | none =>
    obtain ⟨p, hp⟩ := pickMax_isSome (fun s => row.getD s 0) (List.range ns)
      (by simp; omega)
    rw [hpick] at hp
    cases hp
  | some p =>
    have := pickMax_snd_mem _ _ _ hpick
    rw [List.mem_range] at this
    obtain ⟨mp, ms⟩ := p
    exact this

/-- The Viterbi forward pass appends one path row per observation. -/
theorem viterbiFold_spec (trans : List (List ℚ)) (ns : ℕ) (names : List String)
    (hns : 1 ≤ ns) :
    ∀ (l : List Observation) (acc : List ℚ × List (List ℕ)),
      (∀ row ∈ acc.2, ∀ s ∈ row, s < ns) →
      (l.foldl
        (fun (acc : List ℚ × List (List ℕ)) obs =>
          let next := viterbiStep trans ns names acc.1 obs
          (next.1, acc.2 ++ [next.2]))
        acc).2.length = acc.2.length + l.length ∧
      ∀ row ∈ (l.foldl
        (fun (acc : List ℚ × List (List ℕ)) obs =>
          let next := viterbiStep trans ns names acc.1 obs
          (next.1, acc.2 ++ [next.2]))
        acc).2, ∀ s ∈ row, s < ns := by
  intro l
  induction l with
  | nil => intro acc hacc; exact ⟨by simp, hacc⟩
  | cons obs rest ih =>
    intro acc hacc
    simp only [List.foldl_cons]
    have hstep : ∀ row ∈ acc.2 ++ [(viterbiStep trans ns names acc.1 obs).2],
        ∀ s ∈ row, s < ns := by
      intro row hrow
      rcases List.mem_append.mp hrow with h | h
      · exact hacc row h
      · rw [List.mem_singleton] at h
        subst h
        exact viterbiStep_snd_lt trans ns names acc.1 obs hns
    obtain ⟨hlen, hmem⟩ := ih ((viterbiStep trans ns names acc.1 obs).1,
      acc.2 ++ [(viterbiStep trans ns names acc.1 obs).2]) hstep
    refine ⟨?_, hmem⟩
    rw [hlen]
    simp
    omega

/-- The backtrack loop keeps every selected state below `ns`. -/
theorem backtrack_spec (ns : ℕ) (hns : 1 ≤ ns) :
    ∀ (rows : List (List ℕ)) (acc : ℕ × List ℕ),
      (∀ row ∈ rows, ∀ s ∈ row, s < ns) →
      acc.1 < ns → (∀ s ∈ acc.2, s < ns) →
      (rows.foldl
        (fun (acc : ℕ × List ℕ) pathRow =>
          let s := pathRow.getD acc.1 0
          (s, s :: acc.2)) acc).1 < ns ∧
      (∀ s ∈ (rows.foldl
        (fun (acc : ℕ × List ℕ) pathRow =>
          let s := pathRow.getD acc.1 0
          (s, s :: acc.2)) acc).2, s < ns) ∧
      (rows.foldl
        (fun (acc : ℕ × List ℕ) pathRow =>
          let s := pathRow.getD acc.1 0
          (s, s :: acc.2)) acc).2.length = acc.2.length + rows.length := by
  intro rows
  induction rows with
  | nil => intro acc _ h1 h2; exact ⟨h1, h2, by simp⟩
  | cons row rest ih =>
    intro acc hrows h1 h2
    simp only [List.foldl_cons]
    have hsel : row.getD acc.1 0 < ns := by
      by_cases hin : acc.1 < row.length
      · exact hrows row (by simp) _ (getD_mem row acc.1 hin 0)
      · rw [List.getD_eq_default]
        · omega
        · omega
    have hstep := ih (row.getD acc.1 0, row.getD acc.1 0 :: acc.2)
      (fun r hr => hrows r (List.mem_cons_of_mem row hr)) hsel
      (by
        intro s hs
        rcases List.mem_cons.mp hs with rfl | hs2
        · exact hsel
        · exact h2 s hs2)
    obtain ⟨ha, hb, hc⟩ := hstep
    refine ⟨ha, hb, ?_⟩
    rw [hc]
    simp
    omega

/-- C10 (amended): the decoded sequence always has exactly the length of
the observation sequence; for sequences of length at least 2 every output
label is drawn from the decoder's chord-name list.  (For a singleton
observation sequence the decoder echoes the observation's own name, which
need not be in the list — see the counterexample.) -/
theorem decode_length_and_vocabulary (chordNames : List String)
    (observations : List Observation) (hne : chordNames ≠ []) :
    (decode chordNames observations).length = observations.length ∧
    (2 ≤ observations.length →
      ∀ name ∈ decode chordNames observations, name ∈ chordNames) := by
  have hns : 1 ≤ chordNames.length := by
    cases chordNames with
    | nil => exact absurd rfl hne
    | cons c cs => simp
  match observations with
  | [] => exact ⟨rfl, by intro h; simp at h⟩
  | [obs] => exact ⟨rfl, by intro h; simp at h⟩
  | obs0 :: o1 :: rest2 =>
    have hdec : decode chordNames (obs0 :: o1 :: rest2) =
        (let numStates := chordNames.length
         let trans := buildTransitionMatrix chordNames
         let row0 := (List.range numStates).map fun s =>
           (1 / (numStates : ℚ)) * emissionProb obs0 (chordNames.getD s "")
         let stepped := (o1 :: rest2).foldl
           (fun (acc : List ℚ × List (List ℕ)) obs =>
             let next := viterbiStep trans numStates chordNames acc.1 obs
             (next.1, acc.2 ++ [next.2]))
           (row0, [])
         let lastState := lastStateOf numStates stepped.1
         let back := stepped.2.reverse.foldl
           (fun (acc : ℕ × List ℕ) pathRow =>
             let s := pathRow.getD acc.1 0
             (s, s :: acc.2))
           (lastState, [])
         (back.2 ++ [lastState]).map fun s => chordNames.getD s "") := rfl
    rw [hdec]
    dsimp only
    have hfold := viterbiFold_spec (buildTransitionMatrix chordNames) chordNames.length
      chordNames hns (o1 :: rest2)
      (((List.range chordNames.length).map fun s =>
        (1 / (chordNames.length : ℚ)) * emissionProb obs0 (chordNames.getD s "")), [])
      (by intro row hrow; simp at hrow)
    set stepped := (o1 :: rest2).foldl
      (fun (acc : List ℚ × List (List ℕ)) obs =>
        let next := viterbiStep (buildTransitionMatrix chordNames) chordNames.length
          chordNames acc.1 obs
        (next.1, acc.2 ++ [next.2]))
      (((List.range chordNames.length).map fun s =>
        (1 / (chordNames.length : ℚ)) * emissionProb obs0 (chordNames.getD s "")), []) with hsv
    obtain ⟨hslen, hsmem⟩ := hfold
    have hlast : lastStateOf chordNames.length stepped.1 < chordNames.length :=
      lastStateOf_lt _ _ hns
    have hrevmem : ∀ row ∈ stepped.2.reverse, ∀ s ∈ row, s < chordNames.length := by
      intro row hrow
      exact hsmem row (List.mem_reverse.mp hrow)
    have hback := backtrack_spec chordNames.length hns stepped.2.reverse
      (lastStateOf chordNames.length stepped.1, []) hrevmem hlast (by intro s hs; simp at hs)
    obtain ⟨hb1, hb2, hb3⟩ := hback
    constructor
    · simp only [List.length_map, List.length_append, List.length_singleton]
      rw [hb3]
      simp only [List.length_nil, List.length_reverse]
      rw [hslen]
      simp
    · intro _ name hname
      simp only [List.mem_map] at hname
      obtain ⟨s, hs, rfl⟩ := hname
      rcases List.mem_append.mp hs with h | h
      · exact getD_mem chordNames s (hb2 s h) ""
      · rw [List.mem_singleton] at h
        subst h
        exact getD_mem chordNames _ hlast ""

/-- C10 witness: the amended theorem applied to a concrete decoder and a
two-observation sequence. -/
theorem decode_length_and_vocabulary_witness :
    (["C", "G"] : List String) ≠ [] ∧
    ((decode ["C", "G"] [⟨"C", 1⟩, ⟨"G", 1⟩]).length = 2 ∧
      (2 ≤ ([⟨"C", 1⟩, ⟨"G", 1⟩] : List Observation).length →
        ∀ name ∈ decode ["C", "G"] [⟨"C", 1⟩, ⟨"G", 1⟩], name ∈ ["C", "G"])) :=
  ⟨by simp, decode_length_and_vocabulary ["C", "G"] [⟨"C", 1⟩, ⟨"G", 1⟩] (by simp)⟩

theorem jsRound_natCast (k : ℕ) : jsRound (k : ℚ) = k := by
  rw [jsRound, Int.floor_eq_iff]
  constructor
  · push_cast
    linarith
  · push_cast
    linarith

/-- C6: a chord span whose start and end lie exactly on grid boundaries
(`k`-th and `m`-th grid line, `k < m`, i.e. at least one grid step long) is
returned by the beat quantizer with start, end and label unchanged. -/
theorem quantizeSegmentsToBeats_aligned (info : BeatInfo) (mode : String) (k m : ℕ)
    (label : String) (conf : ℚ) (hkm : k < m)
    (hstep : 0 < stepOf info mode) (hbeat : 0 < beatSecOf info) :
    quantizeSegmentsToBeats
      [⟨(k : ℚ) * stepOf info mode * beatSecOf info,
        (m : ℚ) * stepOf info mode * beatSecOf info, label, conf⟩] info mode =
      [⟨label, (k : ℚ) * stepOf info mode * beatSecOf info,
        (m : ℚ) * stepOf info mode * beatSecOf info,
        (k : ℚ) * stepOf info mode, (m : ℚ) * stepOf info mode,
        ⌊(k : ℚ) * stepOf info mode / info.timeSignature.numerator⌋, conf⟩] := by
  have hdivk : (k : ℚ) * stepOf info mode * beatSecOf info / beatSecOf info /
      stepOf info mode = (k : ℚ) := by
    field_simp
  have hdivm : (m : ℚ) * stepOf info mode * beatSecOf info / beatSecOf info /
      stepOf info mode = (m : ℚ) := by
    field_simp
  have hk0 : (0 : ℚ) ≤ (k : ℚ) * stepOf info mode := by positivity
  have hmax0 : max 0 ((k : ℚ) * stepOf info mode) = (k : ℚ) * stepOf info mode :=
    max_eq_right hk0
  have hkm2 : (k : ℚ) * stepOf info mode + stepOf info mode ≤ (m : ℚ) * stepOf info mode := by
    have hk1 : (k : ℚ) + 1 ≤ (m : ℚ) := by exact_mod_cast hkm
    nlinarith
  have hmaxend : max ((k : ℚ) * stepOf info mode + stepOf info mode)
      ((m : ℚ) * stepOf info mode) = (m : ℚ) * stepOf info mode := max_eq_right hkm2
  simp only [quantizeSegmentsToBeats, List.map_cons, List.map_nil]
  rw [hdivk, hdivm, jsRound_natCast, jsRound_natCast]
  push_cast
  rw [hmax0, hmaxend]
  simp [List.foldl_cons, List.foldl_nil]

/-- C6 witness: the aligned-span theorem applied at 120 BPM, 4/4, beat
granularity, to the span from grid line 0 to grid line 1. -/
theorem quantizeSegmentsToBeats_aligned_witness :
    (0 : ℕ) < 1 ∧
    0 < stepOf ⟨120, 1, 0, ⟨4, 4⟩⟩ "beat" ∧
    0 < beatSecOf ⟨120, 1, 0, ⟨4, 4⟩⟩ ∧
    quantizeSegmentsToBeats
      [⟨(0 : ℚ) * stepOf ⟨120, 1, 0, ⟨4, 4⟩⟩ "beat" * beatSecOf ⟨120, 1, 0, ⟨4, 4⟩⟩,
        (1 : ℚ) * stepOf ⟨120, 1, 0, ⟨4, 4⟩⟩ "beat" * beatSecOf ⟨120, 1, 0, ⟨4, 4⟩⟩,
        "C", 1⟩] ⟨120, 1, 0, ⟨4, 4⟩⟩ "beat" =
      [⟨"C", (0 : ℚ) * stepOf ⟨120, 1, 0, ⟨4, 4⟩⟩ "beat" * beatSecOf ⟨120, 1, 0, ⟨4, 4⟩⟩,
        (1 : ℚ) * stepOf ⟨120, 1, 0, ⟨4, 4⟩⟩ "beat" * beatSecOf ⟨120, 1, 0, ⟨4, 4⟩⟩,
        (0 : ℚ) * stepOf ⟨120, 1, 0, ⟨4, 4⟩⟩ "beat",
        (1 : ℚ) * stepOf ⟨120, 1, 0, ⟨4, 4⟩⟩ "beat",
        ⌊(0 : ℚ) * stepOf ⟨120, 1, 0, ⟨4, 4⟩⟩ "beat" / (4 : ℚ)⌋, 1⟩] := by
  have hstep : 0 < stepOf ⟨120, 1, 0, ⟨4, 4⟩⟩ "beat" := by simp [stepOf]
  have hbeat : 0 < beatSecOf ⟨120, 1, 0, ⟨4, 4⟩⟩ := by norm_num [beatSecOf]
  refine ⟨by norm_num, hstep, hbeat, ?_⟩
  have h := quantizeSegmentsToBeats_aligned ⟨120, 1, 0, ⟨4, 4⟩⟩ "beat" 0 1 "C" 1
    (by norm_num) hstep hbeat
  push_cast at h ⊢
  exact h

/-! ## C8 — BeatInfo invariants -/

/-- A BPM group is well-formed within `[50, 200]`. -/
def groupInRange (g : BPMGroup) : Prop :=
  g.bpms ≠ [] ∧ (∀ x ∈ g.bpms, 50 ≤ x ∧ x ≤ 200) ∧
    g.avgBpm = g.bpms.sum / (g.bpms.length : ℚ)

theorem sum_bounds_of_mem_Icc :
    ∀ l : List ℚ, (∀ x ∈ l, 50 ≤ x ∧ x ≤ 200) →
      50 * (l.length : ℚ) ≤ l.sum ∧ l.sum ≤ 200 * (l.length : ℚ) := by
  intro l
  induction l with
  | nil => intro _; simp
  | cons x xs ih =>
    intro h
    have hx := h x (by simp)
    have hxs := ih fun y hy => h y (by simp [hy])
    simp only [List.sum_cons, List.length_cons]
    push_cast
    constructor <;> nlinarith [hxs.1, hxs.2, hx.1, hx.2]

theorem avg_bounds_of_mem_Icc (l : List ℚ) (hne : l ≠ [])
    (h : ∀ x ∈ l, 50 ≤ x ∧ x ≤ 200) :
    50 ≤ l.sum / (l.length : ℚ) ∧ l.sum / (l.length : ℚ) ≤ 200 := by
  have hlen : 0 < (l.length : ℚ) := by
    have : 0 < l.length := List.length_pos.mpr hne
    exact_mod_cast this
  obtain ⟨h1, h2⟩ := sum_bounds_of_mem_Icc l h
  constructor
  · rw [le_div_iff₀ hlen]
    linarith
  · rw [div_le_iff₀ hlen]
    linarith

theorem insertBPM_preserves (bpm : ℚ) (hb : 50 ≤ bpm ∧ bpm ≤ 200) :
    ∀ gs : List BPMGroup, (∀ g ∈ gs, groupInRange g) →
      ∀ gs2, insertBPM bpm gs = some gs2 → ∀ g ∈ gs2, groupInRange g := by
  intro gs
  induction gs with
  | nil => intro _ gs2 h; cases h
  | cons g0 rest ih =>
    intro hgs gs2 hins g hg
    rw [insertBPM] at hins
    by_cases hclose : |bpm - g0.avgBpm| ≤ 4
    · rw [if_pos hclose] at hins
      cases hins
      rcases List.mem_cons.mp hg with rfl | hg2
      · have hg0 := hgs g0 (by simp)
        refine ⟨by simp, ?_, by simp⟩
        intro x hx
        rcases List.mem_append.mp hx with h1 | h1
        · exact hg0.2.1 x h1
        · rw [List.mem_singleton] at h1
          subst h1
          exact hb
      · exact hgs g (List.mem_cons_of_mem g0 hg2)
    · rw [if_neg hclose] at hins
      cases hrec : insertBPM bpm rest with
      | none => rw [hrec] at hins; cases hins
      | some rest2 =>
        rw [hrec] at hins
        simp only [Option.map_some'] at hins
        cases hins
        rcases List.mem_cons.mp hg with rfl | hg2
        · exact hgs g (by simp)
        · exact ih (fun g2 hg2b => hgs g2 (List.mem_cons_of_mem g0 hg2b)) rest2 hrec g hg2

theorem groupSimilarBPMs_inv (bpms : List ℚ) (hb : ∀ x ∈ bpms, 50 ≤ x ∧ x ≤ 200) :
    ∀ g ∈ groupSimilarBPMs bpms, groupInRange g := by
  rw [groupSimilarBPMs]
  suffices hgen : ∀ (l : List ℚ) (gs : List BPMGroup),
      (∀ x ∈ l, 50 ≤ x ∧ x ≤ 200) → (∀ g ∈ gs, groupInRange g) →
      ∀ g ∈ l.foldl
        (fun groups bpm =>
          match insertBPM bpm groups with
          | some gs => gs
          | none => groups ++ [⟨[bpm], bpm, 1⟩])
        gs, groupInRange g by
    exact hgen bpms [] hb (by intro g hg; simp at hg)
  intro l
  induction l with
  | nil => intro gs _ hgs; exact hgs
  | cons x xs ih =>
    intro gs hl hgs
    simp only [List.foldl_cons]
    have hstep : ∀ g ∈ (match insertBPM x gs with
        | some gs2 => gs2
        | none => gs ++ [BPMGroup.mk [x] x 1]), groupInRange g := by
      cases hins : insertBPM x gs with
      | none =>
        simp only
        intro g hg
        rcases List.mem_append.mp hg with h1 | h1
        · exact hgs g h1
        · rw [List.mem_singleton] at h1
          subst h1
          refine ⟨by simp, ?_, by simp⟩
          intro y hy
          rw [List.mem_singleton] at hy
          rw [hy]
          exact hl x (by simp)
      | some gs2 =>
        simp only
        exact insertBPM_preserves x (hl x (by simp)) gs hgs gs2 hins
    exact ih _ (fun y hy => hl y (by simp [hy])) hstep

theorem insertBPM_ne_nil (bpm : ℚ) :
    ∀ gs gs2 : List BPMGroup, insertBPM bpm gs = some gs2 → gs2 ≠ [] := by
  intro gs
  induction gs with
  | nil => intro gs2 h; cases h
  | cons g0 rest ih =>
    intro gs2 h
    rw [insertBPM] at h
    by_cases hclose : |bpm - g0.avgBpm| ≤ 4
    · rw [if_pos hclose] at h
      cases h
      simp
    · rw [if_neg hclose] at h
      cases hrec : insertBPM bpm rest with
      | none => rw [hrec] at h; cases h
      | some rest2 =>
        rw [hrec] at h
        simp only [Option.map_some'] at h
        cases h
        simp

theorem groupSimilarBPMs_ne_nil (bpms : List ℚ) (hne : bpms ≠ []) :
    groupSimilarBPMs bpms ≠ [] := by
  rw [groupSimilarBPMs]
  suffices hgen : ∀ (l : List ℚ) (gs : List BPMGroup), gs ≠ [] →
      l.foldl
        (fun groups bpm =>
          match insertBPM bpm groups with
          | some gs => gs
          | none => groups ++ [⟨[bpm], bpm, 1⟩])
        gs ≠ [] by
    cases bpms with
    | nil => exact absurd rfl hne
    | cons x xs =>
      simp only [List.foldl_cons]
      apply hgen
      cases hins : insertBPM x [] with
      | none => simp
      | some gs2 => cases hins
  intro l
  induction l with
  | nil => intro gs h; exact h
  | cons x xs ih =>
    intro gs hgs
    simp only [List.foldl_cons]
    apply ih
    cases hins : insertBPM x gs with
    | none => simp
    | some gs2 => exact insertBPM_ne_nil x gs gs2 hins

theorem reduceMaxCount_mem (gs : List BPMGroup) (hne : gs ≠ []) :
    reduceMaxCount gs ∈ gs := by
  cases gs with
  | nil => exact absurd rfl hne
  | cons g rest =>
    rw [reduceMaxCount]
    suffices hgen : ∀ (l : List BPMGroup) (a : BPMGroup), a ∈ g :: rest →
        (∀ x ∈ l, x ∈ g :: rest) →
        l.foldl (fun a b => if a.count > b.count then a else b) a ∈ g :: rest by
      exact hgen rest g (by simp) (fun x hx => List.mem_cons_of_mem g hx)
    intro l
    induction l with
    | nil => intro a ha _; simpa using ha
    | cons y ys ih =>
      intro a ha hsub
      simp only [List.foldl_cons]
      by_cases hc : a.count > y.count
      · rw [if_pos hc]
        exact ih a ha fun x hx => hsub x (List.mem_cons_of_mem y hx)
      · rw [if_neg hc]
        exact ih y (hsub y (by simp)) fun x hx => hsub x (List.mem_cons_of_mem y hx)

theorem maxIdxOf_lt (bins : List ℚ) : maxIdxOf bins < 32 := by
  rw [maxIdxOf]
  suffices hgen : ∀ (l : List ℕ) (acc : ℕ), acc < 32 → (∀ i ∈ l, i < 32) →
      l.foldl (fun maxIdx i => if bins.getD i 0 > bins.getD maxIdx 0 then i else maxIdx)
        acc < 32 by
    apply hgen (List.range 32) 0 (by norm_num)
    intro i hi
    exact List.mem_range.mp hi
  intro l
  induction l with
  | nil => intro acc h _; simpa using h
  | cons x xs ih =>
    intro acc hacc hl
    simp only [List.foldl_cons]
    by_cases hc : bins.getD x 0 > bins.getD acc 0
    · rw [if_pos hc]
      exact ih x (hl x (by simp)) fun i hi => hl i (List.mem_cons_of_mem x hi)
    · rw [if_neg hc]
      exact ih acc hacc fun i hi => hl i (List.mem_cons_of_mem x hi)

/-- C8: every `BeatInfo` the tempo estimator returns has `bpm ∈ [50, 200]`
and `downbeatOffset ∈ [0, 60/bpm)`, in the defaults (too few onsets, no
candidates in range) as well as in every computed result. -/
theorem getBeatInfo_invariant (st : TempoState) :
    50 ≤ (getBeatInfo st).bpm ∧ (getBeatInfo st).bpm ≤ 200 ∧
    0 ≤ (getBeatInfo st).downbeatOffset ∧
    (getBeatInfo st).downbeatOffset < 60 / (getBeatInfo st).bpm := by
  rw [getBeatInfo]
  by_cases h4 : st.onsetEvents.length < 4
  · rw [if_pos h4]
    norm_num
  · rw [if_neg h4]
    dsimp only
    by_cases hc : (bpmCandidatesOf st).length = 0
    · rw [if_pos hc]
      norm_num
    · rw [if_neg hc]
      have hcne : bpmCandidatesOf st ≠ [] := by
        intro h
        rw [h] at hc
        simp at hc
      have hbounds : ∀ x ∈ bpmCandidatesOf st, 50 ≤ x ∧ x ≤ 200 := by
        intro x hx
        rw [bpmCandidatesOf] at hx
        rw [List.mem_filter] at hx
        have := hx.2
        simpa using of_decide_eq_true this
      have hgne := groupSimilarBPMs_ne_nil _ hcne
      have hmem := reduceMaxCount_mem _ hgne
      have hginv := groupSimilarBPMs_inv _ hbounds _ hmem
      obtain ⟨hne2, hb2, havg⟩ := hginv
      have havgb := avg_bounds_of_mem_Icc _ hne2 hb2
      rw [← havg] at havgb
      set avg := (reduceMaxCount (groupSimilarBPMs (bpmCandidatesOf st))).avgBpm with ha
      have hbpm1 : (50 : ℤ) ≤ jsRound avg := by
        rw [jsRound]
        have : (50 : ℚ) ≤ avg + 1/2 := by linarith [havgb.1]
        exact Int.le_floor.mpr (by push_cast; linarith)
      have hbpm2 : jsRound avg ≤ (200 : ℤ) := by
        rw [jsRound]
        have hle : avg + 1/2 ≤ 401/2 := by linarith [havgb.2]
        have h2 := Int.floor_le_floor hle
        have h3 : (⌊(401/2 : ℚ)⌋ : ℤ) = 200 := by norm_num
        omega
      have hbpm1q : (50 : ℚ) ≤ (jsRound avg : ℚ) := by exact_mod_cast hbpm1
      have hbpm2q : ((jsRound avg : ℚ)) ≤ 200 := by exact_mod_cast hbpm2
      have hmaxeq : max (1 : ℚ) ((jsRound avg : ℚ)) = ((jsRound avg : ℚ)) :=
        max_eq_right (by linarith)
      have hbpmpos : (0 : ℚ) < ((jsRound avg : ℚ)) := by linarith
      have hbeatpos : (0 : ℚ) < 60 / max 1 ((jsRound avg : ℚ)) := by
        rw [hmaxeq]
        positivity
      set beatSec := 60 / max 1 ((jsRound avg : ℚ)) with hbs
      have hmi := maxIdxOf_lt (binsOf st beatSec)
      set mi := maxIdxOf (binsOf st beatSec) with hmiv
      have hoff0 : (0 : ℚ) ≤ ((mi : ℚ) + 1/2) / 32 * beatSec := by positivity
      have hofflt : ((mi : ℚ) + 1/2) / 32 * beatSec < beatSec := by
        have hmi2 : ((mi : ℚ)) + 1/2 < 32 := by
          have : ((mi : ℚ)) ≤ 31 := by exact_mod_cast Nat.lt_succ_iff.mp hmi
          linarith
        have hfrac : ((mi : ℚ) + 1/2) / 32 < 1 := by
          rw [div_lt_one (by norm_num)]
          exact hmi2
        nlinarith
      have hrem : jsRem (((mi : ℚ) + 1/2) / 32 * beatSec) beatSec =
          ((mi : ℚ) + 1/2) / 32 * beatSec :=
        jsRem_eq_self hoff0 hbeatpos hofflt
      refine ⟨hbpm1q, hbpm2q, ?_, ?_⟩
      · rw [hrem]
        exact hoff0
      · rw [hrem]
        calc ((mi : ℚ) + 1/2) / 32 * beatSec < beatSec := hofflt
          _ = 60 / ((jsRound avg : ℚ)) := by rw [hbs, hmaxeq]

/-! ## C5 — onset recording and inter-onset spacing -/

/-- C5 counterexample: three frames 10 ms apart whose energies each exceed
the previous one by more than 12% make `TempoDetector.addAudioFrame`
record three onsets only 10 ms apart — the detector enforces no minimum
inter-onset spacing, so the claimed 50 ms separation fails. -/
theorem tempo_onsets_closer_than_50ms :
    (addAudioFrame (addAudioFrame (addAudioFrame initialTempoState (1/10) 0)
        (2/10) (1/100)) (3/10) (2/100)).onsetEvents =
      [⟨0, 1/10⟩, ⟨1/100, 2/10⟩, ⟨2/100, 3/10⟩] ∧
    ((1/100 : ℚ) - 0 < 5/100 ∧ (2/100 : ℚ) - 1/100 < 5/100) := by
  constructor
  · norm_num [addAudioFrame, initialTempoState]
  · norm_num

/-- C5 (amended): `TempoDetector.addAudioFrame` records an onset only if
the frame energy exceeds the previous frame's energy by more than the 12%
relative threshold and the `1e-4` noise floor — it enforces no inter-onset
spacing (see the counterexample).  The 50 ms minimum spacing belongs to
`FeatureExtractor.filterOnsets` (whose onsets come from an absolute
spectral-flux threshold): consecutive onsets in its output are always at
least `minInterval` apart. -/
theorem onset_threshold_and_min_spacing (st : TempoState) (e t : ℚ)
    (onsets : List ℚ) (d : ℚ) :
    (¬ (e > st.lastEnergy * (1 + 12/100) ∧ e > 1/10000) →
      (addAudioFrame st e t).onsetEvents = st.onsetEvents) ∧
    List.Chain' (fun a b => d ≤ b - a) (filterOnsets onsets d) := by
  constructor
  · intro h
    rw [addAudioFrame]
    simp only [if_neg h]
  · match onsets with
    | [] => exact List.chain'_nil
    | o :: rest =>
      have hunf : filterOnsets (o :: rest) d =
          rest.foldl
            (fun filtered onset =>
              if onset - filtered.getLastD 0 ≥ d then filtered ++ [onset] else filtered)
            [o] := rfl
      rw [hunf]
      suffices hgen : ∀ (l : List ℚ) (acc : List ℚ), acc ≠ [] →
          List.Chain' (fun a b => d ≤ b - a) acc →
          (l.foldl
            (fun filtered onset =>
              if onset - filtered.getLastD 0 ≥ d then filtered ++ [onset] else filtered)
            acc ≠ [] ∧
          List.Chain' (fun a b => d ≤ b - a)
            (l.foldl
              (fun filtered onset =>
                if onset - filtered.getLastD 0 ≥ d then filtered ++ [onset] else filtered)
              acc)) by
        exact (hgen rest [o] (by simp) (by simp)).2
      intro l
      induction l with
      | nil => intro acc h1 h2; exact ⟨h1, h2⟩
      | cons x xs ih =>
        intro acc h1 h2
        simp only [List.foldl_cons]
        by_cases hc : x - acc.getLastD 0 ≥ d
        · rw [if_pos hc]
          apply ih
          · simp
          · rw [List.chain'_append]
            refine ⟨h2, List.chain'_singleton x, ?_⟩
            intro y hy z hz
            simp only [List.head?_cons, Option.mem_def, Option.some_inj] at hz
            subst hz
            have hlast : acc.getLastD 0 = y := by
              cases hacc : acc.getLast? with
              | none =>
                rw [List.getLast?_eq_none_iff] at hacc
                exact absurd hacc h1
              | some w =>
                rw [hacc] at hy
                simp only [Option.mem_def, Option.some_inj] at hy
                rw [List.getLastD_eq_getLast?, hacc, hy]
                rfl
            rw [← hlast]
            linarith
        · rw [if_neg hc]
          exact ih acc h1 h2

/-- C5 witness: the amended theorem applied at a frame that fails the
relative threshold (no onset recorded) and at a concrete onset list. -/
theorem onset_threshold_and_min_spacing_witness :
    ((addAudioFrame ⟨[], 1⟩ 1 0).onsetEvents = [] ∧
      List.Chain' (fun a b => (5/100 : ℚ) ≤ b - a) (filterOnsets [0, 1/10] (5/100))) := by
  have h := onset_threshold_and_min_spacing ⟨[], 1⟩ 1 0 [0, 1/10] (5/100)
  exact ⟨h.1 (by norm_num), h.2⟩

/-! ## C1 — chroma normalization -/

theorem snd_mem_of_mem_enumFrom {α : Type _} :
    ∀ (l : List α) (n : ℕ) (p : ℕ × α), p ∈ l.enumFrom n → p.2 ∈ l := by
  intro l
  induction l with
  | nil => intro n p hp; simp [List.enumFrom] at hp
  | cons x xs ih =>
    intro n p hp
    simp only [List.enumFrom] at hp
    rcases List.mem_cons.mp hp with rfl | h
    · simp
    · exact List.mem_cons_of_mem x (ih (n + 1) p h)

theorem snd_mem_of_mem_enum {α : Type _} (l : List α) (p : ℕ × α) (hp : p ∈ l.enum) :
    p.2 ∈ l := snd_mem_of_mem_enumFrom l 0 p hp

theorem sum_map_div (l : List ℚ) (s : ℚ) : (l.map fun v => v / s).sum = l.sum / s := by
  induction l with
  | nil => simp
  | cons x xs ih => simp [ih, add_div]

/-- Normalization step shared by `frequencyToChroma` and `spectrumToChroma`:
if some bin with an active pitch class carries positive magnitude and all
magnitudes are nonnegative, the accumulated chroma has positive total and the
normalized vector sums to 1. -/
theorem accumNorm_sum_one (f : ℕ → Option ℕ) (hb : ∀ b pc, f b = some pc → pc < 12)
    (mags : List ℚ) (hnn : ∀ x ∈ mags, 0 ≤ x)
    (p : ℕ × ℚ) (hp : p ∈ mags.enum) (hsome : (f p.1).isSome) (hpos : 0 < p.2) :
    0 < (accumBins f mags.enum (List.replicate 12 0)).sum ∧
    ((accumBins f mags.enum (List.replicate 12 0)).map
        (fun v => v / (accumBins f mags.enum (List.replicate 12 0)).sum)).sum = 1 := by
  have hsum : (accumBins f mags.enum (List.replicate 12 0)).sum =
      ((mags.enum.filter fun q => (f q.1).isSome).map Prod.snd).sum := by
    rw [accumBins_sum f hb _ _ (by simp)]
    simp [List.sum_replicate]
  have hmem : p.2 ∈ (mags.enum.filter fun q => (f q.1).isSome).map Prod.snd :=
    List.mem_map_of_mem _ (List.mem_filter.mpr ⟨hp, hsome⟩)
  have hnn2 : ∀ x ∈ (mags.enum.filter fun q => (f q.1).isSome).map Prod.snd, 0 ≤ x := by
    intro x hx
    rcases List.mem_map.mp hx with ⟨q, hq, rfl⟩
    exact hnn q.2 (snd_mem_of_mem_enum _ _ (List.mem_of_mem_filter hq))
  have hpos2 : 0 < (accumBins f mags.enum (List.replicate 12 0)).sum := by
    rw [hsum]
    exact sum_pos_of_mem_pos _ hnn2 p.2 hmem hpos
  refine ⟨hpos2, ?_⟩
  rw [sum_map_div, div_self (ne_of_gt hpos2)]

/-- When every bin with an active pitch class carries zero magnitude, the
accumulated chroma is the all-zero 12-vector. -/
theorem accum_eq_zero_of_inactive (f : ℕ → Option ℕ)
    (hb : ∀ b pc, f b = some pc → pc < 12) (mags : List ℚ)
    (hz : ∀ p ∈ mags.enum, (f p.1).isSome → p.2 = 0) :
    accumBins f mags.enum (List.replicate 12 0) = List.replicate 12 0 := by
  have hlen : (accumBins f mags.enum (List.replicate 12 0)).length = 12 := by
    rw [accumBins_length, List.length_replicate]
  apply List.ext_getElem (by rw [hlen, List.length_replicate])
  intro j h1 h2
  have hj : j < 12 := by rw [hlen] at h1; exact h1
  have hD := accumBins_getD f hb mags.enum (List.replicate 12 0) (by simp) j hj
  have hzero : ((mags.enum.filter fun q => f q.1 == some j).map Prod.snd).sum = 0 := by
    apply List.sum_eq_zero
    intro x hx
    rcases List.mem_map.mp hx with ⟨q, hq, rfl⟩
    have hqf := List.mem_filter.mp hq
    have hqs : (f q.1).isSome := by
      cases hbeq : f q.1 with
      | none => rw [hbeq] at hqf; simp at hqf
      | some pc => simp
    exact hz q hqf.1 hqs
  have hrep : (List.replicate 12 (0 : ℚ)).getD j 0 = 0 := by
    rw [List.getD_eq_getElem _ _ h2, List.getElem_replicate]
  have hval : (accumBins f mags.enum (List.replicate 12 0)).getD j 0 = 0 := by
    rw [hD, hzero, hrep, add_zero]
  rw [List.getD_eq_getElem _ _ h1] at hval
  rw [hval, List.getElem_replicate]

theorem tsBinPC_inRange_of_isSome (len : ℕ) (sr : ℚ) (b : ℕ)
    (h : (tsBinPC len sr b).isSome) :
    80 ≤ tsBinFreq len sr b ∧ tsBinFreq len sr b ≤ 2000 := by
  simp only [tsBinPC] at h
  by_cases h1 : tsBinFreq len sr b < 80 ∨ tsBinFreq len sr b > 2000
  · rw [if_pos h1] at h
    simp at h
  · push_neg at h1
    exact ⟨h1.1, h1.2⟩

theorem swiftBinPC_inRange_of_isSome (b : ℕ) (h : (swiftBinPC b).isSome) :
    80 < swiftBinFreq b ∧ swiftBinFreq b < 8000 := by
  simp only [swiftBinPC] at h
  by_cases h1 : swiftBinFreq b > 80 ∧ swiftBinFreq b < 8000
  · exact ⟨h1.1, h1.2⟩
  · rw [if_neg h1] at h
    simp at h

/-- C1: for nonnegative spectral magnitudes, both chroma extractors
normalize to total 1 whenever some bin whose center frequency lies in the
musical range carries positive magnitude, and return the all-zero 12-vector
whenever every in-range bin carries zero magnitude (`frequencyToChroma`
ranges over [80, 2000] Hz, `spectrumToChroma` over (80, 8000) Hz); the
output is always an exact rational vector, never NaN. -/
theorem chroma_normalized_or_zero (mags : List ℚ) (sr : ℚ)
    (hnn : ∀ x ∈ mags, 0 ≤ x) :
    ((∃ p ∈ mags.enum, (80 ≤ tsBinFreq mags.length sr p.1 ∧
          tsBinFreq mags.length sr p.1 ≤ 2000) ∧ 0 < p.2) →
        (frequencyToChroma mags sr).sum = 1) ∧
    ((∀ p ∈ mags.enum, 80 ≤ tsBinFreq mags.length sr p.1 →
          tsBinFreq mags.length sr p.1 ≤ 2000 → p.2 = 0) →
        frequencyToChroma mags sr = List.replicate 12 0) ∧
    ((∃ p ∈ mags.enum, (80 < swiftBinFreq p.1 ∧ swiftBinFreq p.1 < 8000) ∧ 0 < p.2) →
        (spectrumToChroma mags).sum = 1) ∧
    ((∀ p ∈ mags.enum, 80 < swiftBinFreq p.1 → swiftBinFreq p.1 < 8000 → p.2 = 0) →
        spectrumToChroma mags = List.replicate 12 0) := by
  refine ⟨?_, ?_, ?_, ?_⟩
  · rintro ⟨p, hp, ⟨h80, h2000⟩, hpos⟩
    have hsome : (tsBinPC mags.length sr p.1).isSome := by
      rw [tsBinPC_isSome_of_inRange _ _ _ h80 h2000]
      rfl
    have hA := accumNorm_sum_one (tsBinPC mags.length sr)
      (fun b pc h => tsBinPC_lt_12 mags.length sr b pc h) mags hnn p hp hsome hpos
    simp only [frequencyToChroma, frequencyToChromaAccum]
    rw [if_pos hA.1]
    exact hA.2
  · intro hz
    have hacc : accumBins (tsBinPC mags.length sr) mags.enum (List.replicate 12 0) =
        List.replicate 12 0 := by
      apply accum_eq_zero_of_inactive _ (fun b pc h => tsBinPC_lt_12 mags.length sr b pc h)
      intro p hp hsome
      obtain ⟨h80, h2000⟩ := tsBinPC_inRange_of_isSome _ _ _ hsome
      exact hz p hp h80 h2000
    simp only [frequencyToChroma, frequencyToChromaAccum]
    rw [hacc]
    norm_num [List.sum_replicate]
  · rintro ⟨p, hp, ⟨h80, h8000⟩, hpos⟩
    have hsome : (swiftBinPC p.1).isSome := by
      rw [swiftBinPC_isSome_of_inRange _ h80 h8000]
      rfl
    have hA := accumNorm_sum_one swiftBinPC
      (fun b pc h => swiftBinPC_lt_12 b pc h) mags hnn p hp hsome hpos
    simp only [spectrumToChroma, spectrumToChromaAccum]
    rw [if_pos hA.1]
    exact hA.2
  · intro hz
    have hacc : accumBins swiftBinPC mags.enum (List.replicate 12 0) =
        List.replicate 12 0 := by
      apply accum_eq_zero_of_inactive _ (fun b pc h => swiftBinPC_lt_12 b pc h)
      intro p hp hsome
      obtain ⟨h80, h8000⟩ := swiftBinPC_inRange_of_isSome _ hsome
      exact hz p hp h80 h8000
    simp only [spectrumToChroma, spectrumToChromaAccum]
    rw [hacc]
    norm_num [List.sum_replicate]

/-- C1 witness: a 9-bin spectrum at sample rate 450 Hz whose only energy sits
at bin 8 (center 200 Hz for the web extractor, ≈86.1 Hz for the mobile one)
normalizes to total 1 in both extractors, while a single out-of-range bin
yields the zero vector in both. -/
theorem chroma_normalized_or_zero_witness :
    (frequencyToChroma [0, 0, 0, 0, 0, 0, 0, 0, 1] 450).sum = 1 ∧
    (spectrumToChroma [0, 0, 0, 0, 0, 0, 0, 0, 1]).sum = 1 ∧
    frequencyToChroma [5] 450 = List.replicate 12 0 ∧
    spectrumToChroma [5] = List.replicate 12 0 := by
  have hnn1 : ∀ x ∈ ([0, 0, 0, 0, 0, 0, 0, 0, 1] : List ℚ), 0 ≤ x := by
    intro x hx
    fin_cases hx <;> norm_num
  have hnn2 : ∀ x ∈ ([5] : List ℚ), 0 ≤ x := by
    intro x hx
    fin_cases hx
    norm_num
  have h1 := chroma_normalized_or_zero [0, 0, 0, 0, 0, 0, 0, 0, 1] 450 hnn1
  have h2 := chroma_normalized_or_zero [5] 450 hnn2
  have henum : ([0, 0, 0, 0, 0, 0, 0, 0, 1] : List ℚ).enum =
      [(0, 0), (1, 0), (2, 0), (3, 0), (4, 0), (5, 0), (6, 0), (7, 0), (8, 1)] := rfl
  refine ⟨h1.1 ?_, h1.2.2.1 ?_, h2.2.1 ?_, h2.2.2.2 ?_⟩
  · refine ⟨(8, 1), ?_, ⟨?_, ?_⟩, by norm_num⟩
    · rw [henum]
      simp
    · norm_num [tsBinFreq]
    · norm_num [tsBinFreq]
  · refine ⟨(8, 1), ?_, ⟨?_, ?_⟩, by norm_num⟩
    · rw [henum]
      simp
    · norm_num [swiftBinFreq]
    · norm_num [swiftBinFreq]
  · intro p hp h80 _
    exfalso
    have hp0 : p = (0, 5) := by
      have : ([5] : List ℚ).enum = [(0, 5)] := rfl
      rw [this] at hp
      simpa using hp
    rw [hp0] at h80
    norm_num [tsBinFreq] at h80
  · intro p hp h80 _
    exfalso
    have hp0 : p = (0, 5) := by
      have : ([5] : List ℚ).enum = [(0, 5)] := rfl
      rw [this] at hp
      simpa using hp
    rw [hp0] at h80
    norm_num [swiftBinFreq] at h80

/-! ## C4 — per-bin frequency gating -/

/-- C4 counterexample: at sample rate 12000 Hz a 2-bin spectrum puts bin 1's
center frequency at 3000 Hz — strictly inside 80–8000 Hz — yet the web
extractor `frequencyToChroma` contributes nothing from it (its gate is
80–2000 Hz), so the output is the zero vector. -/
theorem inband_bin_dropped_by_web_extractor :
    (80 : ℚ) < tsBinFreq 2 12000 1 ∧ tsBinFreq 2 12000 1 < 8000 ∧
    frequencyToChroma [0, 1] 12000 = List.replicate 12 0 := by
  refine ⟨by norm_num [tsBinFreq], by norm_num [tsBinFreq], ?_⟩
  have hacc : frequencyToChromaAccum [0, 1] 12000 = List.replicate 12 0 := by
    apply accum_eq_zero_of_inactive _
      (fun b pc h => tsBinPC_lt_12 ([0, 1] : List ℚ).length 12000 b pc h)
    intro p hp hsome
    obtain ⟨h80, h2000⟩ := tsBinPC_inRange_of_isSome _ _ _ hsome
    have hp2 : p = (0, 0) ∨ p = (1, 1) := by
      have henum : ([0, 1] : List ℚ).enum = [(0, 0), (1, 1)] := rfl
      rw [henum] at hp
      simpa using hp
    exfalso
    rcases hp2 with rfl | rfl
    · norm_num [tsBinFreq] at h80
    · norm_num [tsBinFreq] at h2000
  simp only [frequencyToChroma]
  rw [hacc]
  norm_num [List.sum_replicate]

/-- C4 (amended): the web extractor `frequencyToChroma` gates bins to center
frequencies in [80, 2000] Hz — not 80–8000 Hz — while the mobile extractor
`spectrumToChroma` gates strictly to (80, 8000) Hz.  In each extractor an
out-of-range bin maps to no chroma bin, an in-range bin maps to exactly one
chroma bin (an index below 12), and each chroma entry accumulates exactly
the magnitudes of the bins mapped to it. -/
theorem bin_contribution_characterization (mags : List ℚ) (sr : ℚ) (j : ℕ)
    (hj : j < 12) :
    (∀ b : ℕ, (tsBinFreq mags.length sr b < 80 ∨ tsBinFreq mags.length sr b > 2000) →
        tsBinPC mags.length sr b = none) ∧
    (∀ b : ℕ, 80 ≤ tsBinFreq mags.length sr b → tsBinFreq mags.length sr b ≤ 2000 →
        ∃ pc, pc < 12 ∧ tsBinPC mags.length sr b = some pc) ∧
    (frequencyToChromaAccum mags sr).getD j 0 =
      ((mags.enum.filter fun p => tsBinPC mags.length sr p.1 == some j).map Prod.snd).sum ∧
    (∀ b : ℕ, ¬(80 < swiftBinFreq b ∧ swiftBinFreq b < 8000) → swiftBinPC b = none) ∧
    (∀ b : ℕ, 80 < swiftBinFreq b → swiftBinFreq b < 8000 →
        ∃ pc, pc < 12 ∧ swiftBinPC b = some pc) ∧
    (spectrumToChromaAccum mags).getD j 0 =
      ((mags.enum.filter fun p => swiftBinPC p.1 == some j).map Prod.snd).sum := by
  have hrep : (List.replicate 12 (0 : ℚ)).getD j 0 = 0 := by
    rw [List.getD_eq_getElem _ _ (by rw [List.length_replicate]; exact hj),
      List.getElem_replicate]
  refine ⟨?_, ?_, ?_, ?_, ?_, ?_⟩
  · intro b hb
    simp only [tsBinPC]
    rw [if_pos hb]
  · intro b h80 h2000
    exact ⟨(jsRemInt (roundedMidi (tsBinFreq mags.length sr b / 440)) 12).toNat,
      tsBinPC_lt_12 mags.length sr b _ (tsBinPC_isSome_of_inRange _ _ _ h80 h2000),
      tsBinPC_isSome_of_inRange _ _ _ h80 h2000⟩
  · rw [frequencyToChromaAccum,
      accumBins_getD _ (fun b pc h => tsBinPC_lt_12 mags.length sr b pc h) _ _
        (List.length_replicate 12 0) j hj, hrep, zero_add]
  · intro b hb
    simp only [swiftBinPC]
    rw [if_neg hb]
  · intro b h80 h8000
    exact ⟨(jsRemInt (flooredPitch (swiftBinFreq b / 440)) 12).toNat,
      swiftBinPC_lt_12 b _ (swiftBinPC_isSome_of_inRange _ h80 h8000),
      swiftBinPC_isSome_of_inRange _ h80 h8000⟩
  · rw [spectrumToChromaAccum,
      accumBins_getD _ (fun b pc h => swiftBinPC_lt_12 b pc h) _ _
        (List.length_replicate 12 0) j hj, hrep, zero_add]

/-- C4 witness: at sample rate 12000 Hz, bin 1 (3000 Hz) maps to no chroma
bin in the web extractor, bin 100 of the mobile extractor (≈1076.7 Hz) maps
to exactly one chroma bin, and chroma entry 0 accumulates exactly the
magnitudes of bins mapped to it. -/
theorem bin_contribution_characterization_witness :
    tsBinPC 2 12000 1 = none ∧ (∃ pc, pc < 12 ∧ swiftBinPC 100 = some pc) ∧
    (frequencyToChromaAccum [0, 1] 12000).getD 0 0 =
      ((([0, 1] : List ℚ).enum.filter fun p => tsBinPC 2 12000 p.1 == some 0).map
        Prod.snd).sum := by
  have h := bin_contribution_characterization [0, 1] 12000 0 (by norm_num)
  exact ⟨h.1 1 (Or.inr (by norm_num [tsBinFreq])),
    h.2.2.2.2.1 100 (by norm_num [swiftBinFreq]) (by norm_num [swiftBinFreq]),
    h.2.2.1⟩

/-! ## C2 — key estimation as a first-maximum selection

`KeyDetector.findBestKey` (Swift) enumerates all 12 major keys by ascending
tonic and then all 12 minor keys; `chromaToKey` (web) interleaves the two
modes per root.  The theorems below show that both return the first maximum
of the majors-then-minors enumeration: for the web this needs the fact that
an exact cross-mode score tie at a positive value is impossible, because the
two Krumhansl-Schmuckler profiles' sums of squared deviations have a
non-square ratio (`1920851` is prime and does not divide `2297547`). -/

theorem natSq_ratio_ne (x y : ℕ) (hx : x ≠ 0) :
    x * x * 1920851 ≠ y * y * 2297547 := by
  intro h
  have hy : y ≠ 0 := by
    rintro rfl
    simp only [Nat.zero_mul] at h
    have hpos : 0 < x * x * 1920851 := by positivity
    omega
  have hp : Nat.Prime 1920851 := by norm_num
  have hnd : ¬ (1920851 ∣ 2297547) := by decide
  have h1 : (x * x * 1920851).factorization 1920851 =
      x.factorization 1920851 + x.factorization 1920851 + 1 := by
    rw [Nat.factorization_mul (Nat.mul_ne_zero hx hx) (by norm_num : (1920851 : ℕ) ≠ 0),
      Nat.factorization_mul hx hx, hp.factorization]
    simp [Finsupp.single_apply]
  have h2 : (y * y * 2297547).factorization 1920851 =
      y.factorization 1920851 + y.factorization 1920851 := by
    rw [Nat.factorization_mul (Nat.mul_ne_zero hy hy) (by norm_num : (2297547 : ℕ) ≠ 0),
      Nat.factorization_mul hy hy]
    simp [Nat.factorization_eq_zero_of_not_dvd hnd]
  rw [h, h2] at h1
  omega

theorem ratSq_ratio_ne (a b : ℚ) (ha : 0 < a) (_hb : 0 < b) :
    a * a * 1920851 ≠ b * b * 2297547 := by
  intro h
  have haden : ((a.den : ℚ)) ≠ 0 := by
    exact_mod_cast a.den_nz
  have hbden : ((b.den : ℚ)) ≠ 0 := by
    exact_mod_cast b.den_nz
  have ha1 : (a.num : ℚ) = a * (a.den : ℚ) := (div_eq_iff haden).mp (Rat.num_div_den a)
  have hb1 : (b.num : ℚ) = b * (b.den : ℚ) := (div_eq_iff hbden).mp (Rat.num_div_den b)
  have key : ((a.num : ℚ) * (b.den : ℚ)) ^ 2 * 1920851 =
      ((b.num : ℚ) * (a.den : ℚ)) ^ 2 * 2297547 := by
    linear_combination ((a.num : ℚ) + a * (a.den : ℚ)) * (b.den : ℚ) ^ 2 * 1920851 * ha1 -
      ((b.num : ℚ) + b * (b.den : ℚ)) * (a.den : ℚ) ^ 2 * 2297547 * hb1 +
      (a.den : ℚ) ^ 2 * (b.den : ℚ) ^ 2 * h
  have keyZ : (a.num * (b.den : ℤ)) ^ 2 * 1920851 = (b.num * (a.den : ℤ)) ^ 2 * 2297547 := by
    exact_mod_cast key
  have keyN : (a.num * (b.den : ℤ)).natAbs * (a.num * (b.den : ℤ)).natAbs * 1920851 =
      (b.num * (a.den : ℤ)).natAbs * (b.num * (a.den : ℤ)).natAbs * 2297547 := by
    have hcongr := congrArg Int.natAbs keyZ
    simpa [Int.natAbs_mul, Int.natAbs_pow, Nat.pow_two, Nat.mul_assoc] using hcongr
  have hxne : (a.num * (b.den : ℤ)).natAbs ≠ 0 := by
    rw [Int.natAbs_mul]
    exact Nat.mul_ne_zero (Int.natAbs_ne_zero.mpr (Rat.num_pos.mpr ha).ne')
      (Int.natAbs_ne_zero.mpr (by exact_mod_cast b.den_nz))
  exact natSq_ratio_ne _ _ hxne keyN

theorem exists_max_rat : ∀ (l : List ℚ), l ≠ [] → ∃ m ∈ l, ∀ x ∈ l, x ≤ m := by
  intro l
  induction l with
  | nil => intro h; exact absurd rfl h
  | cons a as ih =>
    intro _
    cases as with
    | nil =>
      refine ⟨a, by simp, ?_⟩
      intro x hx
      simp only [List.mem_singleton] at hx
      rw [hx]
    | cons b bs =>
      obtain ⟨m, hm, hmax⟩ := ih (by simp)
      rcases le_total a m with hle | hle
      · refine ⟨m, List.mem_cons_of_mem a hm, ?_⟩
        intro x hx
        rcases List.mem_cons.mp hx with rfl | hx2
        · exact hle
        · exact hmax x hx2
      · refine ⟨a, List.mem_cons_self a (b :: bs), ?_⟩
        intro x hx
        rcases List.mem_cons.mp hx with rfl | hx2
        · exact le_refl x
        · exact (hmax x hx2).trans hle

theorem all_zero_of_sum_zero_nonpos : ∀ l : List ℚ, (∀ x ∈ l, x ≤ 0) → l.sum = 0 →
    ∀ x ∈ l, x = 0 := by
  intro l
  induction l with
  | nil => intro _ _ x hx; simp at hx
  | cons y ys ih =>
    intro hnp hsum x hx
    have hy : y ≤ 0 := hnp y (by simp)
    have hys : ys.sum ≤ 0 := by
      have h0 : (0 : ℚ) ≤ (ys.map fun v => -v).sum :=
        List.sum_nonneg fun z hz => by
          rcases List.mem_map.mp hz with ⟨w, hw, rfl⟩
          simpa using hnp w (List.mem_cons_of_mem y hw)
      have h1 : ∀ ms : List ℚ, (ms.map fun v => -v).sum = -ms.sum := by
        intro ms
        induction ms with
        | nil => simp
        | cons m rest ihm => simp [ihm]; ring
      rw [h1] at h0
      linarith
    rw [List.sum_cons] at hsum
    rcases List.mem_cons.mp hx with rfl | hx2
    · linarith
    · exact ih (fun z hz => hnp z (List.mem_cons_of_mem y hz)) (by linarith) x hx2

/-- Numerator of `correlate` (sum of products of deviations). -/
def corrNum (a b : List ℚ) : ℚ :=
  ((a.zip b).map fun p => (p.1 - a.sum / (a.length : ℚ)) * (p.2 - b.sum / (b.length : ℚ))).sum

/-- Sum of squared deviations of a list (each factor of the `correlate`
denominator). -/
def corrDenomA (a : List ℚ) : ℚ :=
  (a.map fun x => (x - a.sum / (a.length : ℚ)) * (x - a.sum / (a.length : ℚ))).sum

theorem correlate_eq (a b : List ℚ) :
    correlate a b = if corrDenomA a * corrDenomA b = 0 then Score.zero
      else ⟨corrNum a b, corrDenomA a * corrDenomA b⟩ := rfl

theorem corrDenomA_rot_major (r : ℕ) (hr : r < 12) :
    corrDenomA (rotateArray majorProfile r) = 765849 / 40000 := by
  interval_cases r <;> norm_num [corrDenomA, rotateArray, majorProfile]

theorem corrDenomA_rot_minor (r : ℕ) (hr : r < 12) :
    corrDenomA (rotateArray minorProfile r) = 1920851 / 120000 := by
  interval_cases r <;> norm_num [corrDenomA, rotateArray, minorProfile]

theorem exists_twelve (chroma : List ℚ) (h12 : chroma.length = 12) :
    ∃ c0 c1 c2 c3 c4 c5 c6 c7 c8 c9 c10 c11,
      chroma = [c0, c1, c2, c3, c4, c5, c6, c7, c8, c9, c10, c11] := by
  rcases chroma with _ | ⟨c0, chroma⟩; · simp at h12
  rcases chroma with _ | ⟨c1, chroma⟩; · simp at h12
  rcases chroma with _ | ⟨c2, chroma⟩; · simp at h12
  rcases chroma with _ | ⟨c3, chroma⟩; · simp at h12
  rcases chroma with _ | ⟨c4, chroma⟩; · simp at h12
  rcases chroma with _ | ⟨c5, chroma⟩; · simp at h12
  rcases chroma with _ | ⟨c6, chroma⟩; · simp at h12
  rcases chroma with _ | ⟨c7, chroma⟩; · simp at h12
  rcases chroma with _ | ⟨c8, chroma⟩; · simp at h12
  rcases chroma with _ | ⟨c9, chroma⟩; · simp at h12
  rcases chroma with _ | ⟨c10, chroma⟩; · simp at h12
  rcases chroma with _ | ⟨c11, chroma⟩; · simp at h12
  rcases chroma with _ | ⟨c12x, chroma⟩
  · exact ⟨c0, c1, c2, c3, c4, c5, c6, c7, c8, c9, c10, c11, rfl⟩
  · simp at h12

theorem sum_corrNum_major (chroma : List ℚ) (h12 : chroma.length = 12) :
    ((List.range 12).map fun r => corrNum chroma (rotateArray majorProfile r)).sum = 0 := by
  obtain ⟨c0, c1, c2, c3, c4, c5, c6, c7, c8, c9, c10, c11, rfl⟩ := exists_twelve chroma h12
  norm_num [corrNum, rotateArray, majorProfile, List.range_succ]
  ring

theorem sum_corrNum_minor (chroma : List ℚ) (h12 : chroma.length = 12) :
    ((List.range 12).map fun r => corrNum chroma (rotateArray minorProfile r)).sum = 0 := by
  obtain ⟨c0, c1, c2, c3, c4, c5, c6, c7, c8, c9, c10, c11, rfl⟩ := exists_twelve chroma h12
  norm_num [corrNum, rotateArray, minorProfile, List.range_succ]
  ring

theorem Score.ltb_false_iff (a b : Score) (ha : 0 < a.den) (hb : 0 < b.den) :
    Score.ltb a b = false ↔
      (b.num : ℝ) / Real.sqrt (b.den : ℚ) ≤ (a.num : ℝ) / Real.sqrt (a.den : ℚ) := by
  rw [← not_lt, ← Score.ltb_iff a b ha hb]
  cases Score.ltb a b <;> simp

/-- One candidate of the web `chromaToKey` scan: root `r`, major mode. -/
def webMajorCand (chroma : List ℚ) (r : ℕ) : String × Score :=
  (PITCH_CLASSES.getD r "", correlate chroma (rotateArray majorProfile r))

/-- One candidate of the web `chromaToKey` scan: root `r`, minor mode. -/
def webMinorCand (chroma : List ℚ) (r : ℕ) : String × Score :=
  (PITCH_CLASSES.getD r "" ++ "m", correlate chroma (rotateArray minorProfile r))

/-- The enumeration order actually scanned by `chromaToKey`: per root, major
then minor. -/
def webCandidatesInterleaved (chroma : List ℚ) : List (String × Score) :=
  (List.range 12).foldr
    (fun r acc => webMajorCand chroma r :: webMinorCand chroma r :: acc) []

/-- The enumeration order named by the specification: all 12 major keys by
ascending root, then all 12 minor keys by ascending root. -/
def webCandidatesModeFirst (chroma : List ℚ) : List (String × Score) :=
  (List.range 12).map (webMajorCand chroma) ++ (List.range 12).map (webMinorCand chroma)

theorem chromaToKey_eq_selectGo (chroma : List ℚ) :
    chromaToKey chroma =
      ((selectGo ("", (⟨-1, 1⟩ : Score)) (webCandidatesInterleaved chroma)).1,
        Score.max0 (selectGo ("", (⟨-1, 1⟩ : Score)) (webCandidatesInterleaved chroma)).2) := by
  have hgen : ∀ (l : List ℕ) (b : String × Score),
      l.foldl
        (fun best root =>
          let majorCorr := correlate chroma (rotateArray majorProfile root)
          let best1 :=
            if Score.ltb best.2 majorCorr then (PITCH_CLASSES.getD root "", majorCorr) else best
          let minorCorr := correlate chroma (rotateArray minorProfile root)
          if Score.ltb best1.2 minorCorr then (PITCH_CLASSES.getD root "" ++ "m", minorCorr)
          else best1) b =
      selectGo b
        (l.foldr (fun r acc => webMajorCand chroma r :: webMinorCand chroma r :: acc) []) := by
    intro l
    induction l with
    | nil => intro b; rfl
    | cons r rs ih =>
      intro b
      rw [List.foldl_cons, List.foldr_cons, ih]
      rfl
  rw [chromaToKey]
  dsimp only
  rw [hgen (List.range 12) ("", (⟨-1, 1⟩ : Score))]
  rfl

theorem find?_isMaxOf_cons_beaten {α : Type} (b : α × Score) (l : List (α × Score))
    (hden : ∀ c ∈ b :: l, 0 < c.2.den)
    (hbeat : ∃ c ∈ l, Score.ltb b.2 c.2 = true) :
    (b :: l).find? (isMaxOf (b :: l)) = l.find? (isMaxOf l) := by
  obtain ⟨c, hcl, hbc⟩ := hbeat
  have hpb : isMaxOf (b :: l) b = false := by
    cases hmb : isMaxOf (b :: l) b
    · rfl
    · exfalso
      have h2 := (isMaxOf_eq_true.mp hmb) c (List.mem_cons_of_mem b hcl)
      rw [h2] at hbc
      exact Bool.noConfusion hbc
  rw [List.find?_cons_of_neg _ (by simp [hpb])]
  apply find?_congr
  intro x hx
  cases hml : isMaxOf l x
  · cases hmbl : isMaxOf (b :: l) x
    · rfl
    · exfalso
      have hall := isMaxOf_eq_true.mp hmbl
      have h3 : isMaxOf l x = true :=
        isMaxOf_eq_true.mpr fun d hd => hall d (List.mem_cons_of_mem b hd)
      rw [hml] at h3
      exact Bool.noConfusion h3
  · have hall := isMaxOf_eq_true.mp hml
    have hxc : Score.ltb x.2 c.2 = false := hall c hcl
    have hxb : Score.ltb x.2 b.2 = false := by
      cases hxb2 : Score.ltb x.2 b.2
      · rfl
      · exfalso
        have h4 := Score.ltb_trans (hden x (List.mem_cons_of_mem b hx))
          (hden b (List.mem_cons_self b l)) (hden c (List.mem_cons_of_mem b hcl)) hxb2 hbc
        rw [h4] at hxc
        exact Bool.noConfusion hxc
    exact isMaxOf_eq_true.mpr fun d hd => by
      rcases List.mem_cons.mp hd with rfl | hd2
      · exact hxb
      · exact hall d hd2

theorem mem_interleave_iff {α : Type} (f g : ℕ → α) :
    ∀ (l : List ℕ) (x : α),
      (x ∈ l.foldr (fun r acc => f r :: g r :: acc) []) ↔ ∃ r ∈ l, x = f r ∨ x = g r := by
  intro l
  induction l with
  | nil => intro x; simp
  | cons r rs ih =>
    intro x
    rw [List.foldr_cons, List.mem_cons, List.mem_cons, ih x]
    constructor
    · rintro (rfl | rfl | ⟨r2, hr2, hx⟩)
      · exact ⟨r, by simp, Or.inl rfl⟩
      · exact ⟨r, by simp, Or.inr rfl⟩
      · exact ⟨r2, List.mem_cons_of_mem r hr2, hx⟩
    · rintro ⟨r2, hr2, hx⟩
      rcases List.mem_cons.mp hr2 with rfl | hr3
      · rcases hx with rfl | rfl
        · exact Or.inl rfl
        · exact Or.inr (Or.inl rfl)
      · exact Or.inr (Or.inr ⟨r2, hr3, hx⟩)

theorem mem_mapAppend_iff {α : Type} (f g : ℕ → α) (l : List ℕ) (x : α) :
    (x ∈ l.map f ++ l.map g) ↔ ∃ r ∈ l, x = f r ∨ x = g r := by
  rw [List.mem_append, List.mem_map, List.mem_map]
  constructor
  · rintro (⟨r, hr, rfl⟩ | ⟨r, hr, rfl⟩)
    · exact ⟨r, hr, Or.inl rfl⟩
    · exact ⟨r, hr, Or.inr rfl⟩
  · rintro ⟨r, hr, rfl | rfl⟩
    · exact Or.inl ⟨r, hr, rfl⟩
    · exact Or.inr ⟨r, hr, rfl⟩

theorem isMaxOf_congr {α : Type} {l1 l2 : List (α × Score)}
    (h : ∀ x, x ∈ l1 ↔ x ∈ l2) (c : α × Score) : isMaxOf l1 c = isMaxOf l2 c := by
  cases h2 : isMaxOf l2 c
  · cases h1 : isMaxOf l1 c
    · rfl
    · exfalso
      have h3 : isMaxOf l2 c = true :=
        isMaxOf_eq_true.mpr fun d hd => (isMaxOf_eq_true.mp h1) d ((h d).mpr hd)
      rw [h2] at h3
      exact Bool.noConfusion h3
  · exact isMaxOf_eq_true.mpr fun d hd => (isMaxOf_eq_true.mp h2) d ((h d).mp hd)

theorem find?_interleave_of_g_false {α : Type} (p : α → Bool) (f g : ℕ → α) :
    ∀ l : List ℕ, (∀ r ∈ l, p (g r) = false) →
      (l.foldr (fun r acc => f r :: g r :: acc) []).find? p = (l.map f).find? p := by
  intro l
  induction l with
  | nil => intro _; rfl
  | cons r rs ih =>
    intro h
    rw [List.foldr_cons, List.map_cons]
    by_cases hf : p (f r) = true
    · rw [List.find?_cons_of_pos _ hf, List.find?_cons_of_pos _ hf]
    · have hf2 : p (f r) = false := by
        cases hfr : p (f r)
        · rfl
        · exact absurd hfr hf
      rw [List.find?_cons_of_neg _ (by simp [hf2]),
        List.find?_cons_of_neg _ (by simp [h r (List.mem_cons_self r rs)]),
        List.find?_cons_of_neg _ (by simp [hf2])]
      exact ih fun r2 hr2 => h r2 (List.mem_cons_of_mem r hr2)

theorem find?_interleave_of_f_false {α : Type} (p : α → Bool) (f g : ℕ → α) :
    ∀ l : List ℕ, (∀ r ∈ l, p (f r) = false) →
      (l.foldr (fun r acc => f r :: g r :: acc) []).find? p = (l.map g).find? p := by
  intro l
  induction l with
  | nil => intro _; rfl
  | cons r rs ih =>
    intro h
    rw [List.foldr_cons, List.map_cons]
    rw [List.find?_cons_of_neg _ (by simp [h r (List.mem_cons_self r rs)])]
    by_cases hg : p (g r) = true
    · rw [List.find?_cons_of_pos _ hg, List.find?_cons_of_pos _ hg]
    · have hg2 : p (g r) = false := by
        cases hgr : p (g r)
        · rfl
        · exact absurd hgr hg
      rw [List.find?_cons_of_neg _ (by simp [hg2]), List.find?_cons_of_neg _ (by simp [hg2])]
      exact ih fun r2 hr2 => h r2 (List.mem_cons_of_mem r hr2)

theorem sum_nonpos_list : ∀ l : List ℚ, (∀ x ∈ l, x ≤ 0) → l.sum ≤ 0 := by
  intro l
  induction l with
  | nil => intro _; simp
  | cons y ys ih =>
    intro h
    rw [List.sum_cons]
    have h1 := h y (List.mem_cons_self y ys)
    have h2 := ih fun z hz => h z (List.mem_cons_of_mem y hz)
    linarith

theorem exists_nonneg_of_sum_eq_zero (f : ℕ → ℚ) (l : List ℕ) (hne : l ≠ [])
    (h : (l.map f).sum = 0) : ∃ r ∈ l, 0 ≤ f r := by
  by_contra hc
  push_neg at hc
  cases l with
  | nil => exact absurd rfl hne
  | cons a as =>
    rw [List.map_cons, List.sum_cons] at h
    have h1 : (as.map f).sum ≤ 0 :=
      sum_nonpos_list _ fun x hx => by
        rcases List.mem_map.mp hx with ⟨r, hr, rfl⟩
        exact (hc r (List.mem_cons_of_mem a hr)).le
    have h2 := hc a (List.mem_cons_self a as)
    linarith

theorem Score.ltb_of_nums_zero {a b : Score} (ha : a.num = 0) (hb : b.num = 0) :
    Score.ltb a b = false := by
  rw [Score.ltb, ha, hb]
  norm_num

theorem ltb_neg_one_of_num_nonneg (s : Score) (h : 0 ≤ s.num) :
    Score.ltb ⟨-1, 1⟩ s = true := by
  rw [Score.ltb]
  rw [if_pos ⟨by norm_num, h⟩]

theorem corrDenomA_nonneg (a : List ℚ) : 0 ≤ corrDenomA a :=
  sum_sq_nonneg a (a.sum / (a.length : ℚ))

theorem correlate_of_denomA_eq_zero (chroma b : List ℚ) (hA : corrDenomA chroma = 0) :
    correlate chroma b = Score.zero := by
  rw [correlate_eq, hA, zero_mul, if_pos rfl]

theorem webMajorCand_snd (chroma : List ℚ) (r : ℕ) :
    (webMajorCand chroma r).2 = correlate chroma (rotateArray majorProfile r) := rfl

theorem webMinorCand_snd (chroma : List ℚ) (r : ℕ) :
    (webMinorCand chroma r).2 = correlate chroma (rotateArray minorProfile r) := rfl

theorem webMajorCand_score (chroma : List ℚ) (r : ℕ) (hr : r < 12)
    (hA : 0 < corrDenomA chroma) :
    (webMajorCand chroma r).2 =
      ⟨corrNum chroma (rotateArray majorProfile r), corrDenomA chroma * (765849 / 40000)⟩ := by
  rw [webMajorCand_snd, correlate_eq, corrDenomA_rot_major r hr]
  exact if_neg (mul_pos hA (by norm_num)).ne'

theorem webMinorCand_score (chroma : List ℚ) (r : ℕ) (hr : r < 12)
    (hA : 0 < corrDenomA chroma) :
    (webMinorCand chroma r).2 =
      ⟨corrNum chroma (rotateArray minorProfile r), corrDenomA chroma * (1920851 / 120000)⟩ := by
  rw [webMinorCand_snd, correlate_eq, corrDenomA_rot_minor r hr]
  exact if_neg (mul_pos hA (by norm_num)).ne'

theorem isMaxOf_false_of_beaten {α : Type} {l : List (α × Score)} {x y : α × Score}
    (hy : y ∈ l) (h : Score.ltb x.2 y.2 = true) : isMaxOf l x = false := by
  cases hm : isMaxOf l x
  · rfl
  · exfalso
    have h2 := isMaxOf_eq_true.mp hm y hy
    rw [h2] at h
    exact Bool.noConfusion h

/-- Trichotomy for the web key scan with exact scores: either the very first
candidate (C major) is already a maximum, or no minor candidate is a
maximum, or no major candidate is a maximum.  A cross-mode tie at a
positive score is impossible because the two profiles' variance ratio is
not a rational square. -/
theorem web_trichotomy (chroma : List ℚ) (h12 : chroma.length = 12) :
    isMaxOf (webCandidatesModeFirst chroma) (webMajorCand chroma 0) = true ∨
    (∀ r ∈ List.range 12,
      isMaxOf (webCandidatesModeFirst chroma) (webMinorCand chroma r) = false) ∨
    (∀ r ∈ List.range 12,
      isMaxOf (webCandidatesModeFirst chroma) (webMajorCand chroma r) = false) := by
  rcases eq_or_lt_of_le (corrDenomA_nonneg chroma) with hA | hA
  · left
    rw [isMaxOf_eq_true]
    intro d hd
    have hd2 : d.2 = Score.zero := by
      rcases (mem_mapAppend_iff _ _ _ d).mp hd with ⟨r, _, rfl | rfl⟩
      · rw [webMajorCand_snd, correlate_of_denomA_eq_zero _ _ hA.symm]
      · rw [webMinorCand_snd, correlate_of_denomA_eq_zero _ _ hA.symm]
    have h0 : (webMajorCand chroma 0).2 = Score.zero := by
      rw [webMajorCand_snd, correlate_of_denomA_eq_zero _ _ hA.symm]
    rw [h0, hd2]
    exact Score.ltb_of_nums_zero rfl rfl
  · have hDmaj : (0 : ℚ) < corrDenomA chroma * (765849 / 40000) :=
      mul_pos hA (by norm_num)
    have hDmin : (0 : ℚ) < corrDenomA chroma * (1920851 / 120000) :=
      mul_pos hA (by norm_num)
    have hsqmaj : (0 : ℝ) < Real.sqrt ((corrDenomA chroma * (765849 / 40000) : ℚ)) :=
      Real.sqrt_pos.mpr (by exact_mod_cast hDmaj)
    have hsqmin : (0 : ℝ) < Real.sqrt ((corrDenomA chroma * (1920851 / 120000) : ℚ)) :=
      Real.sqrt_pos.mpr (by exact_mod_cast hDmin)
    by_cases hM : ∃ r ∈ List.range 12, 0 < corrNum chroma (rotateArray majorProfile r)
    · by_cases hN : ∃ r ∈ List.range 12, 0 < corrNum chroma (rotateArray minorProfile r)
      · obtain ⟨vM, hvMmem, hvMmax⟩ := exists_max_rat
          ((List.range 12).map fun r => corrNum chroma (rotateArray majorProfile r)) (by simp)
        obtain ⟨rM, hrM, hvMeq⟩ := List.mem_map.mp hvMmem
        obtain ⟨vN, hvNmem, hvNmax⟩ := exists_max_rat
          ((List.range 12).map fun r => corrNum chroma (rotateArray minorProfile r)) (by simp)
        obtain ⟨rN, hrN, hvNeq⟩ := List.mem_map.mp hvNmem
        obtain ⟨rMp, hrMp, hMp⟩ := hM
        obtain ⟨rNp, hrNp, hNp⟩ := hN
        have hvMpos : 0 < vM := lt_of_lt_of_le hMp (hvMeq ▸ hvMmax _ (List.mem_map_of_mem _ hrMp))
        have hvNpos : 0 < vN := lt_of_lt_of_le hNp (hvNeq ▸ hvNmax _ (List.mem_map_of_mem _ hrNp))
        rcases lt_trichotomy
          ((vM : ℝ) / Real.sqrt ((corrDenomA chroma * (765849 / 40000) : ℚ)))
          ((vN : ℝ) / Real.sqrt ((corrDenomA chroma * (1920851 / 120000) : ℚ)))
          with hcmp | hcmp | hcmp
        · right; right
          intro r hr
          apply isMaxOf_false_of_beaten
            ((mem_mapAppend_iff _ _ _ _).mpr ⟨rN, hrN, Or.inr rfl⟩)
          rw [webMajorCand_score chroma r (List.mem_range.mp hr) hA,
            webMinorCand_score chroma rN (List.mem_range.mp hrN) hA, hvNeq]
          rw [Score.ltb_iff _ _ hDmaj hDmin]
          dsimp only
          have h1 : corrNum chroma (rotateArray majorProfile r) ≤ vM := by
            rw [← hvMeq] at hvMmax ⊢
            exact hvMmax _ (List.mem_map_of_mem _ hr)
          have h2 : ((corrNum chroma (rotateArray majorProfile r) : ℚ) : ℝ) ≤ (vM : ℝ) := by
            exact_mod_cast h1
          calc ((corrNum chroma (rotateArray majorProfile r) : ℚ) : ℝ) /
                Real.sqrt ((corrDenomA chroma * (765849 / 40000) : ℚ))
              ≤ (vM : ℝ) / Real.sqrt ((corrDenomA chroma * (765849 / 40000) : ℚ)) := by
                gcongr
            _ < (vN : ℝ) / Real.sqrt ((corrDenomA chroma * (1920851 / 120000) : ℚ)) := hcmp
        · exfalso
          have h1 : (vM : ℝ) * Real.sqrt ((corrDenomA chroma * (1920851 / 120000) : ℚ)) =
              (vN : ℝ) * Real.sqrt ((corrDenomA chroma * (765849 / 40000) : ℚ)) := by
            rw [div_eq_div_iff hsqmaj.ne' hsqmin.ne'] at hcmp
            exact hcmp
          have h2 : (vM : ℝ) ^ 2 * ((corrDenomA chroma * (1920851 / 120000) : ℚ) : ℝ) =
              (vN : ℝ) ^ 2 * ((corrDenomA chroma * (765849 / 40000) : ℚ) : ℝ) := by
            have hsq := congrArg (fun z : ℝ => z ^ 2) h1
            simp only [mul_pow] at hsq
            rw [Real.sq_sqrt (by exact_mod_cast hDmin.le),
              Real.sq_sqrt (by exact_mod_cast hDmaj.le)] at hsq
            exact hsq
          have h3 : vM ^ 2 * (corrDenomA chroma * (1920851 / 120000)) =
              vN ^ 2 * (corrDenomA chroma * (765849 / 40000)) := by
            exact_mod_cast h2
          have h3b : corrDenomA chroma * (vM ^ 2 * (1920851 / 120000)) =
              corrDenomA chroma * (vN ^ 2 * (765849 / 40000)) := by
            linear_combination h3
          have h3c := mul_left_cancel₀ hA.ne' h3b
          have h4 : vM * vM * 1920851 = vN * vN * 2297547 := by
            linear_combination 120000 * h3c
          exact ratSq_ratio_ne vM vN hvMpos hvNpos h4
        · right; left
          intro r hr
          apply isMaxOf_false_of_beaten
            ((mem_mapAppend_iff _ _ _ _).mpr ⟨rM, hrM, Or.inl rfl⟩)
          rw [webMinorCand_score chroma r (List.mem_range.mp hr) hA,
            webMajorCand_score chroma rM (List.mem_range.mp hrM) hA, hvMeq]
          rw [Score.ltb_iff _ _ hDmin hDmaj]
          dsimp only
          have h1 : corrNum chroma (rotateArray minorProfile r) ≤ vN := by
            rw [← hvNeq] at hvNmax ⊢
            exact hvNmax _ (List.mem_map_of_mem _ hr)
          have h2 : ((corrNum chroma (rotateArray minorProfile r) : ℚ) : ℝ) ≤ (vN : ℝ) := by
            exact_mod_cast h1
          calc ((corrNum chroma (rotateArray minorProfile r) : ℚ) : ℝ) /
                Real.sqrt ((corrDenomA chroma * (1920851 / 120000) : ℚ))
              ≤ (vN : ℝ) / Real.sqrt ((corrDenomA chroma * (1920851 / 120000) : ℚ)) := by
                gcongr
            _ < (vM : ℝ) / Real.sqrt ((corrDenomA chroma * (765849 / 40000) : ℚ)) := hcmp
      · right; left
        have hN2 : ∀ r ∈ List.range 12, corrNum chroma (rotateArray minorProfile r) ≤ 0 := by
          intro r hr
          by_contra hpos
          exact hN ⟨r, hr, not_le.mp hpos⟩
        obtain ⟨rMp, hrMp, hMp⟩ := hM
        intro r hr
        apply isMaxOf_false_of_beaten
          ((mem_mapAppend_iff _ _ _ _).mpr ⟨rMp, hrMp, Or.inl rfl⟩)
        rw [webMinorCand_score chroma r (List.mem_range.mp hr) hA,
          webMajorCand_score chroma rMp (List.mem_range.mp hrMp) hA]
        rw [Score.ltb_iff _ _ hDmin hDmaj]
        dsimp only
        have h1 : ((corrNum chroma (rotateArray minorProfile r) : ℚ) : ℝ) ≤ 0 := by
          exact_mod_cast hN2 r hr
        have h2 : (0 : ℝ) < ((corrNum chroma (rotateArray majorProfile rMp) : ℚ) : ℝ) := by
          exact_mod_cast hMp
        calc ((corrNum chroma (rotateArray minorProfile r) : ℚ) : ℝ) /
              Real.sqrt ((corrDenomA chroma * (1920851 / 120000) : ℚ))
            ≤ 0 := div_nonpos_of_nonpos_of_nonneg h1 hsqmin.le
          _ < ((corrNum chroma (rotateArray majorProfile rMp) : ℚ) : ℝ) /
              Real.sqrt ((corrDenomA chroma * (765849 / 40000) : ℚ)) := div_pos h2 hsqmaj
    · have hM2 : ∀ r ∈ List.range 12, corrNum chroma (rotateArray majorProfile r) ≤ 0 := by
        intro r hr
        by_contra hpos
        exact hM ⟨r, hr, not_le.mp hpos⟩
      have hMzero : ∀ r ∈ List.range 12, corrNum chroma (rotateArray majorProfile r) = 0 := by
        intro r hr
        exact all_zero_of_sum_zero_nonpos _
          (fun x hx => by
            rcases List.mem_map.mp hx with ⟨r2, hr2, rfl⟩
            exact hM2 r2 hr2)
          (sum_corrNum_major chroma h12) _ (List.mem_map_of_mem _ hr)
      by_cases hN : ∃ r ∈ List.range 12, 0 < corrNum chroma (rotateArray minorProfile r)
      · right; right
        obtain ⟨rNp, hrNp, hNp⟩ := hN
        intro r hr
        apply isMaxOf_false_of_beaten
          ((mem_mapAppend_iff _ _ _ _).mpr ⟨rNp, hrNp, Or.inr rfl⟩)
        rw [webMajorCand_score chroma r (List.mem_range.mp hr) hA,
          webMinorCand_score chroma rNp (List.mem_range.mp hrNp) hA]
        rw [Score.ltb_iff _ _ hDmaj hDmin]
        dsimp only
        have h1 : ((corrNum chroma (rotateArray majorProfile r) : ℚ) : ℝ) = 0 := by
          exact_mod_cast hMzero r hr
        have h2 : (0 : ℝ) < ((corrNum chroma (rotateArray minorProfile rNp) : ℚ) : ℝ) := by
          exact_mod_cast hNp
        rw [h1, zero_div]
        exact div_pos h2 hsqmin
      · have hN2 : ∀ r ∈ List.range 12, corrNum chroma (rotateArray minorProfile r) ≤ 0 := by
          intro r hr
          by_contra hpos
          exact hN ⟨r, hr, not_le.mp hpos⟩
        have hNzero : ∀ r ∈ List.range 12, corrNum chroma (rotateArray minorProfile r) = 0 := by
          intro r hr
          exact all_zero_of_sum_zero_nonpos _
            (fun x hx => by
              rcases List.mem_map.mp hx with ⟨r2, hr2, rfl⟩
              exact hN2 r2 hr2)
            (sum_corrNum_minor chroma h12) _ (List.mem_map_of_mem _ hr)
        left
        rw [isMaxOf_eq_true]
        intro d hd
        have hd0 : d.2.num = 0 := by
          rcases (mem_mapAppend_iff _ _ _ d).mp hd with ⟨r, hr, rfl | rfl⟩
          · rw [webMajorCand_score chroma r (List.mem_range.mp hr) hA]
            exact hMzero r hr
          · rw [webMinorCand_score chroma r (List.mem_range.mp hr) hA]
            exact hNzero r hr
        have hh0 : (webMajorCand chroma 0).2.num = 0 := by
          rw [webMajorCand_score chroma 0 (by norm_num) hA]
          exact hMzero 0 (by simp)
        exact Score.ltb_of_nums_zero hh0 hd0

/-- `chromaToKey` returns the label and clamped score of the first maximum
of the majors-then-minors enumeration of its 24 candidates. -/
theorem web_first_max (chroma : List ℚ) (h12 : chroma.length = 12) :
    ∃ best ∈ webCandidatesModeFirst chroma,
      (webCandidatesModeFirst chroma).find? (isMaxOf (webCandidatesModeFirst chroma)) =
        some best ∧
      chromaToKey chroma = (best.1, Score.max0 best.2) ∧
      ∀ c ∈ webCandidatesModeFirst chroma,
        (c.2.num : ℝ) / Real.sqrt (c.2.den : ℚ) ≤
          (best.2.num : ℝ) / Real.sqrt (best.2.den : ℚ) := by
  have hmemiff : ∀ x, x ∈ webCandidatesInterleaved chroma ↔ x ∈ webCandidatesModeFirst chroma :=
    fun x =>
      (mem_interleave_iff (webMajorCand chroma) (webMinorCand chroma) (List.range 12) x).trans
        (mem_mapAppend_iff (webMajorCand chroma) (webMinorCand chroma) (List.range 12) x).symm
  have hdenLc : ∀ c ∈ webCandidatesModeFirst chroma, 0 < c.2.den := by
    intro c hc
    rcases (mem_mapAppend_iff _ _ _ c).mp hc with ⟨r, _, rfl | rfl⟩
    · rw [webMajorCand_snd]
      exact correlate_den_pos _ _
    · rw [webMinorCand_snd]
      exact correlate_den_pos _ _
  have hdenLw : ∀ c ∈ webCandidatesInterleaved chroma, 0 < c.2.den :=
    fun c hc => hdenLc c ((hmemiff c).mp hc)
  have hbeat : ∃ c ∈ webCandidatesInterleaved chroma,
      Score.ltb (("", (⟨-1, 1⟩ : Score)) : String × Score).2 c.2 = true := by
    rcases eq_or_lt_of_le (corrDenomA_nonneg chroma) with hA | hA
    · refine ⟨webMajorCand chroma 0, (mem_interleave_iff _ _ _ _).mpr ⟨0, by simp, Or.inl rfl⟩, ?_⟩
      apply ltb_neg_one_of_num_nonneg
      rw [webMajorCand_snd, correlate_of_denomA_eq_zero _ _ hA.symm]
      norm_num [Score.zero]
    · obtain ⟨r, hr, hrnn⟩ := exists_nonneg_of_sum_eq_zero
        (fun r => corrNum chroma (rotateArray majorProfile r)) (List.range 12) (by decide)
        (sum_corrNum_major chroma h12)
      refine ⟨webMajorCand chroma r, (mem_interleave_iff _ _ _ _).mpr ⟨r, hr, Or.inl rfl⟩, ?_⟩
      apply ltb_neg_one_of_num_nonneg
      rw [webMajorCand_score chroma r (List.mem_range.mp hr) hA]
      exact hrnn
  have hdencons : ∀ c ∈ (("", (⟨-1, 1⟩ : Score)) : String × Score) ::
      webCandidatesInterleaved chroma, 0 < c.2.den := by
    intro c hc
    rcases List.mem_cons.mp hc with rfl | hc2
    · norm_num
    · exact hdenLw c hc2
  have hsel := selectGo_eq_findFirstMax (webCandidatesInterleaved chroma)
    ("", (⟨-1, 1⟩ : Score)) hdencons
  have hdrop := find?_isMaxOf_cons_beaten ("", (⟨-1, 1⟩ : Score))
    (webCandidatesInterleaved chroma) hdencons hbeat
  have hcongr1 : (webCandidatesInterleaved chroma).find?
        (isMaxOf (webCandidatesInterleaved chroma)) =
      (webCandidatesInterleaved chroma).find? (isMaxOf (webCandidatesModeFirst chroma)) :=
    find?_congr _ fun x _ => isMaxOf_congr hmemiff x
  have hfind : (webCandidatesInterleaved chroma).find?
        (isMaxOf (webCandidatesModeFirst chroma)) =
      (webCandidatesModeFirst chroma).find? (isMaxOf (webCandidatesModeFirst chroma)) := by
    rcases web_trichotomy chroma h12 with h | h | h
    · have hL : (webCandidatesInterleaved chroma).find?
          (isMaxOf (webCandidatesModeFirst chroma)) = some (webMajorCand chroma 0) := by
        rw [show webCandidatesInterleaved chroma = webMajorCand chroma 0 :: webMinorCand chroma 0 ::
          ([1, 2, 3, 4, 5, 6, 7, 8, 9, 10, 11].foldr
            (fun r acc => webMajorCand chroma r :: webMinorCand chroma r :: acc) []) from rfl]
        exact List.find?_cons_of_pos _ h
      have hR : (webCandidatesModeFirst chroma).find?
          (isMaxOf (webCandidatesModeFirst chroma)) = some (webMajorCand chroma 0) := by
        nth_rewrite 2 [show webCandidatesModeFirst chroma = webMajorCand chroma 0 ::
          ([1, 2, 3, 4, 5, 6, 7, 8, 9, 10, 11].map (webMajorCand chroma) ++
            (List.range 12).map (webMinorCand chroma)) from rfl]
        exact List.find?_cons_of_pos _ h
      rw [hL, hR]
    · have h1 := find?_interleave_of_g_false (isMaxOf (webCandidatesModeFirst chroma))
        (webMajorCand chroma) (webMinorCand chroma) (List.range 12) h
      have h2 : ((List.range 12).map (webMinorCand chroma)).find?
          (isMaxOf (webCandidatesModeFirst chroma)) = none := by
        rw [List.find?_eq_none]
        intro x hx
        rcases List.mem_map.mp hx with ⟨r, hr, rfl⟩
        simp [h r hr]
      calc (webCandidatesInterleaved chroma).find? (isMaxOf (webCandidatesModeFirst chroma))
          = ((List.range 12).map (webMajorCand chroma)).find?
              (isMaxOf (webCandidatesModeFirst chroma)) := h1
        _ = (((List.range 12).map (webMajorCand chroma)).find?
              (isMaxOf (webCandidatesModeFirst chroma))).or
            (((List.range 12).map (webMinorCand chroma)).find?
              (isMaxOf (webCandidatesModeFirst chroma))) := by rw [h2, Option.or_none]
        _ = ((List.range 12).map (webMajorCand chroma) ++
              (List.range 12).map (webMinorCand chroma)).find?
              (isMaxOf (webCandidatesModeFirst chroma)) := List.find?_append.symm
        _ = (webCandidatesModeFirst chroma).find?
              (isMaxOf (webCandidatesModeFirst chroma)) := rfl
    · have h1 := find?_interleave_of_f_false (isMaxOf (webCandidatesModeFirst chroma))
        (webMajorCand chroma) (webMinorCand chroma) (List.range 12) h
      have h2 : ((List.range 12).map (webMajorCand chroma)).find?
          (isMaxOf (webCandidatesModeFirst chroma)) = none := by
        rw [List.find?_eq_none]
        intro x hx
        rcases List.mem_map.mp hx with ⟨r, hr, rfl⟩
        simp [h r hr]
      calc (webCandidatesInterleaved chroma).find? (isMaxOf (webCandidatesModeFirst chroma))
          = ((List.range 12).map (webMinorCand chroma)).find?
              (isMaxOf (webCandidatesModeFirst chroma)) := h1
        _ = (((List.range 12).map (webMajorCand chroma)).find?
              (isMaxOf (webCandidatesModeFirst chroma))).or
            (((List.range 12).map (webMinorCand chroma)).find?
              (isMaxOf (webCandidatesModeFirst chroma))) := by rw [h2, Option.none_or]
        _ = ((List.range 12).map (webMajorCand chroma) ++
              (List.range 12).map (webMinorCand chroma)).find?
              (isMaxOf (webCandidatesModeFirst chroma)) := List.find?_append.symm
        _ = (webCandidatesModeFirst chroma).find?
              (isMaxOf (webCandidatesModeFirst chroma)) := rfl
  have hmain : (webCandidatesModeFirst chroma).find?
        (isMaxOf (webCandidatesModeFirst chroma)) =
      some (selectGo ("", (⟨-1, 1⟩ : Score)) (webCandidatesInterleaved chroma)) := by
    rw [← hfind, ← hcongr1, ← hdrop, ← hsel]
  refine ⟨selectGo ("", (⟨-1, 1⟩ : Score)) (webCandidatesInterleaved chroma),
    List.mem_of_find?_eq_some hmain, hmain, chromaToKey_eq_selectGo chroma, ?_⟩
  intro c hc
  have hmax : isMaxOf (webCandidatesModeFirst chroma)
      (selectGo ("", (⟨-1, 1⟩ : Score)) (webCandidatesInterleaved chroma)) = true :=
    List.find?_some hmain
  have hl := isMaxOf_eq_true.mp hmax c hc
  rw [Score.ltb_false_iff _ _ (hdenLc _ (List.mem_of_find?_eq_some hmain)) (hdenLc c hc)] at hl
  exact hl

/-- `KeyDetector.findBestKey` returns the first maximum of its
majors-then-minors candidate enumeration. -/
theorem swift_first_max (chroma : List ℚ) (h12 : chroma.length = 12) :
    ∃ best ∈ keyCandidates chroma,
      (keyCandidates chroma).find? (isMaxOf (keyCandidates chroma)) = some best ∧
      findBestKey chroma = best ∧
      ∀ c ∈ keyCandidates chroma,
        (c.2.num : ℝ) / Real.sqrt (c.2.den : ℚ) ≤
          (best.2.num : ℝ) / Real.sqrt (best.2.den : ℚ) := by
  have hne : keyCandidates chroma ≠ [] := by
    rw [keyCandidates]
    simp
  have hden : ∀ c ∈ keyCandidates chroma, 0 < c.2.den := by
    intro c hc
    rw [keyCandidates] at hc
    rcases List.mem_append.mp hc with h | h <;>
      · rcases List.mem_map.mp h with ⟨t, _, rfl⟩
        exact correlation_den_pos _ _
  have hsel := selectBest_eq_findFirstMax (keyCandidates chroma) hne hden
  have hguard : ¬(chroma.length ≠ 12) := by
    rw [h12]
    exact fun hne2 => hne2 rfl
  have hsome : ∃ b, selectBest (keyCandidates chroma) = some b := by
    cases hkc : keyCandidates chroma with
    | nil => exact absurd hkc hne
    | cons c cs =>
      refine ⟨selectGo c cs, ?_⟩
      exact selectBest_cons c cs
  obtain ⟨b, hb⟩ := hsome
  have hfind : (keyCandidates chroma).find? (isMaxOf (keyCandidates chroma)) = some b := by
    rw [← hsel]
    exact hb
  have hfb : findBestKey chroma = b := by
    rw [findBestKey, if_neg hguard, hb]
  refine ⟨b, List.mem_of_find?_eq_some hfind, hfind, hfb, ?_⟩
  intro c hc
  have hmax := List.find?_some hfind
  have hl := isMaxOf_eq_true.mp hmax c hc
  rw [Score.ltb_false_iff _ _ (hden _ (List.mem_of_find?_eq_some hfind)) (hden c hc)] at hl
  exact hl

/-- C2 (amended): the Swift `findBestKey` does what the claim says: it
returns the first maximum — in the enumeration order "all major keys by
ascending tonic, then all minor keys by ascending tonic" — of the Pearson
correlations against the Krumhansl-Schmuckler profile rotated TO each
tonic (`transposed[i] = profile[(i - tonic + 12) % 12]`); its interleaved
cousin would agree since an exact cross-mode tie is only possible when
every candidate scores zero (the profile variance ratio is not a rational
square).  The web `chromaToKey`, however, pairs the label of root `r` with
`rotateArray(profile, r)`, the profile rotated AWAY from the tonic: the
third conjunct shows that array is the to-tonic transposition of tonic
`(12 - r) % 12`, so the label the web implementation reports is the mod-12
negation of the tonic whose to-tonic profile actually attains the maximum
correlation — see the counterexample. -/
theorem key_estimation_first_max (chroma : List ℚ) (h12 : chroma.length = 12) :
    (∃ best ∈ keyCandidates chroma,
      (keyCandidates chroma).find? (isMaxOf (keyCandidates chroma)) = some best ∧
      findBestKey chroma = best ∧
      ∀ c ∈ keyCandidates chroma,
        (c.2.num : ℝ) / Real.sqrt (c.2.den : ℚ) ≤
          (best.2.num : ℝ) / Real.sqrt (best.2.den : ℚ)) ∧
    (∃ best ∈ webCandidatesModeFirst chroma,
      (webCandidatesModeFirst chroma).find? (isMaxOf (webCandidatesModeFirst chroma)) =
        some best ∧
      chromaToKey chroma = (best.1, Score.max0 best.2) ∧
      ∀ c ∈ webCandidatesModeFirst chroma,
        (c.2.num : ℝ) / Real.sqrt (c.2.den : ℚ) ≤
          (best.2.num : ℝ) / Real.sqrt (best.2.den : ℚ)) ∧
    (∀ r : ℕ, r < 12 →
      rotateArray majorProfile r =
        (List.range 12).map (fun i => majorProfile.getD ((i + 12 - (12 - r) % 12) % 12) 0) ∧
      rotateArray minorProfile r =
        (List.range 12).map (fun i => minorProfile.getD ((i + 12 - (12 - r) % 12) % 12) 0)) :=
  ⟨swift_first_max chroma h12, web_first_max chroma h12, by
    intro r hr
    interval_cases r <;> exact ⟨rfl, rfl⟩⟩

/-- C2 witness: both estimators applied to the all-zero 12-bin chroma (every
correlation degenerates to the zero score, so the first candidate — C major
— is the first maximum), and the rotation identity instantiated at root 2. -/
theorem key_estimation_first_max_witness :
    findBestKey (List.replicate 12 0) ∈ keyCandidates (List.replicate 12 0) ∧
    (∃ best ∈ webCandidatesModeFirst (List.replicate 12 0),
      chromaToKey (List.replicate 12 0) = (best.1, Score.max0 best.2)) ∧
    rotateArray majorProfile 2 =
      (List.range 12).map (fun i => majorProfile.getD ((i + 12 - (12 - 2) % 12) % 12) 0) := by
  obtain ⟨⟨bS, hmemS, _, hfbS, _⟩, ⟨bW, hmemW, _, hckW, _⟩, hrot⟩ :=
    key_estimation_first_max (List.replicate 12 0) (by simp)
  exact ⟨hfbS ▸ hmemS, ⟨bW, hmemW, hckW⟩, (hrot 2 (by norm_num)).1⟩

/-! ## C3 — the chord matcher's no-chord sentinel -/

theorem chord_mem_of_getChordsByLevel (level : VocabularyLevel) :
    ∀ c ∈ getChordsByLevel level, c ∈ CHORD_DEFINITIONS := by
  intro c hc
  cases level with
  | basic =>
    have hc2 : c ∈ CHORD_DEFINITIONS.filter (fun chord => chord.level == "basic") := hc
    exact List.mem_of_mem_filter hc2
  | extended =>
    have hc2 : c ∈ CHORD_DEFINITIONS.filter
        (fun chord => chord.level == "basic" || chord.level == "extended") := hc
    exact List.mem_of_mem_filter hc2
  | rich => exact hc

theorem template_name_ne_sentinel (level : VocabularyLevel) :
    ∀ t ∈ generateChordTemplates level, t.name ≠ "N/C" := by
  intro t ht
  rw [generateChordTemplates] at ht
  rcases List.mem_map.mp ht with ⟨chord, hc, rfl⟩
  have hall : ∀ c ∈ CHORD_DEFINITIONS, c.name ≠ "N/C" := by decide
  exact hall chord (chord_mem_of_getChordsByLevel level chord hc)

theorem matchChordToChroma_eq (chroma : List ℚ) (level : VocabularyLevel)
    (keyPrior : Option String) :
    matchChordToChroma chroma level keyPrior =
      (generateChordTemplates level).foldl
        (fun bestMatch t =>
          if Score.ltb bestMatch.confidence (templateScore chroma keyPrior t) then
            ⟨t.name, Score.min1 (templateScore chroma keyPrior t), t.template⟩
          else bestMatch)
        ⟨"N/C", Score.zero, List.replicate 12 0⟩ := rfl

theorem matchFold_keeps (chroma : List ℚ) (keyPrior : Option String) :
    ∀ (ts : List ChordTemplate) (best : ChordMatch),
      (∀ t ∈ ts, Score.ltb best.confidence (templateScore chroma keyPrior t) = false) →
      ts.foldl
        (fun bestMatch t =>
          if Score.ltb bestMatch.confidence (templateScore chroma keyPrior t) then
            ⟨t.name, Score.min1 (templateScore chroma keyPrior t), t.template⟩
          else bestMatch) best = best := by
  intro ts
  induction ts with
  | nil => intro best _; rfl
  | cons t ts ih =>
    intro best h
    rw [List.foldl_cons, if_neg (by rw [h t (List.mem_cons_self t ts)]; exact Bool.false_ne_true)]
    exact ih best fun t2 ht2 => h t2 (List.mem_cons_of_mem t ht2)

theorem matchFold_nonsentinel (chroma : List ℚ) (keyPrior : Option String) :
    ∀ (ts : List ChordTemplate) (best : ChordMatch),
      best.name ≠ "N/C" → (∀ t ∈ ts, t.name ≠ "N/C") →
      (ts.foldl
        (fun bestMatch t =>
          if Score.ltb bestMatch.confidence (templateScore chroma keyPrior t) then
            ⟨t.name, Score.min1 (templateScore chroma keyPrior t), t.template⟩
          else bestMatch) best).name ≠ "N/C" := by
  intro ts
  induction ts with
  | nil => intro best hb _; exact hb
  | cons t ts ih =>
    intro best hb hts
    rw [List.foldl_cons]
    by_cases hc : Score.ltb best.confidence (templateScore chroma keyPrior t) = true
    · rw [if_pos hc]
      exact ih _ (hts t (List.mem_cons_self t ts)) fun t2 ht2 => hts t2 (List.mem_cons_of_mem t ht2)
    · rw [if_neg hc]
      exact ih best hb fun t2 ht2 => hts t2 (List.mem_cons_of_mem t ht2)

theorem matchFold_escapes (chroma : List ℚ) (keyPrior : Option String) :
    ∀ ts : List ChordTemplate, (∀ t ∈ ts, t.name ≠ "N/C") →
      (∃ t ∈ ts, Score.ltb Score.zero (templateScore chroma keyPrior t) = true) →
      (ts.foldl
        (fun bestMatch t =>
          if Score.ltb bestMatch.confidence (templateScore chroma keyPrior t) then
            ⟨t.name, Score.min1 (templateScore chroma keyPrior t), t.template⟩
          else bestMatch) (⟨"N/C", Score.zero, List.replicate 12 0⟩ : ChordMatch)).name ≠
        "N/C" := by
  intro ts
  induction ts with
  | nil =>
    intro _ hex
    rcases hex with ⟨t, ht, _⟩
    simp at ht
  | cons t ts ih =>
    intro hts hex
    rw [List.foldl_cons]
    by_cases hc : Score.ltb (⟨"N/C", Score.zero, List.replicate 12 0⟩ : ChordMatch).confidence
        (templateScore chroma keyPrior t) = true
    · rw [if_pos hc]
      exact matchFold_nonsentinel chroma keyPrior ts _ (hts t (List.mem_cons_self t ts))
        fun t2 ht2 => hts t2 (List.mem_cons_of_mem t ht2)
    · rw [if_neg hc]
      obtain ⟨w, hw, hwpos⟩ := hex
      rcases List.mem_cons.mp hw with rfl | hw2
      · exact absurd hwpos hc
      · exact ih (fun t2 ht2 => hts t2 (List.mem_cons_of_mem t ht2)) ⟨w, hw2, hwpos⟩

/-- C3 (amended): `matchChordToChroma` returns the `N/C` sentinel exactly
when no template's final score is strictly positive — the threshold that
separates a named chord from the sentinel is 0, not 0.3.  (The 0.3 value in
the source only gates whether the key-prior bonus is applied to a
similarity.)  Moreover the returned name need not be the highest-scoring
template: stored confidences are clamped to 1 by `Math.min`, so among
scores exceeding 1 a later template can displace an earlier higher-scoring
one — see the counterexample. -/
theorem matchChordToChroma_sentinel_iff (chroma : List ℚ) (level : VocabularyLevel)
    (keyPrior : Option String) :
    (matchChordToChroma chroma level keyPrior).name = "N/C" ↔
      ∀ t ∈ generateChordTemplates level,
        Score.ltb Score.zero (templateScore chroma keyPrior t) = false := by
  constructor
  · intro h
    by_contra hc
    have hex : ∃ t ∈ generateChordTemplates level,
        Score.ltb Score.zero (templateScore chroma keyPrior t) = true := by
      by_contra hc2
      apply hc
      intro t ht
      cases hl : Score.ltb Score.zero (templateScore chroma keyPrior t)
      · rfl
      · exact absurd ⟨t, ht, hl⟩ hc2
    have hne := matchFold_escapes chroma keyPrior (generateChordTemplates level)
      (template_name_ne_sentinel level) hex
    rw [matchChordToChroma_eq] at h
    exact hne h
  · intro h
    rw [matchChordToChroma_eq,
      matchFold_keeps chroma keyPrior (generateChordTemplates level) _ fun t ht => h t ht]

theorem selectGo_cons_pos {α : Type} (b x : α × Score) (xs : List (α × Score))
    (h : Score.ltb b.2 x.2 = true) : selectGo b (x :: xs) = selectGo x xs := by
  show selectGo (if Score.ltb b.2 x.2 then x else b) xs = selectGo x xs
  rw [if_pos h]

theorem selectGo_cons_neg {α : Type} (b x : α × Score) (xs : List (α × Score))
    (h : Score.ltb b.2 x.2 = false) : selectGo b (x :: xs) = selectGo b xs := by
  show selectGo (if Score.ltb b.2 x.2 then x else b) xs = selectGo b xs
  rw [if_neg (by simp [h])]

theorem selectGo_keeps {α : Type} :
    ∀ (l : List (α × Score)) (b : α × Score),
      (∀ x ∈ l, Score.ltb b.2 x.2 = false) → selectGo b l = b := by
  intro l
  induction l with
  | nil => intro b _; rfl
  | cons x xs ih =>
    intro b h
    rw [selectGo_cons_neg b x xs (h x (List.mem_cons_self x xs))]
    exact ih b fun y hy => h y (List.mem_cons_of_mem x hy)

set_option maxHeartbeats 4000000 in
/-- C2 counterexample: a normalized nonnegative chroma vector equal (up to
the scale that Pearson correlation ignores) to the major profile
transposed to tonic 10 — that is, to `rotateArray majorProfile 2`.  The
web `chromaToKey` labels it "D" (root 2), yet the to-tonic transposition
of the major profile at the returned root 2 correlates strictly worse with
the chroma than the one at tonic 10, which correlates perfectly; the
returned pair therefore does not attain the maximum correlation in the
claim's rotate-to-the-tonic sense. -/
theorem web_chromaToKey_mislabels_tonic :
    (∀ x ∈ ([348/4179, 233/4179, 438/4179, 409/4179, 252/4179, 519/4179, 239/4179, 366/4179, 229/4179, 288/4179, 635/4179, 223/4179] : List ℚ), 0 ≤ x) ∧
    ([348/4179, 233/4179, 438/4179, 409/4179, 252/4179, 519/4179, 239/4179, 366/4179, 229/4179, 288/4179, 635/4179, 223/4179] : List ℚ).sum = 1 ∧
    (chromaToKey
      [348/4179, 233/4179, 438/4179, 409/4179, 252/4179, 519/4179, 239/4179, 366/4179, 229/4179, 288/4179, 635/4179, 223/4179]).1 = "D" ∧
    Score.ltb
      (computeKeyScore
        [348/4179, 233/4179, 438/4179, 409/4179, 252/4179, 519/4179, 239/4179, 366/4179, 229/4179, 288/4179, 635/4179, 223/4179] majorProfile 2)
      (computeKeyScore
        [348/4179, 233/4179, 438/4179, 409/4179, 252/4179, 519/4179, 239/4179, 366/4179, 229/4179, 288/4179, 635/4179, 223/4179] majorProfile 10) = true := by
  refine ⟨?_, ?_, ?_, ?_⟩
  · intro x hx
    fin_cases hx <;> norm_num
  · norm_num
  ·
    have w0 : webMajorCand
        [348/4179, 233/4179, 438/4179, 409/4179, 252/4179, 519/4179, 239/4179, 366/4179, 229/4179, 288/4179, 635/4179, 223/4179] 0 =
        ("C", ⟨31721/1671600, 1329987961/6336160000⟩) := by
      norm_num [webMajorCand, PITCH_CLASSES, correlate, rotateArray, majorProfile]
    have n0 : webMinorCand
        [348/4179, 233/4179, 438/4179, 409/4179, 252/4179, 519/4179, 239/4179, 366/4179, 229/4179, 288/4179, 635/4179, 223/4179] 0 =
        ("Cm", ⟨166253/1671600, 70051515119/399178080000⟩) := by
      norm_num [webMinorCand, PITCH_CLASSES, correlate, rotateArray, minorProfile]
      rfl
    have w1 : webMajorCand
        [348/4179, 233/4179, 438/4179, 409/4179, 252/4179, 519/4179, 239/4179, 366/4179, 229/4179, 288/4179, 635/4179, 223/4179] 1 =
        ("C#", ⟨(-383323/1671600), 1329987961/6336160000⟩) := by
      norm_num [webMajorCand, PITCH_CLASSES, correlate, rotateArray, majorProfile]
    have n1 : webMinorCand
        [348/4179, 233/4179, 438/4179, 409/4179, 252/4179, 519/4179, 239/4179, 366/4179, 229/4179, 288/4179, 635/4179, 223/4179] 1 =
        ("C#m", ⟨(-210299/1671600), 70051515119/399178080000⟩) := by
      norm_num [webMinorCand, PITCH_CLASSES, correlate, rotateArray, minorProfile]
      rfl
    have w2 : webMajorCand
        [348/4179, 233/4179, 438/4179, 409/4179, 252/4179, 519/4179, 239/4179, 366/4179, 229/4179, 288/4179, 635/4179, 223/4179] 2 =
        ("D", ⟨36469/79600, 1329987961/6336160000⟩) := by
      norm_num [webMajorCand, PITCH_CLASSES, correlate, rotateArray, majorProfile]
    have n2 : webMinorCand
        [348/4179, 233/4179, 438/4179, 409/4179, 252/4179, 519/4179, 239/4179, 366/4179, 229/4179, 288/4179, 635/4179, 223/4179] 2 =
        ("Dm", ⟨14345/66864, 70051515119/399178080000⟩) := by
      norm_num [webMinorCand, PITCH_CLASSES, correlate, rotateArray, minorProfile]
      rfl
    have w3 : webMajorCand
        [348/4179, 233/4179, 438/4179, 409/4179, 252/4179, 519/4179, 239/4179, 366/4179, 229/4179, 288/4179, 635/4179, 223/4179] 3 =
        ("D#", ⟨(-383323/1671600), 1329987961/6336160000⟩) := by
      norm_num [webMajorCand, PITCH_CLASSES, correlate, rotateArray, majorProfile]
    have n3 : webMinorCand
        [348/4179, 233/4179, 438/4179, 409/4179, 252/4179, 519/4179, 239/4179, 366/4179, 229/4179, 288/4179, 635/4179, 223/4179] 3 =
        ("D#m", ⟨(-109547/1671600), 70051515119/399178080000⟩) := by
      norm_num [webMinorCand, PITCH_CLASSES, correlate, rotateArray, minorProfile]
      rfl
    have w4 : webMajorCand
        [348/4179, 233/4179, 438/4179, 409/4179, 252/4179, 519/4179, 239/4179, 366/4179, 229/4179, 288/4179, 635/4179, 223/4179] 4 =
        ("E", ⟨31721/1671600, 1329987961/6336160000⟩) := by
      norm_num [webMajorCand, PITCH_CLASSES, correlate, rotateArray, majorProfile]
    have n4 : webMinorCand
        [348/4179, 233/4179, 438/4179, 409/4179, 252/4179, 519/4179, 239/4179, 366/4179, 229/4179, 288/4179, 635/4179, 223/4179] 4 =
        ("Em", ⟨(-40237/238800), 70051515119/399178080000⟩) := by
      norm_num [webMinorCand, PITCH_CLASSES, correlate, rotateArray, minorProfile]
      rfl
    have w5 : webMajorCand
        [348/4179, 233/4179, 438/4179, 409/4179, 252/4179, 519/4179, 239/4179, 366/4179, 229/4179, 288/4179, 635/4179, 223/4179] 5 =
        ("F", ⟨(-79883/1671600), 1329987961/6336160000⟩) := by
      norm_num [webMajorCand, PITCH_CLASSES, correlate, rotateArray, majorProfile]
    have n5 : webMinorCand
        [348/4179, 233/4179, 438/4179, 409/4179, 252/4179, 519/4179, 239/4179, 366/4179, 229/4179, 288/4179, 635/4179, 223/4179] 5 =
        ("Fm", ⟨454921/1671600, 70051515119/399178080000⟩) := by
      norm_num [webMinorCand, PITCH_CLASSES, correlate, rotateArray, minorProfile]
      rfl
    have w6 : webMajorCand
        [348/4179, 233/4179, 438/4179, 409/4179, 252/4179, 519/4179, 239/4179, 366/4179, 229/4179, 288/4179, 635/4179, 223/4179] 6 =
        ("F#", ⟨(-142567/1671600), 1329987961/6336160000⟩) := by
      norm_num [webMajorCand, PITCH_CLASSES, correlate, rotateArray, majorProfile]
    have n6 : webMinorCand
        [348/4179, 233/4179, 438/4179, 409/4179, 252/4179, 519/4179, 239/4179, 366/4179, 229/4179, 288/4179, 635/4179, 223/4179] 6 =
        ("F#m", ⟨(-118949/557200), 70051515119/399178080000⟩) := by
      norm_num [webMinorCand, PITCH_CLASSES, correlate, rotateArray, minorProfile]
      rfl
    have w7 : webMajorCand
        [348/4179, 233/4179, 438/4179, 409/4179, 252/4179, 519/4179, 239/4179, 366/4179, 229/4179, 288/4179, 635/4179, 223/4179] 7 =
        ("G", ⟨452597/1671600, 1329987961/6336160000⟩) := by
      norm_num [webMajorCand, PITCH_CLASSES, correlate, rotateArray, majorProfile]
    have n7 : webMinorCand
        [348/4179, 233/4179, 438/4179, 409/4179, 252/4179, 519/4179, 239/4179, 366/4179, 229/4179, 288/4179, 635/4179, 223/4179] 7 =
        ("Gm", ⟨56767/557200, 70051515119/399178080000⟩) := by
      norm_num [webMinorCand, PITCH_CLASSES, correlate, rotateArray, minorProfile]
      rfl
    have w8 : webMajorCand
        [348/4179, 233/4179, 438/4179, 409/4179, 252/4179, 519/4179, 239/4179, 366/4179, 229/4179, 288/4179, 635/4179, 223/4179] 8 =
        ("G#", ⟨(-174313/557200), 1329987961/6336160000⟩) := by
      norm_num [webMajorCand, PITCH_CLASSES, correlate, rotateArray, majorProfile]
    have n8 : webMinorCand
        [348/4179, 233/4179, 438/4179, 409/4179, 252/4179, 519/4179, 239/4179, 366/4179, 229/4179, 288/4179, 635/4179, 223/4179] 8 =
        ("G#m", ⟨(-259487/1671600), 70051515119/399178080000⟩) := by
      norm_num [webMinorCand, PITCH_CLASSES, correlate, rotateArray, minorProfile]
      rfl
    have w9 : webMajorCand
        [348/4179, 233/4179, 438/4179, 409/4179, 252/4179, 519/4179, 239/4179, 366/4179, 229/4179, 288/4179, 635/4179, 223/4179] 9 =
        ("A", ⟨452597/1671600, 1329987961/6336160000⟩) := by
      norm_num [webMajorCand, PITCH_CLASSES, correlate, rotateArray, majorProfile]
    have n9 : webMinorCand
        [348/4179, 233/4179, 438/4179, 409/4179, 252/4179, 519/4179, 239/4179, 366/4179, 229/4179, 288/4179, 635/4179, 223/4179] 9 =
        ("Am", ⟨149801/1671600, 70051515119/399178080000⟩) := by
      norm_num [webMinorCand, PITCH_CLASSES, correlate, rotateArray, minorProfile]
      rfl
    have w10 : webMajorCand
        [348/4179, 233/4179, 438/4179, 409/4179, 252/4179, 519/4179, 239/4179, 366/4179, 229/4179, 288/4179, 635/4179, 223/4179] 10 =
        ("A#", ⟨(-142567/1671600), 1329987961/6336160000⟩) := by
      norm_num [webMajorCand, PITCH_CLASSES, correlate, rotateArray, majorProfile]
    have n10 : webMinorCand
        [348/4179, 233/4179, 438/4179, 409/4179, 252/4179, 519/4179, 239/4179, 366/4179, 229/4179, 288/4179, 635/4179, 223/4179] 10 =
        ("A#m", ⟨125127/557200, 70051515119/399178080000⟩) := by
      norm_num [webMinorCand, PITCH_CLASSES, correlate, rotateArray, minorProfile]
      rfl
    have w11 : webMajorCand
        [348/4179, 233/4179, 438/4179, 409/4179, 252/4179, 519/4179, 239/4179, 366/4179, 229/4179, 288/4179, 635/4179, 223/4179] 11 =
        ("B", ⟨(-79883/1671600), 1329987961/6336160000⟩) := by
      norm_num [webMajorCand, PITCH_CLASSES, correlate, rotateArray, majorProfile]
    have n11 : webMinorCand
        [348/4179, 233/4179, 438/4179, 409/4179, 252/4179, 519/4179, 239/4179, 366/4179, 229/4179, 288/4179, 635/4179, 223/4179] 11 =
        ("Bm", ⟨(-21783/79600), 70051515119/399178080000⟩) := by
      norm_num [webMinorCand, PITCH_CLASSES, correlate, rotateArray, minorProfile]
      rfl
    have hsel : selectGo ("", (⟨-1, 1⟩ : Score))
        (webCandidatesInterleaved
          [348/4179, 233/4179, 438/4179, 409/4179, 252/4179, 519/4179, 239/4179, 366/4179, 229/4179, 288/4179, 635/4179, 223/4179]) =
        ("D", ⟨36469/79600, 1329987961/6336160000⟩) := by
      rw [show webCandidatesInterleaved
          [348/4179, 233/4179, 438/4179, 409/4179, 252/4179, 519/4179, 239/4179, 366/4179, 229/4179, 288/4179, 635/4179, 223/4179] =
          [webMajorCand
        [348/4179, 233/4179, 438/4179, 409/4179, 252/4179, 519/4179, 239/4179, 366/4179, 229/4179, 288/4179, 635/4179, 223/4179] 0, webMinorCand
        [348/4179, 233/4179, 438/4179, 409/4179, 252/4179, 519/4179, 239/4179, 366/4179, 229/4179, 288/4179, 635/4179, 223/4179] 0, webMajorCand
        [348/4179, 233/4179, 438/4179, 409/4179, 252/4179, 519/4179, 239/4179, 366/4179, 229/4179, 288/4179, 635/4179, 223/4179] 1, webMinorCand
        [348/4179, 233/4179, 438/4179, 409/4179, 252/4179, 519/4179, 239/4179, 366/4179, 229/4179, 288/4179, 635/4179, 223/4179] 1, webMajorCand
        [348/4179, 233/4179, 438/4179, 409/4179, 252/4179, 519/4179, 239/4179, 366/4179, 229/4179, 288/4179, 635/4179, 223/4179] 2, webMinorCand
        [348/4179, 233/4179, 438/4179, 409/4179, 252/4179, 519/4179, 239/4179, 366/4179, 229/4179, 288/4179, 635/4179, 223/4179] 2, webMajorCand
        [348/4179, 233/4179, 438/4179, 409/4179, 252/4179, 519/4179, 239/4179, 366/4179, 229/4179, 288/4179, 635/4179, 223/4179] 3, webMinorCand
        [348/4179, 233/4179, 438/4179, 409/4179, 252/4179, 519/4179, 239/4179, 366/4179, 229/4179, 288/4179, 635/4179, 223/4179] 3, webMajorCand
        [348/4179, 233/4179, 438/4179, 409/4179, 252/4179, 519/4179, 239/4179, 366/4179, 229/4179, 288/4179, 635/4179, 223/4179] 4, webMinorCand
        [348/4179, 233/4179, 438/4179, 409/4179, 252/4179, 519/4179, 239/4179, 366/4179, 229/4179, 288/4179, 635/4179, 223/4179] 4, webMajorCand
        [348/4179, 233/4179, 438/4179, 409/4179, 252/4179, 519/4179, 239/4179, 366/4179, 229/4179, 288/4179, 635/4179, 223/4179] 5, webMinorCand
        [348/4179, 233/4179, 438/4179, 409/4179, 252/4179, 519/4179, 239/4179, 366/4179, 229/4179, 288/4179, 635/4179, 223/4179] 5, webMajorCand
        [348/4179, 233/4179, 438/4179, 409/4179, 252/4179, 519/4179, 239/4179, 366/4179, 229/4179, 288/4179, 635/4179, 223/4179] 6, webMinorCand
        [348/4179, 233/4179, 438/4179, 409/4179, 252/4179, 519/4179, 239/4179, 366/4179, 229/4179, 288/4179, 635/4179, 223/4179] 6, webMajorCand
        [348/4179, 233/4179, 438/4179, 409/4179, 252/4179, 519/4179, 239/4179, 366/4179, 229/4179, 288/4179, 635/4179, 223/4179] 7, webMinorCand
        [348/4179, 233/4179, 438/4179, 409/4179, 252/4179, 519/4179, 239/4179, 366/4179, 229/4179, 288/4179, 635/4179, 223/4179] 7, webMajorCand
        [348/4179, 233/4179, 438/4179, 409/4179, 252/4179, 519/4179, 239/4179, 366/4179, 229/4179, 288/4179, 635/4179, 223/4179] 8, webMinorCand
        [348/4179, 233/4179, 438/4179, 409/4179, 252/4179, 519/4179, 239/4179, 366/4179, 229/4179, 288/4179, 635/4179, 223/4179] 8, webMajorCand
        [348/4179, 233/4179, 438/4179, 409/4179, 252/4179, 519/4179, 239/4179, 366/4179, 229/4179, 288/4179, 635/4179, 223/4179] 9, webMinorCand
        [348/4179, 233/4179, 438/4179, 409/4179, 252/4179, 519/4179, 239/4179, 366/4179, 229/4179, 288/4179, 635/4179, 223/4179] 9, webMajorCand
        [348/4179, 233/4179, 438/4179, 409/4179, 252/4179, 519/4179, 239/4179, 366/4179, 229/4179, 288/4179, 635/4179, 223/4179] 10, webMinorCand
        [348/4179, 233/4179, 438/4179, 409/4179, 252/4179, 519/4179, 239/4179, 366/4179, 229/4179, 288/4179, 635/4179, 223/4179] 10, webMajorCand
        [348/4179, 233/4179, 438/4179, 409/4179, 252/4179, 519/4179, 239/4179, 366/4179, 229/4179, 288/4179, 635/4179, 223/4179] 11, webMinorCand
        [348/4179, 233/4179, 438/4179, 409/4179, 252/4179, 519/4179, 239/4179, 366/4179, 229/4179, 288/4179, 635/4179, 223/4179] 11] from rfl]
      simp only [w0, n0, w1, n1, w2, n2, w3, n3, w4, n4, w5, n5, w6, n6, w7, n7, w8, n8, w9, n9, w10, n10, w11, n11]
      rw [selectGo_cons_pos _ _ _ (by norm_num [Score.ltb])]
      rw [selectGo_cons_pos _ _ _ (by norm_num [Score.ltb])]
      rw [selectGo_cons_neg _ _ _ (by norm_num [Score.ltb])]
      rw [selectGo_cons_neg _ _ _ (by norm_num [Score.ltb])]
      rw [selectGo_cons_pos _ _ _ (by norm_num [Score.ltb])]
      rw [selectGo_keeps _ _ (by
        intro x hx
        fin_cases hx <;> norm_num [Score.ltb])]
    rw [chromaToKey_eq_selectGo, hsel]
  · have ht2 : computeKeyScore
        [348/4179, 233/4179, 438/4179, 409/4179, 252/4179, 519/4179, 239/4179, 366/4179, 229/4179, 288/4179, 635/4179, 223/4179] majorProfile 2 =
        correlation
          [348/4179, 233/4179, 438/4179, 409/4179, 252/4179, 519/4179, 239/4179, 366/4179, 229/4179, 288/4179, 635/4179, 223/4179]
          [2.29, 2.88, 6.35, 2.23, 3.48, 2.33, 4.38, 4.09, 2.52, 5.19, 2.39, 3.66] := rfl
    have ht10 : computeKeyScore
        [348/4179, 233/4179, 438/4179, 409/4179, 252/4179, 519/4179, 239/4179, 366/4179, 229/4179, 288/4179, 635/4179, 223/4179] majorProfile 10 =
        correlation
          [348/4179, 233/4179, 438/4179, 409/4179, 252/4179, 519/4179, 239/4179, 366/4179, 229/4179, 288/4179, 635/4179, 223/4179]
          [3.48, 2.33, 4.38, 4.09, 2.52, 5.19, 2.39, 3.66, 2.29, 2.88, 6.35, 2.23] := rfl
    have hv2 : computeKeyScore
        [348/4179, 233/4179, 438/4179, 409/4179, 252/4179, 519/4179, 239/4179, 366/4179, 229/4179, 288/4179, 635/4179, 223/4179] majorProfile 2 =
        ⟨(-142567/1671600), 1329987961/6336160000⟩ := by
      rw [ht2]
      norm_num [correlation]
    have hv10 : computeKeyScore
        [348/4179, 233/4179, 438/4179, 409/4179, 252/4179, 519/4179, 239/4179, 366/4179, 229/4179, 288/4179, 635/4179, 223/4179] majorProfile 10 =
        ⟨36469/79600, 1329987961/6336160000⟩ := by
      rw [ht10]
      norm_num [correlation]
    rw [hv2, hv10]
    norm_num [Score.ltb]

set_option maxHeartbeats 4000000 in
/-- C3 counterexample: on a normalized, nonnegative chroma with key prior
"C", the matcher returns "Cm" although the "C" template's final score is
strictly higher (about 1.224 against 1.208): stored confidences are clamped
to 1 by `Math.min`, so once the best confidence is 1, any later template
whose score also exceeds 1 displaces the earlier higher-scoring one — the
returned chord is not the argmax. -/
theorem clamped_confidence_displaces_argmax :
    (∀ x ∈ ([100/257, 0, 0, 42/257, 45/257, 0, 0, 70/257, 0, 0, 0, 0] : List ℚ), 0 ≤ x) ∧
    ([100/257, 0, 0, 42/257, 45/257, 0, 0, 70/257, 0, 0, 0, 0] : List ℚ).sum = 1 ∧
    (matchChordToChroma
      [100/257, 0, 0, 42/257, 45/257, 0, 0, 70/257, 0, 0, 0, 0]
      VocabularyLevel.basic (some "C")).name = "Cm" ∧
    Score.ltb
      (templateScore
        [100/257, 0, 0, 42/257, 45/257, 0, 0, 70/257, 0, 0, 0, 0]
        (some "C") (⟨"Cm", [1, 0, 0, 8/10, 0, 0, 0, 7/10, 0, 0, 0, 0], "minor"⟩ : ChordTemplate))
      (templateScore
        [100/257, 0, 0, 42/257, 45/257, 0, 0, 70/257, 0, 0, 0, 0]
        (some "C") (⟨"C", [1, 0, 0, 0, 8/10, 0, 0, 7/10, 0, 0, 0, 0], "major"⟩ : ChordTemplate)) = true := by
  have hmem : (100/257 : ℚ) ∈ ([100/257, 0, 0, 42/257, 45/257, 0, 0, 70/257, 0, 0, 0, 0] : List ℚ) := List.mem_cons_self _ _
  have hmax : ((3/10 : ℚ) : WithBot ℚ) < ([100/257, 0, 0, 42/257, 45/257, 0, 0, 70/257, 0, 0, 0, 0] : List ℚ).maximum :=
    lt_of_lt_of_le (WithBot.coe_lt_coe.mpr (by norm_num)) (List.le_maximum_of_mem' hmem)
  have hemph : ∀ tmpl : List ℚ,
      calculateHarmonicEmphasis
        [100/257, 0, 0, 42/257, 45/257, 0, 0, 70/257, 0, 0, 0, 0] tmpl = 11/10 := by
    intro tmpl
    simp only [calculateHarmonicEmphasis]
    rw [if_neg (by norm_num [List.filter]), if_pos ⟨hmax, by norm_num⟩]
    norm_num
  have hb0 : calculateKeyPriorBonus "C" "C" = 12/10 := rfl
  have hb1 : calculateKeyPriorBonus "C#" "C" = 1 := rfl
  have hb2 : calculateKeyPriorBonus "D" "C" = 11/10 := rfl
  have hb3 : calculateKeyPriorBonus "D#" "C" = 1 := rfl
  have hb4 : calculateKeyPriorBonus "E" "C" = 11/10 := rfl
  have hb5 : calculateKeyPriorBonus "F" "C" = 11/10 := rfl
  have hb6 : calculateKeyPriorBonus "F#" "C" = 1 := rfl
  have hb7 : calculateKeyPriorBonus "G" "C" = 11/10 := rfl
  have hb8 : calculateKeyPriorBonus "G#" "C" = 1 := rfl
  have hb9 : calculateKeyPriorBonus "A" "C" = 11/10 := rfl
  have hb10 : calculateKeyPriorBonus "A#" "C" = 1 := rfl
  have hb11 : calculateKeyPriorBonus "B" "C" = 11/10 := rfl
  have hb12 : calculateKeyPriorBonus "Cm" "C" = 12/10 := rfl
  have hb13 : calculateKeyPriorBonus "C#m" "C" = 1 := rfl
  have hb14 : calculateKeyPriorBonus "Dm" "C" = 11/10 := rfl
  have hb15 : calculateKeyPriorBonus "D#m" "C" = 1 := rfl
  have hb16 : calculateKeyPriorBonus "Em" "C" = 11/10 := rfl
  have hb17 : calculateKeyPriorBonus "Fm" "C" = 11/10 := rfl
  have hb18 : calculateKeyPriorBonus "F#m" "C" = 1 := rfl
  have hb19 : calculateKeyPriorBonus "Gm" "C" = 11/10 := rfl
  have hb20 : calculateKeyPriorBonus "G#m" "C" = 1 := rfl
  have hb21 : calculateKeyPriorBonus "Am" "C" = 11/10 := rfl
  have hb22 : calculateKeyPriorBonus "A#m" "C" = 1 := rfl
  have hb23 : calculateKeyPriorBonus "Bm" "C" = 11/10 := rfl
  have hs0 : templateScore
      [100/257, 0, 0, 42/257, 45/257, 0, 0, 70/257, 0, 0, 0, 0]
      (some "C") (⟨"C", [1, 0, 0, 0, 8/10, 0, 0, 7/10, 0, 0, 0, 0], "major"⟩ : ChordTemplate) =
      ⟨1221/1285, 3980757/6604900⟩ := by
    simp only [templateScore, hemph]
    norm_num [cosineSimilarity, Score.scale, Score.ltb, hb0]
  have hs1 : templateScore
      [100/257, 0, 0, 42/257, 45/257, 0, 0, 70/257, 0, 0, 0, 0]
      (some "C") (⟨"C#", [0, 1, 0, 0, 0, 8/10, 0, 0, 7/10, 0, 0, 0], "major"⟩ : ChordTemplate) =
      ⟨0, 3980757/6604900⟩ := by
    simp only [templateScore, hemph]
    norm_num [cosineSimilarity, Score.scale, Score.ltb, hb1]
  have hs2 : templateScore
      [100/257, 0, 0, 42/257, 45/257, 0, 0, 70/257, 0, 0, 0, 0]
      (some "C") (⟨"D", [0, 0, 1, 0, 0, 0, 8/10, 0, 0, 7/10, 0, 0], "major"⟩ : ChordTemplate) =
      ⟨0, 3980757/6604900⟩ := by
    simp only [templateScore, hemph]
    norm_num [cosineSimilarity, Score.scale, Score.ltb, hb2]
  have hs3 : templateScore
      [100/257, 0, 0, 42/257, 45/257, 0, 0, 70/257, 0, 0, 0, 0]
      (some "C") (⟨"D#", [0, 0, 0, 1, 0, 0, 0, 8/10, 0, 0, 7/10, 0], "major"⟩ : ChordTemplate) =
      ⟨539/1285, 3980757/6604900⟩ := by
    simp only [templateScore, hemph]
    norm_num [cosineSimilarity, Score.scale, Score.ltb, hb3]
  have hs4 : templateScore
      [100/257, 0, 0, 42/257, 45/257, 0, 0, 70/257, 0, 0, 0, 0]
      (some "C") (⟨"E", [0, 0, 0, 0, 1, 0, 0, 0, 8/10, 0, 0, 7/10], "major"⟩ : ChordTemplate) =
      ⟨99/514, 3980757/6604900⟩ := by
    simp only [templateScore, hemph]
    norm_num [cosineSimilarity, Score.scale, Score.ltb, hb4]
  have hs5 : templateScore
      [100/257, 0, 0, 42/257, 45/257, 0, 0, 70/257, 0, 0, 0, 0]
      (some "C") (⟨"F", [7/10, 0, 0, 0, 0, 1, 0, 0, 0, 8/10, 0, 0], "major"⟩ : ChordTemplate) =
      ⟨847/2570, 3980757/6604900⟩ := by
    simp only [templateScore, hemph]
    norm_num [cosineSimilarity, Score.scale, Score.ltb, hb5]
  have hs6 : templateScore
      [100/257, 0, 0, 42/257, 45/257, 0, 0, 70/257, 0, 0, 0, 0]
      (some "C") (⟨"F#", [0, 7/10, 0, 0, 0, 0, 1, 0, 0, 0, 8/10, 0], "major"⟩ : ChordTemplate) =
      ⟨0, 3980757/6604900⟩ := by
    simp only [templateScore, hemph]
    norm_num [cosineSimilarity, Score.scale, Score.ltb, hb6]
  have hs7 : templateScore
      [100/257, 0, 0, 42/257, 45/257, 0, 0, 70/257, 0, 0, 0, 0]
      (some "C") (⟨"G", [0, 0, 7/10, 0, 0, 0, 0, 1, 0, 0, 0, 8/10], "major"⟩ : ChordTemplate) =
      ⟨847/2570, 3980757/6604900⟩ := by
    simp only [templateScore, hemph]
    norm_num [cosineSimilarity, Score.scale, Score.ltb, hb7]
  have hs8 : templateScore
      [100/257, 0, 0, 42/257, 45/257, 0, 0, 70/257, 0, 0, 0, 0]
      (some "C") (⟨"G#", [8/10, 0, 0, 7/10, 0, 0, 0, 0, 1, 0, 0, 0], "major"⟩ : ChordTemplate) =
      ⟨6017/12850, 3980757/6604900⟩ := by
    simp only [templateScore, hemph]
    norm_num [cosineSimilarity, Score.scale, Score.ltb, hb8]
  have hs9 : templateScore
      [100/257, 0, 0, 42/257, 45/257, 0, 0, 70/257, 0, 0, 0, 0]
      (some "C") (⟨"A", [0, 8/10, 0, 0, 7/10, 0, 0, 0, 0, 1, 0, 0], "major"⟩ : ChordTemplate) =
      ⟨693/5140, 3980757/6604900⟩ := by
    simp only [templateScore, hemph]
    norm_num [cosineSimilarity, Score.scale, Score.ltb, hb9]
  have hs10 : templateScore
      [100/257, 0, 0, 42/257, 45/257, 0, 0, 70/257, 0, 0, 0, 0]
      (some "C") (⟨"A#", [0, 0, 8/10, 0, 0, 7/10, 0, 0, 0, 0, 1, 0], "major"⟩ : ChordTemplate) =
      ⟨0, 3980757/6604900⟩ := by
    simp only [templateScore, hemph]
    norm_num [cosineSimilarity, Score.scale, Score.ltb, hb10]
  have hs11 : templateScore
      [100/257, 0, 0, 42/257, 45/257, 0, 0, 70/257, 0, 0, 0, 0]
      (some "C") (⟨"B", [0, 0, 0, 8/10, 0, 0, 7/10, 0, 0, 0, 0, 1], "major"⟩ : ChordTemplate) =
      ⟨924/6425, 3980757/6604900⟩ := by
    simp only [templateScore, hemph]
    norm_num [cosineSimilarity, Score.scale, Score.ltb, hb11]
  have hs12 : templateScore
      [100/257, 0, 0, 42/257, 45/257, 0, 0, 70/257, 0, 0, 0, 0]
      (some "C") (⟨"Cm", [1, 0, 0, 8/10, 0, 0, 0, 7/10, 0, 0, 0, 0], "minor"⟩ : ChordTemplate) =
      ⟨30129/32125, 3980757/6604900⟩ := by
    simp only [templateScore, hemph]
    norm_num [cosineSimilarity, Score.scale, Score.ltb, hb12]
  have hs13 : templateScore
      [100/257, 0, 0, 42/257, 45/257, 0, 0, 70/257, 0, 0, 0, 0]
      (some "C") (⟨"C#m", [0, 1, 0, 0, 8/10, 0, 0, 0, 7/10, 0, 0, 0], "minor"⟩ : ChordTemplate) =
      ⟨198/1285, 3980757/6604900⟩ := by
    simp only [templateScore, hemph]
    norm_num [cosineSimilarity, Score.scale, Score.ltb, hb13]
  have hs14 : templateScore
      [100/257, 0, 0, 42/257, 45/257, 0, 0, 70/257, 0, 0, 0, 0]
      (some "C") (⟨"Dm", [0, 0, 1, 0, 0, 8/10, 0, 0, 0, 7/10, 0, 0], "minor"⟩ : ChordTemplate) =
      ⟨0, 3980757/6604900⟩ := by
    simp only [templateScore, hemph]
    norm_num [cosineSimilarity, Score.scale, Score.ltb, hb14]
  have hs15 : templateScore
      [100/257, 0, 0, 42/257, 45/257, 0, 0, 70/257, 0, 0, 0, 0]
      (some "C") (⟨"D#m", [0, 0, 0, 1, 0, 0, 8/10, 0, 0, 0, 7/10, 0], "minor"⟩ : ChordTemplate) =
      ⟨231/1285, 3980757/6604900⟩ := by
    simp only [templateScore, hemph]
    norm_num [cosineSimilarity, Score.scale, Score.ltb, hb15]
  have hs16 : templateScore
      [100/257, 0, 0, 42/257, 45/257, 0, 0, 70/257, 0, 0, 0, 0]
      (some "C") (⟨"Em", [0, 0, 0, 0, 1, 0, 0, 8/10, 0, 0, 0, 7/10], "minor"⟩ : ChordTemplate) =
      ⟨12221/25700, 3980757/6604900⟩ := by
    simp only [templateScore, hemph]
    norm_num [cosineSimilarity, Score.scale, Score.ltb, hb16]
  have hs17 : templateScore
      [100/257, 0, 0, 42/257, 45/257, 0, 0, 70/257, 0, 0, 0, 0]
      (some "C") (⟨"Fm", [7/10, 0, 0, 0, 0, 1, 0, 0, 8/10, 0, 0, 0], "minor"⟩ : ChordTemplate) =
      ⟨847/2570, 3980757/6604900⟩ := by
    simp only [templateScore, hemph]
    norm_num [cosineSimilarity, Score.scale, Score.ltb, hb17]
  have hs18 : templateScore
      [100/257, 0, 0, 42/257, 45/257, 0, 0, 70/257, 0, 0, 0, 0]
      (some "C") (⟨"F#m", [0, 7/10, 0, 0, 0, 0, 1, 0, 0, 8/10, 0, 0], "minor"⟩ : ChordTemplate) =
      ⟨0, 3980757/6604900⟩ := by
    simp only [templateScore, hemph]
    norm_num [cosineSimilarity, Score.scale, Score.ltb, hb18]
  have hs19 : templateScore
      [100/257, 0, 0, 42/257, 45/257, 0, 0, 70/257, 0, 0, 0, 0]
      (some "C") (⟨"Gm", [0, 0, 7/10, 0, 0, 0, 0, 1, 0, 0, 8/10, 0], "minor"⟩ : ChordTemplate) =
      ⟨847/2570, 3980757/6604900⟩ := by
    simp only [templateScore, hemph]
    norm_num [cosineSimilarity, Score.scale, Score.ltb, hb19]
  have hs20 : templateScore
      [100/257, 0, 0, 42/257, 45/257, 0, 0, 70/257, 0, 0, 0, 0]
      (some "C") (⟨"G#m", [0, 0, 0, 7/10, 0, 0, 0, 0, 1, 0, 0, 8/10], "minor"⟩ : ChordTemplate) =
      ⟨1617/12850, 3980757/6604900⟩ := by
    simp only [templateScore, hemph]
    norm_num [cosineSimilarity, Score.scale, Score.ltb, hb20]
  have hs21 : templateScore
      [100/257, 0, 0, 42/257, 45/257, 0, 0, 70/257, 0, 0, 0, 0]
      (some "C") (⟨"Am", [8/10, 0, 0, 0, 7/10, 0, 0, 0, 0, 1, 0, 0], "minor"⟩ : ChordTemplate) =
      ⟨26983/51400, 3980757/6604900⟩ := by
    simp only [templateScore, hemph]
    norm_num [cosineSimilarity, Score.scale, Score.ltb, hb21]
  have hs22 : templateScore
      [100/257, 0, 0, 42/257, 45/257, 0, 0, 70/257, 0, 0, 0, 0]
      (some "C") (⟨"A#m", [0, 8/10, 0, 0, 0, 7/10, 0, 0, 0, 0, 1, 0], "minor"⟩ : ChordTemplate) =
      ⟨0, 3980757/6604900⟩ := by
    simp only [templateScore, hemph]
    norm_num [cosineSimilarity, Score.scale, Score.ltb, hb22]
  have hs23 : templateScore
      [100/257, 0, 0, 42/257, 45/257, 0, 0, 70/257, 0, 0, 0, 0]
      (some "C") (⟨"Bm", [0, 0, 8/10, 0, 0, 0, 7/10, 0, 0, 0, 0, 1], "minor"⟩ : ChordTemplate) =
      ⟨0, 3980757/6604900⟩ := by
    simp only [templateScore, hemph]
    norm_num [cosineSimilarity, Score.scale, Score.ltb, hb23]
  have hT : generateChordTemplates VocabularyLevel.basic = [
      ⟨"C", [1, 0, 0, 0, 8/10, 0, 0, 7/10, 0, 0, 0, 0], "major"⟩,
      ⟨"C#", [0, 1, 0, 0, 0, 8/10, 0, 0, 7/10, 0, 0, 0], "major"⟩,
      ⟨"D", [0, 0, 1, 0, 0, 0, 8/10, 0, 0, 7/10, 0, 0], "major"⟩,
      ⟨"D#", [0, 0, 0, 1, 0, 0, 0, 8/10, 0, 0, 7/10, 0], "major"⟩,
      ⟨"E", [0, 0, 0, 0, 1, 0, 0, 0, 8/10, 0, 0, 7/10], "major"⟩,
      ⟨"F", [7/10, 0, 0, 0, 0, 1, 0, 0, 0, 8/10, 0, 0], "major"⟩,
      ⟨"F#", [0, 7/10, 0, 0, 0, 0, 1, 0, 0, 0, 8/10, 0], "major"⟩,
      ⟨"G", [0, 0, 7/10, 0, 0, 0, 0, 1, 0, 0, 0, 8/10], "major"⟩,
      ⟨"G#", [8/10, 0, 0, 7/10, 0, 0, 0, 0, 1, 0, 0, 0], "major"⟩,
      ⟨"A", [0, 8/10, 0, 0, 7/10, 0, 0, 0, 0, 1, 0, 0], "major"⟩,
      ⟨"A#", [0, 0, 8/10, 0, 0, 7/10, 0, 0, 0, 0, 1, 0], "major"⟩,
      ⟨"B", [0, 0, 0, 8/10, 0, 0, 7/10, 0, 0, 0, 0, 1], "major"⟩,
      ⟨"Cm", [1, 0, 0, 8/10, 0, 0, 0, 7/10, 0, 0, 0, 0], "minor"⟩,
      ⟨"C#m", [0, 1, 0, 0, 8/10, 0, 0, 0, 7/10, 0, 0, 0], "minor"⟩,
      ⟨"Dm", [0, 0, 1, 0, 0, 8/10, 0, 0, 0, 7/10, 0, 0], "minor"⟩,
      ⟨"D#m", [0, 0, 0, 1, 0, 0, 8/10, 0, 0, 0, 7/10, 0], "minor"⟩,
      ⟨"Em", [0, 0, 0, 0, 1, 0, 0, 8/10, 0, 0, 0, 7/10], "minor"⟩,
      ⟨"Fm", [7/10, 0, 0, 0, 0, 1, 0, 0, 8/10, 0, 0, 0], "minor"⟩,
      ⟨"F#m", [0, 7/10, 0, 0, 0, 0, 1, 0, 0, 8/10, 0, 0], "minor"⟩,
      ⟨"Gm", [0, 0, 7/10, 0, 0, 0, 0, 1, 0, 0, 8/10, 0], "minor"⟩,
      ⟨"G#m", [0, 0, 0, 7/10, 0, 0, 0, 0, 1, 0, 0, 8/10], "minor"⟩,
      ⟨"Am", [8/10, 0, 0, 0, 7/10, 0, 0, 0, 0, 1, 0, 0], "minor"⟩,
      ⟨"A#m", [0, 8/10, 0, 0, 0, 7/10, 0, 0, 0, 0, 1, 0], "minor"⟩,
      ⟨"Bm", [0, 0, 8/10, 0, 0, 0, 7/10, 0, 0, 0, 0, 1], "minor"⟩] := rfl
  refine ⟨?_, ?_, ?_, ?_⟩
  · intro x hx
    fin_cases hx <;> norm_num
  · norm_num
  · have hcondC : Score.ltb Score.zero
        (templateScore
          [100/257, 0, 0, 42/257, 45/257, 0, 0, 70/257, 0, 0, 0, 0]
          (some "C") (⟨"C", [1, 0, 0, 0, 8/10, 0, 0, 7/10, 0, 0, 0, 0], "major"⟩ : ChordTemplate)) = true := by
      rw [hs0]
      norm_num [Score.ltb, Score.zero]
    have hminC : Score.min1
        (templateScore
          [100/257, 0, 0, 42/257, 45/257, 0, 0, 70/257, 0, 0, 0, 0]
          (some "C") (⟨"C", [1, 0, 0, 0, 8/10, 0, 0, 7/10, 0, 0, 0, 0], "major"⟩ : ChordTemplate)) = Score.one := by
      rw [hs0]
      norm_num [Score.min1, Score.one, Score.ltb]
    have hcondCm : Score.ltb Score.one
        (templateScore
          [100/257, 0, 0, 42/257, 45/257, 0, 0, 70/257, 0, 0, 0, 0]
          (some "C") (⟨"Cm", [1, 0, 0, 8/10, 0, 0, 0, 7/10, 0, 0, 0, 0], "minor"⟩ : ChordTemplate)) = true := by
      rw [hs12]
      norm_num [Score.ltb, Score.one]
    have hminCm : Score.min1
        (templateScore
          [100/257, 0, 0, 42/257, 45/257, 0, 0, 70/257, 0, 0, 0, 0]
          (some "C") (⟨"Cm", [1, 0, 0, 8/10, 0, 0, 0, 7/10, 0, 0, 0, 0], "minor"⟩ : ChordTemplate)) = Score.one := by
      rw [hs12]
      norm_num [Score.min1, Score.one, Score.ltb]
    have h11maj : ∀ t ∈ ([⟨"C#", [0, 1, 0, 0, 0, 8/10, 0, 0, 7/10, 0, 0, 0], "major"⟩, ⟨"D", [0, 0, 1, 0, 0, 0, 8/10, 0, 0, 7/10, 0, 0], "major"⟩, ⟨"D#", [0, 0, 0, 1, 0, 0, 0, 8/10, 0, 0, 7/10, 0], "major"⟩, ⟨"E", [0, 0, 0, 0, 1, 0, 0, 0, 8/10, 0, 0, 7/10], "major"⟩, ⟨"F", [7/10, 0, 0, 0, 0, 1, 0, 0, 0, 8/10, 0, 0], "major"⟩, ⟨"F#", [0, 7/10, 0, 0, 0, 0, 1, 0, 0, 0, 8/10, 0], "major"⟩, ⟨"G", [0, 0, 7/10, 0, 0, 0, 0, 1, 0, 0, 0, 8/10], "major"⟩, ⟨"G#", [8/10, 0, 0, 7/10, 0, 0, 0, 0, 1, 0, 0, 0], "major"⟩, ⟨"A", [0, 8/10, 0, 0, 7/10, 0, 0, 0, 0, 1, 0, 0], "major"⟩, ⟨"A#", [0, 0, 8/10, 0, 0, 7/10, 0, 0, 0, 0, 1, 0], "major"⟩, ⟨"B", [0, 0, 0, 8/10, 0, 0, 7/10, 0, 0, 0, 0, 1], "major"⟩] : List ChordTemplate),
        Score.ltb ((⟨"C", Score.one, [1, 0, 0, 0, 8/10, 0, 0, 7/10, 0, 0, 0, 0]⟩ : ChordMatch)).confidence
          (templateScore
            [100/257, 0, 0, 42/257, 45/257, 0, 0, 70/257, 0, 0, 0, 0]
            (some "C") t) = false := by
      intro t ht
      fin_cases ht <;> simp only [hs1, hs2, hs3, hs4, hs5, hs6, hs7, hs8, hs9, hs10, hs11] <;> norm_num [Score.ltb, Score.one]
    have h11min : ∀ t ∈ ([⟨"C#m", [0, 1, 0, 0, 8/10, 0, 0, 0, 7/10, 0, 0, 0], "minor"⟩, ⟨"Dm", [0, 0, 1, 0, 0, 8/10, 0, 0, 0, 7/10, 0, 0], "minor"⟩, ⟨"D#m", [0, 0, 0, 1, 0, 0, 8/10, 0, 0, 0, 7/10, 0], "minor"⟩, ⟨"Em", [0, 0, 0, 0, 1, 0, 0, 8/10, 0, 0, 0, 7/10], "minor"⟩, ⟨"Fm", [7/10, 0, 0, 0, 0, 1, 0, 0, 8/10, 0, 0, 0], "minor"⟩, ⟨"F#m", [0, 7/10, 0, 0, 0, 0, 1, 0, 0, 8/10, 0, 0], "minor"⟩, ⟨"Gm", [0, 0, 7/10, 0, 0, 0, 0, 1, 0, 0, 8/10, 0], "minor"⟩, ⟨"G#m", [0, 0, 0, 7/10, 0, 0, 0, 0, 1, 0, 0, 8/10], "minor"⟩, ⟨"Am", [8/10, 0, 0, 0, 7/10, 0, 0, 0, 0, 1, 0, 0], "minor"⟩, ⟨"A#m", [0, 8/10, 0, 0, 0, 7/10, 0, 0, 0, 0, 1, 0], "minor"⟩, ⟨"Bm", [0, 0, 8/10, 0, 0, 0, 7/10, 0, 0, 0, 0, 1], "minor"⟩] : List ChordTemplate),
        Score.ltb ((⟨"Cm", Score.one, [1, 0, 0, 8/10, 0, 0, 0, 7/10, 0, 0, 0, 0]⟩ : ChordMatch)).confidence
          (templateScore
            [100/257, 0, 0, 42/257, 45/257, 0, 0, 70/257, 0, 0, 0, 0]
            (some "C") t) = false := by
      intro t ht
      fin_cases ht <;> simp only [hs13, hs14, hs15, hs16, hs17, hs18, hs19, hs20, hs21, hs22, hs23] <;> norm_num [Score.ltb, Score.one]
    have e1 : List.foldl
        (fun bestMatch t =>
          if Score.ltb bestMatch.confidence (templateScore
              [100/257, 0, 0, 42/257, 45/257, 0, 0, 70/257, 0, 0, 0, 0]
              (some "C") t) then
            ⟨t.name, Score.min1 (templateScore
              [100/257, 0, 0, 42/257, 45/257, 0, 0, 70/257, 0, 0, 0, 0]
              (some "C") t), t.template⟩
          else bestMatch)
        (⟨"N/C", Score.zero, List.replicate 12 0⟩ : ChordMatch)
        [(⟨"C", [1, 0, 0, 0, 8/10, 0, 0, 7/10, 0, 0, 0, 0], "major"⟩ : ChordTemplate)] =
        ⟨"C", Score.one, [1, 0, 0, 0, 8/10, 0, 0, 7/10, 0, 0, 0, 0]⟩ := by
      rw [List.foldl_cons, List.foldl_nil]
      dsimp only
      rw [if_pos hcondC, hminC]
    have e3 : List.foldl
        (fun bestMatch t =>
          if Score.ltb bestMatch.confidence (templateScore
              [100/257, 0, 0, 42/257, 45/257, 0, 0, 70/257, 0, 0, 0, 0]
              (some "C") t) then
            ⟨t.name, Score.min1 (templateScore
              [100/257, 0, 0, 42/257, 45/257, 0, 0, 70/257, 0, 0, 0, 0]
              (some "C") t), t.template⟩
          else bestMatch)
        (⟨"C", Score.one, [1, 0, 0, 0, 8/10, 0, 0, 7/10, 0, 0, 0, 0]⟩ : ChordMatch)
        [(⟨"Cm", [1, 0, 0, 8/10, 0, 0, 0, 7/10, 0, 0, 0, 0], "minor"⟩ : ChordTemplate)] =
        ⟨"Cm", Score.one, [1, 0, 0, 8/10, 0, 0, 0, 7/10, 0, 0, 0, 0]⟩ := by
      rw [List.foldl_cons, List.foldl_nil]
      dsimp only
      rw [if_pos hcondCm, hminCm]
    rw [matchChordToChroma_eq, hT]
    rw [show ([
      ⟨"C", [1, 0, 0, 0, 8/10, 0, 0, 7/10, 0, 0, 0, 0], "major"⟩,
      ⟨"C#", [0, 1, 0, 0, 0, 8/10, 0, 0, 7/10, 0, 0, 0], "major"⟩,
      ⟨"D", [0, 0, 1, 0, 0, 0, 8/10, 0, 0, 7/10, 0, 0], "major"⟩,
      ⟨"D#", [0, 0, 0, 1, 0, 0, 0, 8/10, 0, 0, 7/10, 0], "major"⟩,
      ⟨"E", [0, 0, 0, 0, 1, 0, 0, 0, 8/10, 0, 0, 7/10], "major"⟩,
      ⟨"F", [7/10, 0, 0, 0, 0, 1, 0, 0, 0, 8/10, 0, 0], "major"⟩,
      ⟨"F#", [0, 7/10, 0, 0, 0, 0, 1, 0, 0, 0, 8/10, 0], "major"⟩,
      ⟨"G", [0, 0, 7/10, 0, 0, 0, 0, 1, 0, 0, 0, 8/10], "major"⟩,
      ⟨"G#", [8/10, 0, 0, 7/10, 0, 0, 0, 0, 1, 0, 0, 0], "major"⟩,
      ⟨"A", [0, 8/10, 0, 0, 7/10, 0, 0, 0, 0, 1, 0, 0], "major"⟩,
      ⟨"A#", [0, 0, 8/10, 0, 0, 7/10, 0, 0, 0, 0, 1, 0], "major"⟩,
      ⟨"B", [0, 0, 0, 8/10, 0, 0, 7/10, 0, 0, 0, 0, 1], "major"⟩,
      ⟨"Cm", [1, 0, 0, 8/10, 0, 0, 0, 7/10, 0, 0, 0, 0], "minor"⟩,
      ⟨"C#m", [0, 1, 0, 0, 8/10, 0, 0, 0, 7/10, 0, 0, 0], "minor"⟩,
      ⟨"Dm", [0, 0, 1, 0, 0, 8/10, 0, 0, 0, 7/10, 0, 0], "minor"⟩,
      ⟨"D#m", [0, 0, 0, 1, 0, 0, 8/10, 0, 0, 0, 7/10, 0], "minor"⟩,
      ⟨"Em", [0, 0, 0, 0, 1, 0, 0, 8/10, 0, 0, 0, 7/10], "minor"⟩,
      ⟨"Fm", [7/10, 0, 0, 0, 0, 1, 0, 0, 8/10, 0, 0, 0], "minor"⟩,
      ⟨"F#m", [0, 7/10, 0, 0, 0, 0, 1, 0, 0, 8/10, 0, 0], "minor"⟩,
      ⟨"Gm", [0, 0, 7/10, 0, 0, 0, 0, 1, 0, 0, 8/10, 0], "minor"⟩,
      ⟨"G#m", [0, 0, 0, 7/10, 0, 0, 0, 0, 1, 0, 0, 8/10], "minor"⟩,
      ⟨"Am", [8/10, 0, 0, 0, 7/10, 0, 0, 0, 0, 1, 0, 0], "minor"⟩,
      ⟨"A#m", [0, 8/10, 0, 0, 0, 7/10, 0, 0, 0, 0, 1, 0], "minor"⟩,
      ⟨"Bm", [0, 0, 8/10, 0, 0, 0, 7/10, 0, 0, 0, 0, 1], "minor"⟩] : List ChordTemplate) =
      [(⟨"C", [1, 0, 0, 0, 8/10, 0, 0, 7/10, 0, 0, 0, 0], "major"⟩ : ChordTemplate)] ++
        (([⟨"C#", [0, 1, 0, 0, 0, 8/10, 0, 0, 7/10, 0, 0, 0], "major"⟩, ⟨"D", [0, 0, 1, 0, 0, 0, 8/10, 0, 0, 7/10, 0, 0], "major"⟩, ⟨"D#", [0, 0, 0, 1, 0, 0, 0, 8/10, 0, 0, 7/10, 0], "major"⟩, ⟨"E", [0, 0, 0, 0, 1, 0, 0, 0, 8/10, 0, 0, 7/10], "major"⟩, ⟨"F", [7/10, 0, 0, 0, 0, 1, 0, 0, 0, 8/10, 0, 0], "major"⟩, ⟨"F#", [0, 7/10, 0, 0, 0, 0, 1, 0, 0, 0, 8/10, 0], "major"⟩, ⟨"G", [0, 0, 7/10, 0, 0, 0, 0, 1, 0, 0, 0, 8/10], "major"⟩, ⟨"G#", [8/10, 0, 0, 7/10, 0, 0, 0, 0, 1, 0, 0, 0], "major"⟩, ⟨"A", [0, 8/10, 0, 0, 7/10, 0, 0, 0, 0, 1, 0, 0], "major"⟩, ⟨"A#", [0, 0, 8/10, 0, 0, 7/10, 0, 0, 0, 0, 1, 0], "major"⟩, ⟨"B", [0, 0, 0, 8/10, 0, 0, 7/10, 0, 0, 0, 0, 1], "major"⟩] : List ChordTemplate) ++
          ([(⟨"Cm", [1, 0, 0, 8/10, 0, 0, 0, 7/10, 0, 0, 0, 0], "minor"⟩ : ChordTemplate)] ++
            ([⟨"C#m", [0, 1, 0, 0, 8/10, 0, 0, 0, 7/10, 0, 0, 0], "minor"⟩, ⟨"Dm", [0, 0, 1, 0, 0, 8/10, 0, 0, 0, 7/10, 0, 0], "minor"⟩, ⟨"D#m", [0, 0, 0, 1, 0, 0, 8/10, 0, 0, 0, 7/10, 0], "minor"⟩, ⟨"Em", [0, 0, 0, 0, 1, 0, 0, 8/10, 0, 0, 0, 7/10], "minor"⟩, ⟨"Fm", [7/10, 0, 0, 0, 0, 1, 0, 0, 8/10, 0, 0, 0], "minor"⟩, ⟨"F#m", [0, 7/10, 0, 0, 0, 0, 1, 0, 0, 8/10, 0, 0], "minor"⟩, ⟨"Gm", [0, 0, 7/10, 0, 0, 0, 0, 1, 0, 0, 8/10, 0], "minor"⟩, ⟨"G#m", [0, 0, 0, 7/10, 0, 0, 0, 0, 1, 0, 0, 8/10], "minor"⟩, ⟨"Am", [8/10, 0, 0, 0, 7/10, 0, 0, 0, 0, 1, 0, 0], "minor"⟩, ⟨"A#m", [0, 8/10, 0, 0, 0, 7/10, 0, 0, 0, 0, 1, 0], "minor"⟩, ⟨"Bm", [0, 0, 8/10, 0, 0, 0, 7/10, 0, 0, 0, 0, 1], "minor"⟩] : List ChordTemplate))) from rfl]
    rw [List.foldl_append, e1, List.foldl_append, matchFold_keeps _ _ _ _ h11maj,
      List.foldl_append, e3, matchFold_keeps _ _ _ _ h11min]
  · rw [hs12, hs0]
    norm_num [Score.ltb]
